import Mathlib

/-!
# Minecraft operator: reconciliation loop

A shallow embedding of `internal/controller` (Go) and the properties of its
reconciliation pass.

* Go values that are mutated through a pointer (`minecraft`) are rebound.
* The object store (`client.Client`) is an interface over an abstract store
  state; every call is recorded, with its reply, in the log of the pass.
* A Go run-time panic is an explicit outcome (`Go.panic`).
-/

namespace MinecraftOperator

/-! ## Errors, results, Go outcomes -/

/-- An error value. `notFound` is what `apierrors.IsNotFound` reads. -/
structure Err where
  notFound : Bool
  msg : String
deriving DecidableEq, Repr

/-- The check `apierrors.IsNotFound(err)`. -/
def IsNotFound (err : Err) : Bool := err.notFound

/-- The value `ctrl.Result`; `RequeueAfter` is a duration in nanoseconds. -/
structure Result where
  Requeue : Bool := false
  RequeueAfter : Nat := 0
deriving DecidableEq, Repr

/-- The constant `time.Minute`, in nanoseconds. -/
def Minute : Nat := 60 * 1000000000

/-- The directives of the scheduler contract, read off a `ctrl.Result` the way
controller-runtime does: a positive delay wins over the requeue flag. -/
inductive Directive
  | Stop
  | RequeueImmediate
  | RequeueAfter (d : Nat)
deriving DecidableEq, Repr

/-- The directive a `ctrl.Result` stands for. -/
def Result.directive (res : Result) : Directive :=
  if 0 < res.RequeueAfter then Directive.RequeueAfter res.RequeueAfter
  else if res.Requeue then Directive.RequeueImmediate
  else Directive.Stop

/-- Outcome of running Go code: it returns a value or panics. -/
inductive Go (α : Type)
  | ret (a : α)
  | panic (msg : String)
deriving DecidableEq, Repr

/-- A Go call result `(value, error)`. -/
inductive Ret (α : Type)
  | ok (a : α)
  | error (err : Err)
deriving DecidableEq, Repr

/-! ## The parent object and its conditions -/

/-- Values of `metav1.ConditionStatus`. -/
inductive ConditionStatus
  | ConditionTrue
  | ConditionFalse
  | ConditionUnknown
deriving DecidableEq, Repr

/-- The type `metav1.Condition`; time `0` is the zero time. -/
structure Condition where
  type : String
  Status : ConditionStatus
  ObservedGeneration : Int := 0
  LastTransitionTime : Nat := 0
  Reason : String
  Message : String
deriving DecidableEq, Repr

/-- The key `types.NamespacedName`. -/
structure NamespacedName where
  Namespace : String
  Name : String
deriving DecidableEq, Repr

/-- Modelled from the spec: the parent type `cachev1alpha1.Minecraft` of
`api/v1alpha1`, whose declaration is not among the sources. It carries the
identity, the deletion marker, the finalizer set, the spec and the status
conditions (spec section 3, "Parent Object"). -/
structure Minecraft where
  Name : String
  Namespace : String
  UID : String := ""
  ResourceVersion : Nat := 0
  DeletionTimestamp : Option Nat := none
  Finalizers : List String := []
  Size : Int := 0
  Conditions : List Condition := []
deriving DecidableEq, Repr

def minecraftFinalizer : String := "cache.example.com/finalizer"

def typeAvailableMinecraft : String := "Available"

def typeDegradedMinecraft : String := "Degraded"

/-- Modelled from the spec: the update `meta.SetStatusCondition` (apimachinery,
not among the sources) applies to the existing condition of the same type
(spec section 4.3): reason and message are refreshed, the transition time
moves only when the status changes. -/
def mergeCondition (now : Nat) (existing newCondition : Condition) : Condition :=
  let c1 :=
    if existing.Status ≠ newCondition.Status then
      { existing with
        Status := newCondition.Status
        LastTransitionTime :=
          if newCondition.LastTransitionTime ≠ 0 then newCondition.LastTransitionTime
          else now }
    else existing
  { c1 with
    Reason := newCondition.Reason
    Message := newCondition.Message
    ObservedGeneration := newCondition.ObservedGeneration }

/-- Modelled from the spec: the function `meta.SetStatusCondition` of
apimachinery, which is not among the sources (spec section 4.3, `setCondition`),
on a non-nil list pointer: the first condition of the same type (what
`FindStatusCondition` returns) is updated in place; when there is none the new
condition is appended, stamped with the time when it carries none. `now` is the
reading of `time.Now()`. -/
def SetStatusCondition (now : Nat) : List Condition → Condition → List Condition
  | [], newCondition =>
    [if newCondition.LastTransitionTime = 0 then
      { newCondition with LastTransitionTime := now }
     else newCondition]
  | c :: conditions, newCondition =>
    if c.type = newCondition.type then mergeCondition now c newCondition :: conditions
    else c :: SetStatusCondition now conditions newCondition

/-- The call `meta.SetStatusCondition(&minecraft.Status.Conditions, c)`, which
mutates the parent in hand. -/
def Minecraft.setCondition (minecraft : Minecraft) (now : Nat) (c : Condition) :
    Minecraft :=
  { minecraft with Conditions := SetStatusCondition now minecraft.Conditions c }

/-- Modelled from the spec: the function `controllerutil.ContainsFinalizer` of
controller-runtime, which is not among the sources (spec section 4.2,
`hasObligation`). -/
def ContainsFinalizer (o : Minecraft) (finalizer : String) : Bool :=
  o.Finalizers.any (fun e => e == finalizer)

/-- Modelled from the spec: the function `controllerutil.AddFinalizer` of
controller-runtime, which is not among the sources (spec section 4.2,
`addObligation`, a no-op when the token is present): the object after the call
and whether the finalizers were updated. -/
def AddFinalizer (o : Minecraft) (finalizer : String) : Minecraft × Bool :=
  if o.Finalizers.any (fun e => e == finalizer) then (o, false)
  else ({ o with Finalizers := o.Finalizers ++ [finalizer] }, true)

/-- Modelled from the spec: the function `controllerutil.RemoveFinalizer` of
controller-runtime, which is not among the sources (spec section 4.2,
`removeObligation`, a no-op when the token is absent): the object after the
call and whether the finalizers were updated. -/
def RemoveFinalizer (o : Minecraft) (finalizer : String) : Minecraft × Bool :=
  let f := o.Finalizers.filter (fun e => e != finalizer)
  ({ o with Finalizers := f }, o.Finalizers.length != f.length)

/-! ## Dependent resources and their synthesizers -/

/-- A Go `map[string]string`, as the list of its entries. -/
abbrev StringMap := List (String × String)

/-- The assignment `m[k] = v` on a Go map. -/
def StringMap.set (m : StringMap) (k v : String) : StringMap :=
  if m.any (fun kv => kv.1 == k) then
    m.map (fun kv => if kv.1 == k then (k, v) else kv)
  else m ++ [(k, v)]

/-- The function `strings.Split(s, sep)` of Go for a one-character separator,
on the characters of `s`: the pieces between separators, `[s]` when `s` has no
separator. -/
def splitChars (sep : Char) : List Char → List (List Char)
  | [] => [[]]
  | c :: cs =>
    if c = sep then [] :: splitChars sep cs
    else
      match splitChars sep cs with
      | [] => [[c]]
      | piece :: pieces => (c :: piece) :: pieces

/-- The function `strings.Split(s, ":")`. -/
def stringsSplitColon (s : String) : List String :=
  (splitChars ':' s.data).map String.mk

/-- The scheme `runtime.Scheme` as far as the synthesizers read it: the look-up
of the group-version-kind of the parent type, which fails when the type is not
registered. -/
structure Scheme where
  gvkForMinecraft : Ret (String × String)
deriving DecidableEq, Repr

/-- The type `metav1.OwnerReference`. -/
structure OwnerReference where
  APIVersion : String
  Kind : String
  Name : String
  UID : String
  Controller : Bool
  BlockOwnerDeletion : Bool
deriving DecidableEq, Repr

/-- The type `metav1.ObjectMeta`, the fields the synthesizers fill. -/
structure ObjectMeta where
  Name : String
  Namespace : String
  Labels : StringMap := []
  Annotations : StringMap := []
  OwnerReferences : List OwnerReference := []
deriving DecidableEq, Repr

/-- Modelled from the spec: the function
`ctrl.SetControllerReference(owner, controlled, scheme)` of controller-runtime,
which is not among the sources (spec section 4.4, the owner reference each
synthesizer stamps), for a freshly built dependent in the owner's namespace: it
fails only when the scheme cannot resolve the owner's kind, and otherwise stamps
the controlling owner reference. -/
def SetControllerReference (owner : Minecraft) (controlled : ObjectMeta)
    (scheme : Scheme) : Ret ObjectMeta :=
  match scheme.gvkForMinecraft with
  | Ret.error err => Ret.error err
  | Ret.ok gvk =>
    Ret.ok { controlled with
      OwnerReferences := controlled.OwnerReferences ++
        [{ APIVersion := gvk.1, Kind := gvk.2, Name := owner.Name, UID := owner.UID,
           Controller := true, BlockOwnerDeletion := true }] }

/-- The type `corev1.PersistentVolumeClaim`. -/
structure PersistentVolumeClaim where
  ObjectMeta : ObjectMeta
  AccessModes : List String
  StorageRequest : String
deriving DecidableEq, Repr

/-- The type `corev1.ConfigMap`. -/
structure ConfigMap where
  ObjectMeta : ObjectMeta
  Data : StringMap
deriving DecidableEq, Repr

/-- The type `corev1.ServicePort`. -/
structure ServicePort where
  Name : String
  Protocol : String
  Port : Nat
deriving DecidableEq, Repr

/-- The type `corev1.Service`. -/
structure Service where
  ObjectMeta : ObjectMeta
  Selector : StringMap
  Ports : List ServicePort
deriving DecidableEq, Repr

/-- The type `corev1.Probe` with an exec handler. -/
structure Probe where
  InitialDelaySeconds : Nat
  PeriodSeconds : Nat
  Command : List String
deriving DecidableEq, Repr

/-- The type `corev1.VolumeMount`. -/
structure VolumeMount where
  Name : String
  MountPath : String
deriving DecidableEq, Repr

/-- The type `corev1.Container`; `EnvFrom` lists the names of the referenced
ConfigMaps. -/
structure Container where
  Image : String
  Name : String
  ImagePullPolicy : String
  EnvFrom : List String
  LivenessProbe : Probe
  ReadinessProbe : Probe
  VolumeMounts : List VolumeMount
deriving DecidableEq, Repr

/-- The type `corev1.Volume` backed by a persistent volume claim. -/
structure Volume where
  Name : String
  ClaimName : String
  ReadOnly : Bool
deriving DecidableEq, Repr

/-- The type `appsv1.StatefulSet`. -/
structure StatefulSet where
  ObjectMeta : ObjectMeta
  Replicas : Int
  MatchLabels : StringMap
  ServiceName : String
  TemplateLabels : StringMap
  Containers : List Container
  Volumes : List Volume
deriving DecidableEq, Repr

/-- The four kinds of dependent, in the order `Reconcile` checks them. -/
inductive Kind
  | PersistentVolumeClaim
  | ConfigMap
  | StatefulSet
  | Service
deriving DecidableEq, Repr

/-- An object handed to `r.Create`. -/
inductive Object
  | pvc (o : PersistentVolumeClaim)
  | configMap (o : ConfigMap)
  | statefulSet (o : StatefulSet)
  | service (o : Service)
deriving DecidableEq, Repr

/-- The kind of an object. -/
def Object.kind : Object → Kind
  | Object.pvc _ => Kind.PersistentVolumeClaim
  | Object.configMap _ => Kind.ConfigMap
  | Object.statefulSet _ => Kind.StatefulSet
  | Object.service _ => Kind.Service

/-- The metadata of an object. -/
def Object.meta : Object → ObjectMeta
  | Object.pvc o => o.ObjectMeta
  | Object.configMap o => o.ObjectMeta
  | Object.statefulSet o => o.ObjectMeta
  | Object.service o => o.ObjectMeta

/-- The function `imageForMinecraft`; `env` is the reading
`os.LookupEnv("MINECRAFT_IMAGE")`. Its error is always nil. -/
def imageForMinecraft (env : Option String) : Ret String :=
  let defaultImage := "itzg/minecraft-server:latest"
  match env with
  | none => Ret.ok defaultImage
  | some image => Ret.ok image

/-- The function `labelsForMinecraft`. The index `[1]` into the split image
panics when the image has no colon. -/
def labelsForMinecraft (env : Option String) (minecraft : Minecraft) : Go StringMap :=
  let imageTag : Go String :=
    match imageForMinecraft env with
    | Ret.ok image =>
      match (stringsSplitColon image).get? 1 with
      | some tag => Go.ret tag
      | none => Go.panic "index out of range [1]"
    | Ret.error _ => Go.ret ""
  match imageTag with
  | Go.panic msg => Go.panic msg
  | Go.ret imageTag =>
    let ls : StringMap := []
    let ls := ls.set "app.kubernetes.io/name" "minecraft-operator"
    let ls := ls.set "app.kubernetes.io/version" imageTag
    let ls := ls.set "app.kubernetes.io/managed-by" "MinecraftController"
    let ls := ls.set "cache.example.com/name" minecraft.Name
    let ls := ls.set "containertype" "minecraft-server"
    Go.ret ls

/-- The method `pvcForMinecraft`. -/
def pvcForMinecraft (scheme : Scheme) (env : Option String) (minecraft : Minecraft) :
    Go (Ret PersistentVolumeClaim) :=
  match labelsForMinecraft env minecraft with
  | Go.panic msg => Go.panic msg
  | Go.ret ls =>
    let pvc : PersistentVolumeClaim :=
      { ObjectMeta := { Name := minecraft.Name, Namespace := minecraft.Namespace, Labels := ls }
        AccessModes := ["ReadWriteOnce"]
        StorageRequest := "2Gi" }
    match SetControllerReference minecraft pvc.ObjectMeta scheme with
    | Ret.error err => Go.ret (Ret.error err)
    | Ret.ok om => Go.ret (Ret.ok { pvc with ObjectMeta := om })

/-- The method `configmapForMinecraft`. -/
def configmapForMinecraft (scheme : Scheme) (env : Option String) (minecraft : Minecraft) :
    Go (Ret ConfigMap) :=
  match labelsForMinecraft env minecraft with
  | Go.panic msg => Go.panic msg
  | Go.ret ls =>
    let configmap : ConfigMap :=
      { ObjectMeta := { Name := minecraft.Name, Namespace := minecraft.Namespace, Labels := ls }
        Data := [("EULA", "TRUE")] }
    match SetControllerReference minecraft configmap.ObjectMeta scheme with
    | Ret.error err => Go.ret (Ret.error err)
    | Ret.ok om => Go.ret (Ret.ok { configmap with ObjectMeta := om })

/-- The method `serviceForMinecraft`. -/
def serviceForMinecraft (scheme : Scheme) (env : Option String) (minecraft : Minecraft) :
    Go (Ret Service) :=
  match labelsForMinecraft env minecraft with
  | Go.panic msg => Go.panic msg
  | Go.ret ls =>
    let service : Service :=
      { ObjectMeta :=
          { Name := minecraft.Name, Namespace := minecraft.Namespace,
            Annotations :=
              [("mc-router.itzg.me/externalServerName", minecraft.Name ++ ".andylile.com")] }
        Selector := ls
        Ports := [{ Name := "minecraft", Protocol := "TCP", Port := 25565 }] }
    match SetControllerReference minecraft service.ObjectMeta scheme with
    | Ret.error err => Go.ret (Ret.error err)
    | Ret.ok om => Go.ret (Ret.ok { service with ObjectMeta := om })

/-- The method `statefulsetForMinecraft`. -/
def statefulsetForMinecraft (scheme : Scheme) (env : Option String) (minecraft : Minecraft) :
    Go (Ret StatefulSet) :=
  match labelsForMinecraft env minecraft with
  | Go.panic msg => Go.panic msg
  | Go.ret ls =>
    let replicas : Int := 1
    match imageForMinecraft env with
    | Ret.error err => Go.ret (Ret.error err)
    | Ret.ok image =>
      let statefulset : StatefulSet :=
        { ObjectMeta :=
            { Name := minecraft.Name, Namespace := minecraft.Namespace,
              Annotations := [("reloader.stakater.com/auto", "true")] }
          Replicas := replicas
          MatchLabels := ls
          ServiceName := minecraft.Name
          TemplateLabels := ls
          Containers :=
            [{ Image := image
               Name := "minecraft"
               ImagePullPolicy := "IfNotPresent"
               EnvFrom := [minecraft.Name]
               LivenessProbe :=
                 { InitialDelaySeconds := 90, PeriodSeconds := 15,
                   Command := ["mc-monitor", "status"] }
               ReadinessProbe :=
                 { InitialDelaySeconds := 30, PeriodSeconds := 5,
                   Command := ["mc-monitor", "status"] }
               VolumeMounts := [{ Name := minecraft.Name, MountPath := "/data" }] }]
          Volumes :=
            [{ Name := minecraft.Name, ClaimName := minecraft.Name, ReadOnly := false }] }
      match SetControllerReference minecraft statefulset.ObjectMeta scheme with
      | Ret.error err => Go.ret (Ret.error err)
      | Ret.ok om => Go.ret (Ret.ok { statefulset with ObjectMeta := om })

/-! ## The store, the log of a pass, the reconciler -/

/-- The store client `client.Client` over a store state `σ`. A fetch of the
parent returns the object or an error; a fetch of a dependent returns `none`
when it is found (its content is never read) or the error; a write of the
parent returns the object as the server sends it back, or an error. Every call
may change the store state. -/
structure Client (σ : Type) where
  Get : σ → NamespacedName → Ret Minecraft × σ
  GetDependent : σ → Kind → NamespacedName → Option Err × σ
  StatusUpdate : σ → Minecraft → Ret Minecraft × σ
  Update : σ → Minecraft → Ret Minecraft × σ
  Create : σ → Object → Option Err × σ

/-- One entry of the log of a pass: a call to the store with its reply, or an
event handed to the recorder. -/
inductive Entry
  | Get (key : NamespacedName) (reply : Ret Minecraft)
  | GetDependent (kind : Kind) (key : NamespacedName) (reply : Option Err)
  | StatusUpdate (obj : Minecraft) (reply : Ret Minecraft)
  | Update (obj : Minecraft) (reply : Ret Minecraft)
  | Create (obj : Object) (reply : Option Err)
  | Event (obj : Minecraft) (eventtype reason message : String)
deriving DecidableEq, Repr

/-- The world a pass runs in: the store state and the log of the pass so far,
oldest entry first. -/
structure World (σ : Type) where
  store : σ
  log : List Entry

/-- The type `MinecraftReconciler`: the client, the scheme, the recorder (its
events go to the log), with the process environment value `MINECRAFT_IMAGE` and
the clock `time.Now()` the pass reads. -/
structure MinecraftReconciler (σ : Type) where
  Client : Client σ
  Scheme : Scheme
  MINECRAFT_IMAGE : Option String
  Now : σ → Nat

/-- The request `ctrl.Request`. -/
structure Request where
  NamespacedName : NamespacedName
deriving DecidableEq, Repr

variable {σ : Type}

/-- The call `r.Get(ctx, key, minecraft)`. -/
def MinecraftReconciler.Get (r : MinecraftReconciler σ) (w : World σ)
    (key : NamespacedName) : Ret Minecraft × World σ :=
  let res := r.Client.Get w.store key
  (res.1, { store := res.2, log := w.log ++ [Entry.Get key res.1] })

/-- The call `r.Get(ctx, key, found)` for a dependent of the given kind. -/
def MinecraftReconciler.GetDependent (r : MinecraftReconciler σ) (w : World σ)
    (kind : Kind) (key : NamespacedName) : Option Err × World σ :=
  let res := r.Client.GetDependent w.store kind key
  (res.1, { store := res.2, log := w.log ++ [Entry.GetDependent kind key res.1] })

/-- The call `r.Status().Update(ctx, minecraft)`. -/
def MinecraftReconciler.StatusUpdate (r : MinecraftReconciler σ) (w : World σ)
    (minecraft : Minecraft) : Ret Minecraft × World σ :=
  let res := r.Client.StatusUpdate w.store minecraft
  (res.1, { store := res.2, log := w.log ++ [Entry.StatusUpdate minecraft res.1] })

/-- The call `r.Update(ctx, minecraft)`. -/
def MinecraftReconciler.Update (r : MinecraftReconciler σ) (w : World σ)
    (minecraft : Minecraft) : Ret Minecraft × World σ :=
  let res := r.Client.Update w.store minecraft
  (res.1, { store := res.2, log := w.log ++ [Entry.Update minecraft res.1] })

/-- The call `r.Create(ctx, obj)`. -/
def MinecraftReconciler.Create (r : MinecraftReconciler σ) (w : World σ)
    (obj : Object) : Option Err × World σ :=
  let res := r.Client.Create w.store obj
  (res.1, { store := res.2, log := w.log ++ [Entry.Create obj res.1] })

/-- What a pass hands back: the returned `(ctrl.Result, error)` or a panic, and
the world after it. -/
abbrev Pass (σ : Type) := Go (Result × Option Err) × World σ

/-- The condition `Available=False, reason "Reconciling"` the create operations
set when synthesis fails. -/
def failedCondition (message : String) : Condition :=
  { type := typeAvailableMinecraft, Status := ConditionStatus.ConditionFalse,
    Reason := "Reconciling", Message := message }

/-- The shared failure path of the four create operations: set the condition,
write the status, return the status error if that fails and the synthesis error
otherwise. -/
def reportSynthesisFailure (r : MinecraftReconciler σ) (minecraft : Minecraft)
    (w : World σ) (err : Err) (message : String) : Pass σ :=
  let minecraft := minecraft.setCondition (r.Now w.store) (failedCondition message)
  match r.StatusUpdate w minecraft with
  | (Ret.error err, w) => (Go.ret ({}, some err), w)
  | (Ret.ok _, w) => (Go.ret ({}, some err), w)

/-- The method `createMinecraftPVC`. -/
def createMinecraftPVC (r : MinecraftReconciler σ) (minecraft : Minecraft)
    (w : World σ) : Pass σ :=
  match pvcForMinecraft r.Scheme r.MINECRAFT_IMAGE minecraft with
  | Go.panic msg => (Go.panic msg, w)
  | Go.ret (Ret.error err) =>
    reportSynthesisFailure r minecraft w err
      ("Failed to create PVC for the custom resource (" ++ minecraft.Name ++ "): ("
        ++ err.msg ++ ")")
  | Go.ret (Ret.ok pvc) =>
    match r.Create w (Object.pvc pvc) with
    | (some err, w) => (Go.ret ({}, some err), w)
    | (none, w) => (Go.ret ({ RequeueAfter := Minute }, none), w)

/-- The method `createMinecraftConfigMap`. -/
def createMinecraftConfigMap (r : MinecraftReconciler σ) (minecraft : Minecraft)
    (w : World σ) : Pass σ :=
  match configmapForMinecraft r.Scheme r.MINECRAFT_IMAGE minecraft with
  | Go.panic msg => (Go.panic msg, w)
  | Go.ret (Ret.error err) =>
    reportSynthesisFailure r minecraft w err
      ("Failed to creat ConfigMap for the custom resource (" ++ minecraft.Name ++ "): ("
        ++ err.msg ++ ")")
  | Go.ret (Ret.ok cm) =>
    match r.Create w (Object.configMap cm) with
    | (some err, w) => (Go.ret ({}, some err), w)
    | (none, w) => (Go.ret ({ Requeue := true }, none), w)

/-- The method `createMinecraftStatefulSet`. -/
def createMinecraftStatefulSet (r : MinecraftReconciler σ) (minecraft : Minecraft)
    (w : World σ) : Pass σ :=
  match statefulsetForMinecraft r.Scheme r.MINECRAFT_IMAGE minecraft with
  | Go.panic msg => (Go.panic msg, w)
  | Go.ret (Ret.error err) =>
    reportSynthesisFailure r minecraft w err
      ("Failed to create StatefulSet for the custom resource (" ++ minecraft.Name ++ "): ("
        ++ err.msg ++ ")")
  | Go.ret (Ret.ok statefulset) =>
    match r.Create w (Object.statefulSet statefulset) with
    | (some err, w) => (Go.ret ({}, some err), w)
    | (none, w) => (Go.ret ({ RequeueAfter := Minute }, none), w)

/-- The method `createMinecraftService`. -/
def createMinecraftService (r : MinecraftReconciler σ) (minecraft : Minecraft)
    (w : World σ) : Pass σ :=
  match serviceForMinecraft r.Scheme r.MINECRAFT_IMAGE minecraft with
  | Go.panic msg => (Go.panic msg, w)
  | Go.ret (Ret.error err) =>
    reportSynthesisFailure r minecraft w err
      ("Failed to create Service for the custom resource (" ++ minecraft.Name ++ "): ("
        ++ err.msg ++ ")")
  | Go.ret (Ret.ok svc) =>
    match r.Create w (Object.service svc) with
    | (some err, w) => (Go.ret ({}, some err), w)
    | (none, w) => (Go.ret ({ Requeue := true }, none), w)

/-- The method `doFinalizerOperationsForMinecraft`: it records one event. -/
def doFinalizerOperationsForMinecraft (cr : Minecraft) (w : World σ) : World σ :=
  { w with
    log := w.log ++
      [Entry.Event cr "Warning" "Deleting"
        ("Custom Resource " ++ cr.Name ++ " is being deleted from the namespace "
          ++ cr.Namespace)] }

/-! ## Reconcile -/

/-- Control after a block of `Reconcile`: fall through to the next block with
the parent in hand, or return from the pass. -/
inductive Flow
  | next (minecraft : Minecraft)
  | done (res : Go (Result × Option Err))
deriving DecidableEq, Repr

/-- Lines 103-120 of `Reconcile`: with no condition yet, set
`Available=Unknown`, write the status and fetch the parent again. -/
def initializeStatus (r : MinecraftReconciler σ) (req : Request)
    (minecraft : Minecraft) (w : World σ) : Flow × World σ :=
  if minecraft.Conditions.length = 0 then
    let minecraft := minecraft.setCondition (r.Now w.store)
      { type := typeAvailableMinecraft, Status := ConditionStatus.ConditionUnknown,
        Reason := "Reconciling", Message := "Starting reconciliation" }
    match r.StatusUpdate w minecraft with
    | (Ret.error err, w) => (Flow.done (Go.ret ({}, some err)), w)
    | (Ret.ok _, w) =>
      match r.Get w req.NamespacedName with
      | (Ret.error err, w) => (Flow.done (Go.ret ({}, some err)), w)
      | (Ret.ok minecraft, w) => (Flow.next minecraft, w)
  else (Flow.next minecraft, w)

/-- Lines 122-136 of `Reconcile`: add the finalizer when the parent does not
carry it, and update the parent. -/
def ensureFinalizer (r : MinecraftReconciler σ) (minecraft : Minecraft)
    (w : World σ) : Flow × World σ :=
  if !ContainsFinalizer minecraft minecraftFinalizer then
    match AddFinalizer minecraft minecraftFinalizer with
    | (_, false) => (Flow.done (Go.ret ({ Requeue := true }, none)), w)
    | (minecraft, true) =>
      match r.Update w minecraft with
      | (Ret.error err, w) => (Flow.done (Go.ret ({}, some err)), w)
      | (Ret.ok minecraft, w) => (Flow.next minecraft, w)
  else (Flow.next minecraft, w)

/-- Lines 141-193 of `Reconcile`: the branch taken when the parent is marked
to be deleted. -/
def finalizeMinecraft (r : MinecraftReconciler σ) (req : Request)
    (minecraft : Minecraft) (w : World σ) : Pass σ :=
  if ContainsFinalizer minecraft minecraftFinalizer then
    let minecraft := minecraft.setCondition (r.Now w.store)
      { type := typeDegradedMinecraft, Status := ConditionStatus.ConditionUnknown,
        Reason := "Finalizing",
        Message := "Performing finalizer operations for the custom resource: "
          ++ minecraft.Name ++ " " }
    match r.StatusUpdate w minecraft with
    | (Ret.error err, w) => (Go.ret ({}, some err), w)
    | (Ret.ok minecraft, w) =>
      let w := doFinalizerOperationsForMinecraft minecraft w
      match r.Get w req.NamespacedName with
      | (Ret.error err, w) => (Go.ret ({}, some err), w)
      | (Ret.ok minecraft, w) =>
        let minecraft := minecraft.setCondition (r.Now w.store)
          { type := typeDegradedMinecraft, Status := ConditionStatus.ConditionTrue,
            Reason := "Finalizing",
            Message := "Finalizer operations for custom resource " ++ minecraft.Name
              ++ " name were successfully accomplished" }
        match r.StatusUpdate w minecraft with
        | (Ret.error err, w) => (Go.ret ({}, some err), w)
        | (Ret.ok minecraft, w) =>
          match RemoveFinalizer minecraft minecraftFinalizer with
          | (_, false) => (Go.ret ({ Requeue := true }, none), w)
          | (minecraft, true) =>
            match r.Update w minecraft with
            | (Ret.error err, w) => (Go.ret ({}, some err), w)
            | (Ret.ok _, w) => (Go.ret ({}, none), w)
  else (Go.ret ({}, none), w)

/-- Lines 195-239 of `Reconcile`: fetch the four dependents in order and hand
over to the create operation of the first one that is not found. -/
def reconcileDependents (r : MinecraftReconciler σ) (minecraft : Minecraft)
    (w : World σ) : Pass σ :=
  let key : NamespacedName := { Name := minecraft.Name, Namespace := minecraft.Namespace }
  match r.GetDependent w Kind.PersistentVolumeClaim key with
  | (some err, w) =>
    if IsNotFound err then createMinecraftPVC r minecraft w
    else (Go.ret ({}, some err), w)
  | (none, w) =>
    match r.GetDependent w Kind.ConfigMap key with
    | (some err, w) =>
      if IsNotFound err then createMinecraftConfigMap r minecraft w
      else (Go.ret ({}, some err), w)
    | (none, w) =>
      match r.GetDependent w Kind.StatefulSet key with
      | (some err, w) =>
        if IsNotFound err then createMinecraftStatefulSet r minecraft w
        else (Go.ret ({}, some err), w)
      | (none, w) =>
        match r.GetDependent w Kind.Service key with
        | (some err, w) =>
          if IsNotFound err then createMinecraftService r minecraft w
          else (Go.ret ({}, some err), w)
        | (none, w) => (Go.ret ({}, none), w)

/-- The method `Reconcile`, run from a world `w`. -/
def ReconcileFrom (r : MinecraftReconciler σ) (req : Request) (w : World σ) : Pass σ :=
  match r.Get w req.NamespacedName with
  | (Ret.error err, w) =>
    if IsNotFound err then (Go.ret ({}, none), w)
    else (Go.ret ({}, some err), w)
  | (Ret.ok minecraft, w) =>
    match initializeStatus r req minecraft w with
    | (Flow.done res, w) => (res, w)
    | (Flow.next minecraft, w) =>
      match ensureFinalizer r minecraft w with
      | (Flow.done res, w) => (res, w)
      | (Flow.next minecraft, w) =>
        let isMinecraftMarkedToBeDeleted := minecraft.DeletionTimestamp != none
        if isMinecraftMarkedToBeDeleted then finalizeMinecraft r req minecraft w
        else reconcileDependents r minecraft w

/-- One pass of `Reconcile` over the store state `s`: the log starts empty. -/
def Reconcile (r : MinecraftReconciler σ) (req : Request) (s : σ) : Pass σ :=
  ReconcileFrom r req { store := s, log := [] }

/-! ## Reading the log of a pass -/

/-- A call that creates a dependent. -/
def Entry.isCreate : Entry → Bool
  | Entry.Create _ _ => true
  | _ => false

/-- A write to the store: a status update, a parent update or a create. -/
def Entry.isWrite : Entry → Bool
  | Entry.StatusUpdate _ _ => true
  | Entry.Update _ _ => true
  | Entry.Create _ _ => true
  | _ => false

/-- A call to the store (anything but a recorded event). -/
def Entry.isStoreCall : Entry → Bool
  | Entry.Event _ _ _ _ => false
  | _ => true

/-- An effect of a pass: a write to the store or a recorded event. -/
def Entry.isEffect : Entry → Bool
  | Entry.Get _ _ => false
  | Entry.GetDependent _ _ _ => false
  | _ => true

/-- The error a store call returned, where a fetch that reports NotFound does
not count as an error. -/
def Entry.failure : Entry → Option Err
  | Entry.Get _ (Ret.error err) => if IsNotFound err then none else some err
  | Entry.GetDependent _ _ (some err) => if IsNotFound err then none else some err
  | Entry.StatusUpdate _ (Ret.error err) => some err
  | Entry.Update _ (Ret.error err) => some err
  | Entry.Create _ (some err) => some err
  | _ => none

/-- A store call that did not succeed: any error of a parent fetch or of a
write, and any error of a dependent fetch other than NotFound. -/
def Entry.failed : Entry → Bool
  | Entry.Get _ (Ret.error _) => true
  | Entry.GetDependent _ _ (some err) => !IsNotFound err
  | Entry.StatusUpdate _ (Ret.error _) => true
  | Entry.Update _ (Ret.error _) => true
  | Entry.Create _ (some _) => true
  | _ => false

/-- The parent object the store handed back in this call, if any. -/
def Entry.parent : Entry → Option Minecraft
  | Entry.Get _ (Ret.ok m) => some m
  | Entry.StatusUpdate _ (Ret.ok m) => some m
  | Entry.Update _ (Ret.ok m) => some m
  | _ => none

/-- The kind of dependent a call fetches. -/
def Entry.fetchedKind : Entry → Option Kind
  | Entry.GetDependent kind _ _ => some kind
  | _ => none

/-- The kind of dependent a fetch found absent. -/
def Entry.absentKind : Entry → Option Kind
  | Entry.GetDependent kind _ (some err) => if IsNotFound err then some kind else none
  | _ => none

/-- The object a call creates. -/
def Entry.created : Entry → Option Object
  | Entry.Create obj _ => some obj
  | _ => none

/-- The fixed order in which `Reconcile` checks the dependents. -/
def dependencyOrder : List Kind :=
  [Kind.PersistentVolumeClaim, Kind.ConfigMap, Kind.StatefulSet, Kind.Service]

/-- Position of a kind in the dependency order. -/
def Kind.rank : Kind → Nat
  | Kind.PersistentVolumeClaim => 0
  | Kind.ConfigMap => 1
  | Kind.StatefulSet => 2
  | Kind.Service => 3

/-- A list of conditions has a condition of this type, status and reason. -/
def hasCondition (conditions : List Condition) (type : String)
    (status : ConditionStatus) (reason : String) : Bool :=
  conditions.any (fun c => c.type == type && c.Status == status && c.Reason == reason)

/-! ## The runs of a pass

The possible logs and results of each block of `Reconcile`, whatever the store
answers. `Reconcile` is shown below to produce one of these runs. -/

/-- The condition set at lines 105. -/
abbrev startingCondition : Condition :=
  { type := typeAvailableMinecraft, Status := ConditionStatus.ConditionUnknown,
    Reason := "Reconciling", Message := "Starting reconciliation" }

/-- The condition set at lines 146-148. -/
abbrev finalizingCondition (minecraft : Minecraft) : Condition :=
  { type := typeDegradedMinecraft, Status := ConditionStatus.ConditionUnknown,
    Reason := "Finalizing",
    Message := "Performing finalizer operations for the custom resource: "
      ++ minecraft.Name ++ " " }

/-- The condition set at lines 172-174. -/
abbrev finalizedCondition (minecraft : Minecraft) : Condition :=
  { type := typeDegradedMinecraft, Status := ConditionStatus.ConditionTrue,
    Reason := "Finalizing",
    Message := "Finalizer operations for custom resource " ++ minecraft.Name
      ++ " name were successfully accomplished" }

/-- The event `doFinalizerOperationsForMinecraft` records. -/
def deletingEvent (cr : Minecraft) : Entry :=
  Entry.Event cr "Warning" "Deleting"
    ("Custom Resource " ++ cr.Name ++ " is being deleted from the namespace " ++ cr.Namespace)

/-- The key under which `Reconcile` fetches the dependents of a parent. -/
abbrev dependentKey (minecraft : Minecraft) : NamespacedName :=
  { Name := minecraft.Name, Namespace := minecraft.Namespace }

/-- A synthesizer result seen as a result over `Object`. -/
def asObject {α : Type} (wrap : α → Object) : Go (Ret α) → Go (Ret Object)
  | Go.panic msg => Go.panic msg
  | Go.ret (Ret.error err) => Go.ret (Ret.error err)
  | Go.ret (Ret.ok o) => Go.ret (Ret.ok (wrap o))

/-- The synthesizer of each kind of dependent. -/
def synthesize (r : MinecraftReconciler σ) (minecraft : Minecraft) : Kind → Go (Ret Object)
  | Kind.PersistentVolumeClaim =>
    asObject Object.pvc (pvcForMinecraft r.Scheme r.MINECRAFT_IMAGE minecraft)
  | Kind.ConfigMap =>
    asObject Object.configMap (configmapForMinecraft r.Scheme r.MINECRAFT_IMAGE minecraft)
  | Kind.StatefulSet =>
    asObject Object.statefulSet (statefulsetForMinecraft r.Scheme r.MINECRAFT_IMAGE minecraft)
  | Kind.Service =>
    asObject Object.service (serviceForMinecraft r.Scheme r.MINECRAFT_IMAGE minecraft)

/-- The create operation of each kind of dependent. -/
def createDependent (r : MinecraftReconciler σ) (minecraft : Minecraft) (w : World σ) :
    Kind → Pass σ
  | Kind.PersistentVolumeClaim => createMinecraftPVC r minecraft w
  | Kind.ConfigMap => createMinecraftConfigMap r minecraft w
  | Kind.StatefulSet => createMinecraftStatefulSet r minecraft w
  | Kind.Service => createMinecraftService r minecraft w

/-- The result each create operation returns after a successful create. -/
def createdResult : Kind → Result
  | Kind.PersistentVolumeClaim => { RequeueAfter := Minute }
  | Kind.ConfigMap => { Requeue := true }
  | Kind.StatefulSet => { RequeueAfter := Minute }
  | Kind.Service => { Requeue := true }

/-- The message of the condition each create operation sets when synthesis
fails. -/
def failureMessage (minecraft : Minecraft) (err : Err) : Kind → String
  | Kind.PersistentVolumeClaim =>
    "Failed to create PVC for the custom resource (" ++ minecraft.Name ++ "): ("
      ++ err.msg ++ ")"
  | Kind.ConfigMap =>
    "Failed to creat ConfigMap for the custom resource (" ++ minecraft.Name ++ "): ("
      ++ err.msg ++ ")"
  | Kind.StatefulSet =>
    "Failed to create StatefulSet for the custom resource (" ++ minecraft.Name ++ "): ("
      ++ err.msg ++ ")"
  | Kind.Service =>
    "Failed to create Service for the custom resource (" ++ minecraft.Name ++ "): ("
      ++ err.msg ++ ")"

/-- Runs of lines 103-120 on the parent `m`. -/
inductive InitRun (req : Request) (m : Minecraft) : Flow → List Entry → Prop
  | skip (h : m.Conditions.length ≠ 0) : InitRun req m (Flow.next m) []
  | statusError (h : m.Conditions.length = 0) (now : Nat) (err : Err) :
    InitRun req m (Flow.done (Go.ret ({}, some err)))
      [Entry.StatusUpdate (m.setCondition now startingCondition) (Ret.error err)]
  | getError (h : m.Conditions.length = 0) (now : Nat) (m1 : Minecraft) (err : Err) :
    InitRun req m (Flow.done (Go.ret ({}, some err)))
      [Entry.StatusUpdate (m.setCondition now startingCondition) (Ret.ok m1),
       Entry.Get req.NamespacedName (Ret.error err)]
  | refreshed (h : m.Conditions.length = 0) (now : Nat) (m1 m2 : Minecraft) :
    InitRun req m (Flow.next m2)
      [Entry.StatusUpdate (m.setCondition now startingCondition) (Ret.ok m1),
       Entry.Get req.NamespacedName (Ret.ok m2)]

/-- Runs of lines 122-136 on the parent `m`. -/
inductive FinalizerRun (m : Minecraft) : Flow → List Entry → Prop
  | present (h : ContainsFinalizer m minecraftFinalizer = true) :
    FinalizerRun m (Flow.next m) []
  | updateError (h : ContainsFinalizer m minecraftFinalizer = false) (err : Err) :
    FinalizerRun m (Flow.done (Go.ret ({}, some err)))
      [Entry.Update (AddFinalizer m minecraftFinalizer).1 (Ret.error err)]
  | updated (h : ContainsFinalizer m minecraftFinalizer = false) (m1 : Minecraft) :
    FinalizerRun m (Flow.next m1)
      [Entry.Update (AddFinalizer m minecraftFinalizer).1 (Ret.ok m1)]

/-- Runs of lines 141-193 on the parent `m`, which is marked to be deleted. -/
inductive DeleteRun (req : Request) (m : Minecraft) :
    Go (Result × Option Err) → List Entry → Prop
  | noFinalizer (h : ContainsFinalizer m minecraftFinalizer = false) :
    DeleteRun req m (Go.ret ({}, none)) []
  | statusError (h : ContainsFinalizer m minecraftFinalizer = true) (now : Nat) (err : Err) :
    DeleteRun req m (Go.ret ({}, some err))
      [Entry.StatusUpdate (m.setCondition now (finalizingCondition m)) (Ret.error err)]
  | getError (h : ContainsFinalizer m minecraftFinalizer = true) (now : Nat)
      (m1 : Minecraft) (err : Err) :
    DeleteRun req m (Go.ret ({}, some err))
      [Entry.StatusUpdate (m.setCondition now (finalizingCondition m)) (Ret.ok m1),
       deletingEvent m1,
       Entry.Get req.NamespacedName (Ret.error err)]
  | secondStatusError (h : ContainsFinalizer m minecraftFinalizer = true) (now : Nat)
      (m1 m2 : Minecraft) (now2 : Nat) (err : Err) :
    DeleteRun req m (Go.ret ({}, some err))
      [Entry.StatusUpdate (m.setCondition now (finalizingCondition m)) (Ret.ok m1),
       deletingEvent m1,
       Entry.Get req.NamespacedName (Ret.ok m2),
       Entry.StatusUpdate (m2.setCondition now2 (finalizedCondition m2)) (Ret.error err)]
  | finalizerGone (h : ContainsFinalizer m minecraftFinalizer = true) (now : Nat)
      (m1 m2 : Minecraft) (now2 : Nat) (m3 : Minecraft)
      (h3 : ContainsFinalizer m3 minecraftFinalizer = false) :
    DeleteRun req m (Go.ret ({ Requeue := true }, none))
      [Entry.StatusUpdate (m.setCondition now (finalizingCondition m)) (Ret.ok m1),
       deletingEvent m1,
       Entry.Get req.NamespacedName (Ret.ok m2),
       Entry.StatusUpdate (m2.setCondition now2 (finalizedCondition m2)) (Ret.ok m3)]
  | updateError (h : ContainsFinalizer m minecraftFinalizer = true) (now : Nat)
      (m1 m2 : Minecraft) (now2 : Nat) (m3 : Minecraft)
      (h3 : ContainsFinalizer m3 minecraftFinalizer = true) (err : Err) :
    DeleteRun req m (Go.ret ({}, some err))
      [Entry.StatusUpdate (m.setCondition now (finalizingCondition m)) (Ret.ok m1),
       deletingEvent m1,
       Entry.Get req.NamespacedName (Ret.ok m2),
       Entry.StatusUpdate (m2.setCondition now2 (finalizedCondition m2)) (Ret.ok m3),
       Entry.Update (RemoveFinalizer m3 minecraftFinalizer).1 (Ret.error err)]
  | finished (h : ContainsFinalizer m minecraftFinalizer = true) (now : Nat)
      (m1 m2 : Minecraft) (now2 : Nat) (m3 : Minecraft)
      (h3 : ContainsFinalizer m3 minecraftFinalizer = true) (m4 : Minecraft) :
    DeleteRun req m (Go.ret ({}, none))
      [Entry.StatusUpdate (m.setCondition now (finalizingCondition m)) (Ret.ok m1),
       deletingEvent m1,
       Entry.Get req.NamespacedName (Ret.ok m2),
       Entry.StatusUpdate (m2.setCondition now2 (finalizedCondition m2)) (Ret.ok m3),
       Entry.Update (RemoveFinalizer m3 minecraftFinalizer).1 (Ret.ok m4)]

/-- Runs of the create operation of kind `k` on the parent `m`. -/
inductive CreateRun (r : MinecraftReconciler σ) (m : Minecraft) (k : Kind) :
    Go (Result × Option Err) → List Entry → Prop
  | panicked (msg : String) (h : synthesize r m k = Go.panic msg) :
    CreateRun r m k (Go.panic msg) []
  | reportError (err : Err) (h : synthesize r m k = Go.ret (Ret.error err)) (now : Nat)
      (err2 : Err) :
    CreateRun r m k (Go.ret ({}, some err2))
      [Entry.StatusUpdate (m.setCondition now (failedCondition (failureMessage m err k)))
        (Ret.error err2)]
  | reported (err : Err) (h : synthesize r m k = Go.ret (Ret.error err)) (now : Nat)
      (m1 : Minecraft) :
    CreateRun r m k (Go.ret ({}, some err))
      [Entry.StatusUpdate (m.setCondition now (failedCondition (failureMessage m err k)))
        (Ret.ok m1)]
  | createError (obj : Object) (h : synthesize r m k = Go.ret (Ret.ok obj)) (err : Err) :
    CreateRun r m k (Go.ret ({}, some err)) [Entry.Create obj (some err)]
  | created (obj : Object) (h : synthesize r m k = Go.ret (Ret.ok obj)) :
    CreateRun r m k (Go.ret (createdResult k, none)) [Entry.Create obj none]

/-- Runs of lines 195-239 on the parent `m`, from the dependents `ks` on. -/
inductive DependentsRun (r : MinecraftReconciler σ) (m : Minecraft) :
    List Kind → Go (Result × Option Err) → List Entry → Prop
  | allFound : DependentsRun r m [] (Go.ret ({}, none)) []
  | found (k : Kind) (ks : List Kind) (res : Go (Result × Option Err)) (ext : List Entry)
      (rest : DependentsRun r m ks res ext) :
    DependentsRun r m (k :: ks) res (Entry.GetDependent k (dependentKey m) none :: ext)
  | fetchError (k : Kind) (ks : List Kind) (err : Err) (h : IsNotFound err = false) :
    DependentsRun r m (k :: ks) (Go.ret ({}, some err))
      [Entry.GetDependent k (dependentKey m) (some err)]
  | absent (k : Kind) (ks : List Kind) (err : Err) (h : IsNotFound err = true)
      (res : Go (Result × Option Err)) (ext : List Entry) (run : CreateRun r m k res ext) :
    DependentsRun r m (k :: ks) res
      (Entry.GetDependent k (dependentKey m) (some err) :: ext)

/-- Runs of one pass of `Reconcile`. -/
inductive PassRun (r : MinecraftReconciler σ) (req : Request) :
    Go (Result × Option Err) → List Entry → Prop
  | notFound (err : Err) (h : IsNotFound err = true) :
    PassRun r req (Go.ret ({}, none)) [Entry.Get req.NamespacedName (Ret.error err)]
  | getError (err : Err) (h : IsNotFound err = false) :
    PassRun r req (Go.ret ({}, some err)) [Entry.Get req.NamespacedName (Ret.error err)]
  | initReturned (m0 : Minecraft) (res : Go (Result × Option Err)) (ext1 : List Entry)
      (init : InitRun req m0 (Flow.done res) ext1) :
    PassRun r req res (Entry.Get req.NamespacedName (Ret.ok m0) :: ext1)
  | finalizerReturned (m0 m1 : Minecraft) (res : Go (Result × Option Err))
      (ext1 ext2 : List Entry)
      (init : InitRun req m0 (Flow.next m1) ext1)
      (fin : FinalizerRun m1 (Flow.done res) ext2) :
    PassRun r req res (Entry.Get req.NamespacedName (Ret.ok m0) :: (ext1 ++ ext2))
  | deleting (m0 m1 m2 : Minecraft) (res : Go (Result × Option Err))
      (ext1 ext2 ext3 : List Entry)
      (init : InitRun req m0 (Flow.next m1) ext1)
      (fin : FinalizerRun m1 (Flow.next m2) ext2)
      (h : m2.DeletionTimestamp ≠ none)
      (del : DeleteRun req m2 res ext3) :
    PassRun r req res (Entry.Get req.NamespacedName (Ret.ok m0) :: (ext1 ++ ext2 ++ ext3))
  | converging (m0 m1 m2 : Minecraft) (res : Go (Result × Option Err))
      (ext1 ext2 ext3 : List Entry)
      (init : InitRun req m0 (Flow.next m1) ext1)
      (fin : FinalizerRun m1 (Flow.next m2) ext2)
      (h : m2.DeletionTimestamp = none)
      (deps : DependentsRun r m2 dependencyOrder res ext3) :
    PassRun r req res (Entry.Get req.NamespacedName (Ret.ok m0) :: (ext1 ++ ext2 ++ ext3))

/-! ## Notions used to state the properties -/

/-- The parent as a fetch or a status write handed it back. -/
def Entry.observed : Entry → Option Minecraft
  | Entry.Get _ (Ret.ok m) => some m
  | Entry.StatusUpdate _ (Ret.ok m) => some m
  | _ => none

/-- A recorded event. -/
def Entry.isEvent : Entry → Bool
  | Entry.Event _ _ _ _ => true
  | _ => false

/-- A parent update whose object carries the finalizer token. -/
def Entry.persistsFinalizer : Entry → Bool
  | Entry.Update obj _ => ContainsFinalizer obj minecraftFinalizer
  | _ => false

/-- A status write whose object has a condition of type Degraded. -/
def Entry.writesDegraded : Entry → Bool
  | Entry.StatusUpdate obj _ => obj.Conditions.any (fun c => c.type == typeDegradedMinecraft)
  | _ => false

/-- The call did not hand back a parent marked for deletion. -/
def Entry.live (x : Entry) : Bool :=
  match x.parent with
  | some m => m.DeletionTimestamp.isNone
  | none => true

/-- The call, when a fetch or a status write that handed the parent back,
showed it marked for deletion and carrying the finalizer token. -/
def Entry.deletingWithToken (x : Entry) : Bool :=
  match x.observed with
  | some m => m.DeletionTimestamp.isSome && ContainsFinalizer m minecraftFinalizer
  | none => true

/-- The pass stops on a failed store call: the call that returns an error is
the last entry of the log and the pass returns that error. -/
def FailStop (res : Go (Result × Option Err)) (log : List Entry) : Prop :=
  ∀ (pre : List Entry) (x : Entry) (post : List Entry) (e : Err),
    log = pre ++ x :: post → x.failure = some e →
      post = [] ∧ res = Go.ret ({}, some e)

/-- A store state at which the parent of the request is fully converged: the
fetch of the parent answers a parent with at least one condition, carrying the
finalizer token and not marked for deletion, the fetch of each of its four
dependents finds it, and these fetches leave the store state as it is. -/
def Converged (r : MinecraftReconciler σ) (req : Request) (s : σ) : Prop :=
  ∃ m : Minecraft,
    r.Client.Get s req.NamespacedName = (Ret.ok m, s) ∧
    m.Conditions ≠ [] ∧
    ContainsFinalizer m minecraftFinalizer = true ∧
    m.DeletionTimestamp = none ∧
    ∀ k : Kind, r.Client.GetDependent s k (dependentKey m) = (none, s)

/-- The effects the deletion branch produces, in order: a status write with
`Degraded=Unknown`, the cleanup event, a status write with `Degraded=True`, and
the update of the parent without the finalizer token, all of them accepted. -/
def IsFinalizerSequence : List Entry → Prop
  | [Entry.StatusUpdate o1 (Ret.ok _), Entry.Event _ eventtype reason _,
     Entry.StatusUpdate o2 (Ret.ok _), Entry.Update o3 (Ret.ok _)] =>
    hasCondition o1.Conditions typeDegradedMinecraft ConditionStatus.ConditionUnknown
        "Finalizing" = true ∧
      eventtype = "Warning" ∧ reason = "Deleting" ∧
      hasCondition o2.Conditions typeDegradedMinecraft ConditionStatus.ConditionTrue
        "Finalizing" = true ∧
      ContainsFinalizer o3 minecraftFinalizer = false
  | _ => False

/-- The status write of the initialization step: its object has the condition
`Available=Unknown`, reason "Reconciling". -/
def IsInitialWrite : Entry → Prop
  | Entry.StatusUpdate o (Ret.ok _) =>
    hasCondition o.Conditions typeAvailableMinecraft ConditionStatus.ConditionUnknown
      "Reconciling" = true
  | _ => False

/-- The directive each kind of dependent is requeued with after its create. -/
def requeueAfterCreate : Kind → Directive
  | Kind.PersistentVolumeClaim => Directive.RequeueAfter Minute
  | Kind.ConfigMap => Directive.RequeueImmediate
  | Kind.StatefulSet => Directive.RequeueAfter Minute
  | Kind.Service => Directive.RequeueImmediate

/-- The parent writes of a log that follow a status write with no fetch of the
parent in between, each paired with that status write. `pending` is the last
status write that no fetch and no other parent write has followed yet. -/
def staleWritesFrom : Option Entry → List Entry → List (Entry × Entry)
  | _, [] => []
  | pending, x :: rest =>
    match x with
    | Entry.Get _ _ => staleWritesFrom none rest
    | Entry.StatusUpdate _ _ =>
      (match pending with
        | some su => [(su, x)]
        | none => []) ++ staleWritesFrom (some x) rest
    | Entry.Update _ _ =>
      (match pending with
        | some su => [(su, x)]
        | none => []) ++ staleWritesFrom none rest
    | _ => staleWritesFrom pending rest

/-- The parent writes of a pass issued after a status write without a fetch of
the parent in between. -/
def staleWrites (log : List Entry) : List (Entry × Entry) :=
  staleWritesFrom none log

/-- What a stale write of a pass looks like: the update that removes the
finalizer, issued on the reply of the status write with `Degraded=True` that
comes right before it, at the end of the log. -/
def IsFinalizerRemoval (log : List Entry) (p : Entry × Entry) : Prop :=
  ∃ (o m3 : Minecraft) (reply : Ret Minecraft) (pre : List Entry),
    p = (Entry.StatusUpdate o (Ret.ok m3),
      Entry.Update (RemoveFinalizer m3 minecraftFinalizer).1 reply) ∧
    hasCondition o.Conditions typeDegradedMinecraft ConditionStatus.ConditionTrue
      "Finalizing" = true ∧
    log = pre ++ [p.1, p.2]

/-- The store state a pass leaves behind. -/
def storeAfterPass (r : MinecraftReconciler σ) (req : Request) (s : σ) : σ :=
  (Reconcile r req s).2.store

/-- The store state after `n` passes in succession. -/
def storeAfterPasses (r : MinecraftReconciler σ) (req : Request) : Nat → σ → σ
  | 0, s => s
  | n + 1, s => storeAfterPasses r req n (storeAfterPass r req s)

/-- The kinds of the dependents a pass creates, in order. -/
def createdKinds (log : List Entry) : List Kind :=
  (log.filterMap Entry.created).map Object.kind

/-- The look-up `m[k]` on a Go map. -/
def StringMap.get? (m : StringMap) (k : String) : Option String :=
  (m.find? (fun kv => kv.1 == k)).map Prod.snd

/-- The keys of a Go map. -/
def StringMap.keys (m : StringMap) : List String := m.map Prod.fst

/-- The text between the first and the second colon of a string (to its end
when it has one colon only). -/
def betweenColons (cs : List Char) : List Char :=
  ((cs.dropWhile (fun c => c != ':')).drop 1).takeWhile (fun c => c != ':')

/-- The image `imageForMinecraft` resolves to. -/
def configuredImage (env : Option String) : String :=
  match env with
  | none => "itzg/minecraft-server:latest"
  | some image => image

/-! ## An in-memory store -/

/-- A store holding at most one parent and the kinds of its dependents that
exist; `statusError`, `updateError` and `createError` make the matching writes
fail. -/
structure MemStore where
  parent : Option Minecraft := none
  dependents : List Kind := []
  statusError : Option Err := none
  updateError : Option Err := none
  createError : Option Err := none
  clock : Nat := 1
deriving DecidableEq, Repr

/-- The NotFound error of the in-memory store. -/
def notFoundErr : Err := { notFound := true, msg := "not found" }

/-- The client of the in-memory store. A status update replaces the stored
conditions, an update replaces everything but the conditions, and a parent
marked for deletion is removed once its finalizer set is empty. -/
def memClient : Client MemStore where
  Get s key :=
    match s.parent with
    | some m =>
      if m.Name = key.Name ∧ m.Namespace = key.Namespace then (Ret.ok m, s)
      else (Ret.error notFoundErr, s)
    | none => (Ret.error notFoundErr, s)
  GetDependent s kind _ :=
    if kind ∈ s.dependents then (none, s) else (some notFoundErr, s)
  StatusUpdate s m :=
    match s.statusError, s.parent with
    | some err, _ => (Ret.error err, s)
    | none, none => (Ret.error notFoundErr, s)
    | none, some p =>
      let p1 := { p with Conditions := m.Conditions, ResourceVersion := p.ResourceVersion + 1 }
      (Ret.ok p1, { s with parent := some p1, clock := s.clock + 1 })
  Update s m :=
    match s.updateError, s.parent with
    | some err, _ => (Ret.error err, s)
    | none, none => (Ret.error notFoundErr, s)
    | none, some p =>
      let p1 := { m with Conditions := p.Conditions, ResourceVersion := p.ResourceVersion + 1 }
      if p1.DeletionTimestamp != none ∧ p1.Finalizers = [] then
        (Ret.ok p1, { s with parent := none, clock := s.clock + 1 })
      else (Ret.ok p1, { s with parent := some p1, clock := s.clock + 1 })
  Create s obj :=
    match s.createError with
    | some err => (some err, s)
    | none => (none, { s with dependents := s.dependents ++ [obj.kind], clock := s.clock + 1 })

/-- A reconciler over the in-memory store with a registered parent type and no
`MINECRAFT_IMAGE` in the environment. -/
def memReconciler : MinecraftReconciler MemStore where
  Client := memClient
  Scheme := { gvkForMinecraft := Ret.ok ("cache.example.com/v1alpha1", "Minecraft") }
  MINECRAFT_IMAGE := none
  Now s := s.clock

/-- The error of a scheme that does not know the parent type. -/
def noKindErr : Err := { notFound := false, msg := "no kind is registered for the type" }

/-- A reconciler over the in-memory store whose scheme does not know the parent
type, so that every synthesizer fails. -/
def memReconcilerNoScheme : MinecraftReconciler MemStore :=
  { memReconciler with Scheme := { gvkForMinecraft := Ret.error noKindErr } }

/-- A reconciler over the in-memory store whose environment names an image
without a tag, so that `labelsForMinecraft` panics. -/
def memReconcilerUntagged : MinecraftReconciler MemStore :=
  { memReconciler with MINECRAFT_IMAGE := some "itzg/minecraft-server" }

/-- The request for the parent `default/mc`. -/
def mcRequest : Request := { NamespacedName := { Namespace := "default", Name := "mc" } }

/-- A freshly declared parent `default/mc`. -/
def mcFresh : Minecraft := { Name := "mc", Namespace := "default", UID := "u1" }

/-- The condition the first pass leaves on the parent. -/
def mcStarted : Condition :=
  { type := "Available", Status := ConditionStatus.ConditionUnknown,
    LastTransitionTime := 1, Reason := "Reconciling", Message := "Starting reconciliation" }

/-- The parent `default/mc` after initialization: one condition and the
finalizer token. -/
def mcReady : Minecraft :=
  { mcFresh with Finalizers := [minecraftFinalizer], Conditions := [mcStarted] }

/-- The parent `default/mc`, initialized and marked for deletion. -/
def mcDeleting : Minecraft := { mcReady with DeletionTimestamp := some 7 }

/-- The parent `default/mc` marked for deletion, carrying the finalizer token
but no condition yet. -/
def mcDeletingNoStatus : Minecraft :=
  { mcFresh with Finalizers := [minecraftFinalizer], DeletionTimestamp := some 7 }

/-- The parent `default/mc` marked for deletion before the operator added its
finalizer token; another controller's token keeps it in the store. -/
def mcDeletingNoToken : Minecraft :=
  { mcFresh with
    Finalizers := ["example.com/other"], DeletionTimestamp := some 7,
    Conditions := [mcStarted] }

/-- The error of a store that refuses a new finalizer on a parent that is being
deleted. -/
def forbiddenErr : Err :=
  { notFound := false, msg := "no new finalizers can be added if the object is being deleted" }

/-- A conflict error of the store. -/
def conflictErr : Err := { notFound := false, msg := "the object has been modified" }

/-- The labels synthesized for the parent `default/mc` with the default image. -/
def mcLabels : StringMap :=
  [("app.kubernetes.io/name", "minecraft-operator"),
   ("app.kubernetes.io/version", "latest"),
   ("app.kubernetes.io/managed-by", "MinecraftController"),
   ("cache.example.com/name", "mc"),
   ("containertype", "minecraft-server")]

/-- The owner reference stamped on the dependents of `default/mc`. -/
def mcOwner : OwnerReference :=
  { APIVersion := "cache.example.com/v1alpha1", Kind := "Minecraft", Name := "mc",
    UID := "u1", Controller := true, BlockOwnerDeletion := true }

/-- The service synthesized for the parent `default/mc`. -/
def mcService : Service :=
  { ObjectMeta :=
      { Name := "mc", Namespace := "default",
        Annotations := [("mc-router.itzg.me/externalServerName", "mc.andylile.com")],
        OwnerReferences := [mcOwner] }
    Selector := mcLabels
    Ports := [{ Name := "minecraft", Protocol := "TCP", Port := 25565 }] }

/-- The volume claim synthesized for the parent `default/mc`. -/
def mcClaim : PersistentVolumeClaim :=
  { ObjectMeta :=
      { Name := "mc", Namespace := "default", Labels := mcLabels,
        OwnerReferences := [mcOwner] }
    AccessModes := ["ReadWriteOnce"]
    StorageRequest := "2Gi" }

/-- The config map synthesized for the parent `default/mc`. -/
def mcConfigMap : ConfigMap :=
  { ObjectMeta :=
      { Name := "mc", Namespace := "default", Labels := mcLabels,
        OwnerReferences := [mcOwner] }
    Data := [("EULA", "TRUE")] }

/-- The stateful set synthesized for the parent `default/mc`. -/
def mcStatefulSet : StatefulSet :=
  { ObjectMeta :=
      { Name := "mc", Namespace := "default",
        Annotations := [("reloader.stakater.com/auto", "true")],
        OwnerReferences := [mcOwner] }
    Replicas := 1
    MatchLabels := mcLabels
    ServiceName := "mc"
    TemplateLabels := mcLabels
    Containers :=
      [{ Image := "itzg/minecraft-server:latest"
         Name := "minecraft"
         ImagePullPolicy := "IfNotPresent"
         EnvFrom := ["mc"]
         LivenessProbe :=
           { InitialDelaySeconds := 90, PeriodSeconds := 15,
             Command := ["mc-monitor", "status"] }
         ReadinessProbe :=
           { InitialDelaySeconds := 30, PeriodSeconds := 5,
             Command := ["mc-monitor", "status"] }
         VolumeMounts := [{ Name := "mc", MountPath := "/data" }] }]
    Volumes := [{ Name := "mc", ClaimName := "mc", ReadOnly := false }] }

/-- The condition `Available=True` as a pass would set it. -/
def mcAvailable : Condition :=
  { type := "Available", Status := ConditionStatus.ConditionTrue,
    Reason := "Reconciling", Message := "created" }

/-- The client of an in-memory store that accepts every update of the parent
but stores and sends back the object without its finalizers, as a store may
that rewrites objects on admission. Its other calls are those of `memClient`. -/
def memClientDropping : Client MemStore :=
  { memClient with Update := fun s m => memClient.Update s { m with Finalizers := [] } }

/-- A reconciler over the in-memory store that drops the finalizers of every
update. -/
def memReconcilerDropping : MinecraftReconciler MemStore :=
  { memReconciler with Client := memClientDropping }

end MinecraftOperator

/-! ## Every pass is one of the runs -/

namespace MinecraftOperator
variable {σ : Type}

theorem Get_log {r : MinecraftReconciler σ} {w w1 : World σ} {key : NamespacedName}
    {a : Ret Minecraft} (h : r.Get w key = (a, w1)) :
    w1.log = w.log ++ [Entry.Get key a] := by
  unfold MinecraftReconciler.Get at h
  cases h
  rfl

theorem GetDependent_log {r : MinecraftReconciler σ} {w w1 : World σ} {kind : Kind}
    {key : NamespacedName} {a : Option Err} (h : r.GetDependent w kind key = (a, w1)) :
    w1.log = w.log ++ [Entry.GetDependent kind key a] := by
  unfold MinecraftReconciler.GetDependent at h
  cases h
  rfl

theorem StatusUpdate_log {r : MinecraftReconciler σ} {w w1 : World σ} {m : Minecraft}
    {a : Ret Minecraft} (h : r.StatusUpdate w m = (a, w1)) :
    w1.log = w.log ++ [Entry.StatusUpdate m a] := by
  unfold MinecraftReconciler.StatusUpdate at h
  cases h
  rfl

theorem Update_log {r : MinecraftReconciler σ} {w w1 : World σ} {m : Minecraft}
    {a : Ret Minecraft} (h : r.Update w m = (a, w1)) :
    w1.log = w.log ++ [Entry.Update m a] := by
  unfold MinecraftReconciler.Update at h
  cases h
  rfl

theorem Create_log {r : MinecraftReconciler σ} {w w1 : World σ} {obj : Object}
    {a : Option Err} (h : r.Create w obj = (a, w1)) :
    w1.log = w.log ++ [Entry.Create obj a] := by
  unfold MinecraftReconciler.Create at h
  cases h
  rfl

theorem AddFinalizer_changed (m : Minecraft) (f : String)
    (h : ContainsFinalizer m f = false) : (AddFinalizer m f).2 = true := by
  unfold ContainsFinalizer at h
  simp [AddFinalizer, h]

theorem RemoveFinalizer_changed (m : Minecraft) (f : String) :
    (RemoveFinalizer m f).2 = ContainsFinalizer m f := by
  have key : ∀ l : List String,
      (l.length != (l.filter (fun e => e != f)).length) = l.any (fun e => e == f) := by
    intro l
    induction l with
    | nil => rfl
    | cons a l ih =>
      have hle := List.length_filter_le (fun e => e != f) l
      by_cases ha : a = f
      · subst ha
        simp
        omega
      · have h1 : (a != f) = true := by simpa using ha
        have h2 : (a == f) = false := by simpa using ha
        simp only [List.filter_cons, h1, if_true, List.length_cons, List.any_cons, h2,
          Bool.false_or]
        rw [← ih]
        simp
  simpa [RemoveFinalizer, ContainsFinalizer] using key m.Finalizers

theorem initializeStatus_run (r : MinecraftReconciler σ) (req : Request) (m : Minecraft)
    (w : World σ) :
    ∃ ext, (initializeStatus r req m w).2.log = w.log ++ ext ∧
      InitRun req m (initializeStatus r req m w).1 ext := by
  unfold initializeStatus
  by_cases h : m.Conditions.length = 0
  · obtain ⟨a, w1, h1⟩ : ∃ a w1,
        r.StatusUpdate w (m.setCondition (r.Now w.store) startingCondition) = (a, w1) :=
      ⟨_, _, rfl⟩
    simp only [h, if_true, h1]
    cases a with
    | error err => exact ⟨_, StatusUpdate_log h1, InitRun.statusError h _ err⟩
    | ok m1 =>
      obtain ⟨b, w2, h2⟩ : ∃ b w2, r.Get w1 req.NamespacedName = (b, w2) := ⟨_, _, rfl⟩
      simp only [h2]
      cases b with
      | error err =>
        refine ⟨_, ?_, InitRun.getError h (r.Now w.store) m1 err⟩
        simp [Get_log h2, StatusUpdate_log h1]
      | ok m2 =>
        refine ⟨_, ?_, InitRun.refreshed h (r.Now w.store) m1 m2⟩
        simp [Get_log h2, StatusUpdate_log h1]
  · simp only [h, if_false]
    exact ⟨[], by simp, InitRun.skip h⟩

theorem ensureFinalizer_run (r : MinecraftReconciler σ) (m : Minecraft) (w : World σ) :
    ∃ ext, (ensureFinalizer r m w).2.log = w.log ++ ext ∧
      FinalizerRun m (ensureFinalizer r m w).1 ext := by
  unfold ensureFinalizer
  cases h : ContainsFinalizer m minecraftFinalizer with
  | true => exact ⟨[], by simp, by simpa using FinalizerRun.present h⟩
  | false =>
    obtain ⟨m', b, hadd⟩ : ∃ m' b, AddFinalizer m minecraftFinalizer = (m', b) := ⟨_, _, rfl⟩
    have hb : b = true := by
      have := AddFinalizer_changed m minecraftFinalizer h
      rw [hadd] at this
      exact this
    subst hb
    have hm : m' = (AddFinalizer m minecraftFinalizer).1 := by rw [hadd]
    obtain ⟨a, w1, h1⟩ : ∃ a w1, r.Update w m' = (a, w1) := ⟨_, _, rfl⟩
    simp only [Bool.not_false, if_true, hadd, h1]
    cases a with
    | error err =>
      exact ⟨_, Update_log h1, by simpa [hm] using FinalizerRun.updateError h err⟩
    | ok m1 =>
      exact ⟨_, Update_log h1, by simpa [hm] using FinalizerRun.updated h m1⟩

theorem finalizeMinecraft_run (r : MinecraftReconciler σ) (req : Request) (m : Minecraft)
    (w : World σ) :
    ∃ ext, (finalizeMinecraft r req m w).2.log = w.log ++ ext ∧
      DeleteRun req m (finalizeMinecraft r req m w).1 ext := by
  unfold finalizeMinecraft
  cases h : ContainsFinalizer m minecraftFinalizer with
  | false => exact ⟨[], by simp, by simpa using DeleteRun.noFinalizer h⟩
  | true =>
    obtain ⟨a, w1, h1⟩ : ∃ a w1,
        r.StatusUpdate w (m.setCondition (r.Now w.store) (finalizingCondition m)) = (a, w1) :=
      ⟨_, _, rfl⟩
    simp only [if_true, h1]
    have l1 := StatusUpdate_log h1
    cases a with
    | error err => exact ⟨_, l1, DeleteRun.statusError h _ err⟩
    | ok m1 =>
      obtain ⟨b, w2, h2⟩ : ∃ b w2,
          r.Get (doFinalizerOperationsForMinecraft m1 w1) req.NamespacedName = (b, w2) :=
        ⟨_, _, rfl⟩
      simp only [h2]
      have l2 := Get_log h2
      have le : (doFinalizerOperationsForMinecraft m1 w1).log = w1.log ++ [deletingEvent m1] :=
        rfl
      cases b with
      | error err =>
        refine ⟨_, ?_, DeleteRun.getError h (r.Now w.store) m1 err⟩
        simp [l2, le, l1]
      | ok m2 =>
        obtain ⟨c, w3, h3⟩ : ∃ c w3,
            r.StatusUpdate w2 (m2.setCondition (r.Now w2.store) (finalizedCondition m2))
              = (c, w3) := ⟨_, _, rfl⟩
        simp only [h3]
        have l3 := StatusUpdate_log h3
        cases c with
        | error err =>
          refine ⟨_, ?_,
            DeleteRun.secondStatusError h (r.Now w.store) m1 m2 (r.Now w2.store) err⟩
          simp [l3, l2, le, l1]
        | ok m3 =>
          obtain ⟨m', b, hrem⟩ : ∃ m' b, RemoveFinalizer m3 minecraftFinalizer = (m', b) :=
            ⟨_, _, rfl⟩
          have hb : b = ContainsFinalizer m3 minecraftFinalizer := by
            have := RemoveFinalizer_changed m3 minecraftFinalizer
            rw [hrem] at this
            exact this
          have hm : m' = (RemoveFinalizer m3 minecraftFinalizer).1 := by rw [hrem]
          simp only [hrem]
          cases b with
          | false =>
            refine ⟨_, ?_,
              DeleteRun.finalizerGone h (r.Now w.store) m1 m2 (r.Now w2.store) m3 hb.symm⟩
            simp [l3, l2, le, l1]
          | true =>
            obtain ⟨d, w4, h4⟩ : ∃ d w4, r.Update w3 m' = (d, w4) := ⟨_, _, rfl⟩
            simp only [h4]
            have l4 := Update_log h4
            rw [hm] at l4
            cases d with
            | error err =>
              refine ⟨_, ?_,
                DeleteRun.updateError h (r.Now w.store) m1 m2 (r.Now w2.store) m3 hb.symm err⟩
              simp [l4, l3, l2, le, l1]
            | ok m4 =>
              refine ⟨_, ?_,
                DeleteRun.finished h (r.Now w.store) m1 m2 (r.Now w2.store) m3 hb.symm m4⟩
              simp [l4, l3, l2, le, l1]

theorem reportSynthesisFailure_run (r : MinecraftReconciler σ) (m : Minecraft) (w : World σ)
    (k : Kind) (err : Err) (h : synthesize r m k = Go.ret (Ret.error err)) :
    ∃ ext, (reportSynthesisFailure r m w err (failureMessage m err k)).2.log = w.log ++ ext ∧
      CreateRun r m k (reportSynthesisFailure r m w err (failureMessage m err k)).1 ext := by
  unfold reportSynthesisFailure
  obtain ⟨a, w1, h1⟩ : ∃ a w1,
      r.StatusUpdate w
        (m.setCondition (r.Now w.store) (failedCondition (failureMessage m err k))) = (a, w1) :=
    ⟨_, _, rfl⟩
  simp only [h1]
  cases a with
  | error err2 => exact ⟨_, StatusUpdate_log h1, CreateRun.reportError err h _ err2⟩
  | ok m1 => exact ⟨_, StatusUpdate_log h1, CreateRun.reported err h _ m1⟩

theorem createAfterSynthesis_run (r : MinecraftReconciler σ) (m : Minecraft) (w : World σ)
    (k : Kind) (obj : Object) (h : synthesize r m k = Go.ret (Ret.ok obj)) :
    ∃ ext,
      (match r.Create w obj with
        | (some err, w) => ((Go.ret ({}, some err), w) : Pass σ)
        | (none, w) => (Go.ret (createdResult k, none), w)).2.log = w.log ++ ext ∧
      CreateRun r m k
        (match r.Create w obj with
          | (some err, w) => ((Go.ret ({}, some err), w) : Pass σ)
          | (none, w) => (Go.ret (createdResult k, none), w)).1 ext := by
  obtain ⟨a, w1, h1⟩ : ∃ a w1, r.Create w obj = (a, w1) := ⟨_, _, rfl⟩
  simp only [h1]
  cases a with
  | some err => exact ⟨_, Create_log h1, CreateRun.createError obj h err⟩
  | none => exact ⟨_, Create_log h1, CreateRun.created obj h⟩

theorem createDependent_run (r : MinecraftReconciler σ) (m : Minecraft) (w : World σ)
    (k : Kind) :
    ∃ ext, (createDependent r m w k).2.log = w.log ++ ext ∧
      CreateRun r m k (createDependent r m w k).1 ext := by
  cases k with
  | PersistentVolumeClaim =>
    simp only [createDependent, createMinecraftPVC]
    cases hs : pvcForMinecraft r.Scheme r.MINECRAFT_IMAGE m with
    | panic msg =>
      exact ⟨[], by simp, CreateRun.panicked msg (by simp [synthesize, asObject, hs])⟩
    | ret a =>
      cases a with
      | error err =>
        exact reportSynthesisFailure_run r m w Kind.PersistentVolumeClaim err
          (by simp [synthesize, asObject, hs])
      | ok o =>
        exact createAfterSynthesis_run r m w Kind.PersistentVolumeClaim (Object.pvc o)
          (by simp [synthesize, asObject, hs])
  | ConfigMap =>
    simp only [createDependent, createMinecraftConfigMap]
    cases hs : configmapForMinecraft r.Scheme r.MINECRAFT_IMAGE m with
    | panic msg =>
      exact ⟨[], by simp, CreateRun.panicked msg (by simp [synthesize, asObject, hs])⟩
    | ret a =>
      cases a with
      | error err =>
        exact reportSynthesisFailure_run r m w Kind.ConfigMap err
          (by simp [synthesize, asObject, hs])
      | ok o =>
        exact createAfterSynthesis_run r m w Kind.ConfigMap (Object.configMap o)
          (by simp [synthesize, asObject, hs])
  | StatefulSet =>
    simp only [createDependent, createMinecraftStatefulSet]
    cases hs : statefulsetForMinecraft r.Scheme r.MINECRAFT_IMAGE m with
    | panic msg =>
      exact ⟨[], by simp, CreateRun.panicked msg (by simp [synthesize, asObject, hs])⟩
    | ret a =>
      cases a with
      | error err =>
        exact reportSynthesisFailure_run r m w Kind.StatefulSet err
          (by simp [synthesize, asObject, hs])
      | ok o =>
        exact createAfterSynthesis_run r m w Kind.StatefulSet (Object.statefulSet o)
          (by simp [synthesize, asObject, hs])
  | Service =>
    simp only [createDependent, createMinecraftService]
    cases hs : serviceForMinecraft r.Scheme r.MINECRAFT_IMAGE m with
    | panic msg =>
      exact ⟨[], by simp, CreateRun.panicked msg (by simp [synthesize, asObject, hs])⟩
    | ret a =>
      cases a with
      | error err =>
        exact reportSynthesisFailure_run r m w Kind.Service err
          (by simp [synthesize, asObject, hs])
      | ok o =>
        exact createAfterSynthesis_run r m w Kind.Service (Object.service o)
          (by simp [synthesize, asObject, hs])

theorem dependent_step (r : MinecraftReconciler σ) (m : Minecraft) (k : Kind)
    (ks : List Kind) (w : World σ) (cont : World σ → Pass σ)
    (hcont : ∀ w1, ∃ ext, (cont w1).2.log = w1.log ++ ext ∧
      DependentsRun r m ks (cont w1).1 ext) :
    ∃ ext,
      (match r.GetDependent w k (dependentKey m) with
        | (some err, w) =>
          if IsNotFound err then createDependent r m w k else (Go.ret ({}, some err), w)
        | (none, w) => cont w).2.log = w.log ++ ext ∧
      DependentsRun r m (k :: ks)
        (match r.GetDependent w k (dependentKey m) with
          | (some err, w) =>
            if IsNotFound err then createDependent r m w k else (Go.ret ({}, some err), w)
          | (none, w) => cont w).1 ext := by
  obtain ⟨a, w1, h1⟩ : ∃ a w1, r.GetDependent w k (dependentKey m) = (a, w1) := ⟨_, _, rfl⟩
  simp only [h1]
  have l1 := GetDependent_log h1
  cases a with
  | none =>
    obtain ⟨ext, hlog, hrun⟩ := hcont w1
    exact ⟨_ :: ext, by simp [hlog, l1], DependentsRun.found k ks _ ext hrun⟩
  | some err =>
    by_cases hnf : IsNotFound err = true
    · simp only [hnf, ↓reduceIte]
      obtain ⟨ext, hlog, hrun⟩ := createDependent_run r m w1 k
      exact ⟨_ :: ext, by simp [hlog, l1], DependentsRun.absent k ks err hnf _ ext hrun⟩
    · simp only [hnf, ↓reduceIte]
      exact ⟨_, l1, DependentsRun.fetchError k ks err (by simpa using hnf)⟩

theorem reconcileDependents_run (r : MinecraftReconciler σ) (m : Minecraft) (w : World σ) :
    ∃ ext, (reconcileDependents r m w).2.log = w.log ++ ext ∧
      DependentsRun r m dependencyOrder (reconcileDependents r m w).1 ext :=
  dependent_step r m Kind.PersistentVolumeClaim _ w _ fun w1 =>
    dependent_step r m Kind.ConfigMap _ w1 _ fun w2 =>
      dependent_step r m Kind.StatefulSet _ w2 _ fun w3 =>
        dependent_step r m Kind.Service [] w3 (fun w4 => (Go.ret ({}, none), w4)) fun w4 =>
          ⟨[], by simp, DependentsRun.allFound⟩

theorem ReconcileFrom_run (r : MinecraftReconciler σ) (req : Request) (w : World σ) :
    ∃ ext, (ReconcileFrom r req w).2.log = w.log ++ ext ∧
      PassRun r req (ReconcileFrom r req w).1 ext := by
  unfold ReconcileFrom
  obtain ⟨a, w1, h1⟩ : ∃ a w1, r.Get w req.NamespacedName = (a, w1) := ⟨_, _, rfl⟩
  simp only [h1]
  have l1 := Get_log h1
  cases a with
  | error err =>
    by_cases hnf : IsNotFound err = true
    · simp only [hnf, ↓reduceIte]
      exact ⟨_, l1, PassRun.notFound err hnf⟩
    · simp only [hnf, ↓reduceIte]
      exact ⟨_, l1, PassRun.getError err (by simpa using hnf)⟩
  | ok m0 =>
    obtain ⟨ext1, hl1, hr1⟩ := initializeStatus_run r req m0 w1
    obtain ⟨f1, w2, h2⟩ : ∃ f1 w2, initializeStatus r req m0 w1 = (f1, w2) := ⟨_, _, rfl⟩
    simp only [h2] at hl1 hr1 ⊢
    cases f1 with
    | done res =>
      exact ⟨_ :: ext1, by simp [hl1, l1], PassRun.initReturned m0 res ext1 hr1⟩
    | next m1 =>
      obtain ⟨ext2, hl2, hr2⟩ := ensureFinalizer_run r m1 w2
      obtain ⟨f2, w3, h3⟩ : ∃ f2 w3, ensureFinalizer r m1 w2 = (f2, w3) := ⟨_, _, rfl⟩
      simp only [h3] at hl2 hr2 ⊢
      cases f2 with
      | done res =>
        exact ⟨_ :: (ext1 ++ ext2), by simp [hl2, hl1, l1],
          PassRun.finalizerReturned m0 m1 res ext1 ext2 hr1 hr2⟩
      | next m2 =>
        by_cases hd : m2.DeletionTimestamp = none
        · have hb : (m2.DeletionTimestamp != none) = false := by simp [hd]
          simp only [hb, Bool.false_eq_true, ↓reduceIte]
          obtain ⟨ext3, hl3, hr3⟩ := reconcileDependents_run r m2 w3
          refine ⟨Entry.Get req.NamespacedName (Ret.ok m0) :: (ext1 ++ ext2 ++ ext3), ?_, ?_⟩
          · simp [hl3, hl2, hl1, l1]
          · exact PassRun.converging m0 m1 m2 _ ext1 ext2 ext3 hr1 hr2 hd hr3
        · have hb : (m2.DeletionTimestamp != none) = true := by simpa using hd
          simp only [hb, ↓reduceIte]
          obtain ⟨ext3, hl3, hr3⟩ := finalizeMinecraft_run r req m2 w3
          refine ⟨Entry.Get req.NamespacedName (Ret.ok m0) :: (ext1 ++ ext2 ++ ext3), ?_, ?_⟩
          · simp [hl3, hl2, hl1, l1]
          · exact PassRun.deleting m0 m1 m2 _ ext1 ext2 ext3 hr1 hr2 hd hr3

/-- Every pass of `Reconcile` is one of the runs of `PassRun`. -/
theorem Reconcile_run (r : MinecraftReconciler σ) (req : Request) (s : σ) :
    PassRun r req (Reconcile r req s).1 (Reconcile r req s).2.log := by
  obtain ⟨ext, hlog, hrun⟩ := ReconcileFrom_run r req { store := s, log := [] }
  have : (Reconcile r req s).2.log = ext := by simpa [Reconcile] using hlog
  rw [this]
  exact hrun

end MinecraftOperator

/-! ## Properties of a pass -/

namespace MinecraftOperator
variable {σ : Type}

/-- C2. Absence tolerance: when the fetch of the parent reports NotFound, the
pass returns the empty result (directive Stop) with a nil error, its log is
that one fetch, and so it issues no write and records no event. -/
theorem absence_tolerance (r : MinecraftReconciler σ) (req : Request) (s : σ) (err : Err)
    (hget : (r.Client.Get s req.NamespacedName).1 = Ret.error err)
    (hnf : IsNotFound err = true) :
    (Reconcile r req s).1 = Go.ret ({}, none) ∧
    Result.directive {} = Directive.Stop ∧
    (Reconcile r req s).2.log = [Entry.Get req.NamespacedName (Ret.error err)] ∧
    (∀ x ∈ (Reconcile r req s).2.log, x.isWrite = false ∧ x.isEvent = false) := by
  have hlog : (Reconcile r req s).2.log = [Entry.Get req.NamespacedName (Ret.error err)] := by
    simp [Reconcile, ReconcileFrom, MinecraftReconciler.Get, hget, hnf]
  refine ⟨?_, rfl, hlog, ?_⟩
  · simp [Reconcile, ReconcileFrom, MinecraftReconciler.Get, hget, hnf]
  · intro x hx
    rw [hlog] at hx
    simp only [List.mem_singleton] at hx
    subst hx
    exact ⟨rfl, rfl⟩

theorem absence_tolerance_witness :
    (memReconciler.Client.Get ({} : MemStore) mcRequest.NamespacedName).1
        = Ret.error notFoundErr ∧
      IsNotFound notFoundErr = true ∧
      (Reconcile memReconciler mcRequest ({} : MemStore)).1 = Go.ret ({}, none) ∧
      (∀ x ∈ (Reconcile memReconciler mcRequest ({} : MemStore)).2.log,
        x.isWrite = false ∧ x.isEvent = false) :=
  have h := absence_tolerance memReconciler mcRequest ({} : MemStore) notFoundErr rfl rfl
  ⟨rfl, rfl, h.1, h.2.2.2⟩

theorem Reconcile_converged (r : MinecraftReconciler σ) (req : Request) (s : σ) (m : Minecraft)
    (hget : r.Client.Get s req.NamespacedName = (Ret.ok m, s))
    (hc : m.Conditions ≠ [])
    (hf : ContainsFinalizer m minecraftFinalizer = true)
    (hd : m.DeletionTimestamp = none)
    (hdeps : ∀ k : Kind, r.Client.GetDependent s k (dependentKey m) = (none, s)) :
    Reconcile r req s =
      (Go.ret ({}, none),
        { store := s
          log := [Entry.Get req.NamespacedName (Ret.ok m),
            Entry.GetDependent Kind.PersistentVolumeClaim (dependentKey m) none,
            Entry.GetDependent Kind.ConfigMap (dependentKey m) none,
            Entry.GetDependent Kind.StatefulSet (dependentKey m) none,
            Entry.GetDependent Kind.Service (dependentKey m) none] }) := by
  have hlen : m.Conditions.length ≠ 0 := by
    intro h
    exact hc (List.length_eq_zero.mp h)
  simp [Reconcile, ReconcileFrom, initializeStatus, ensureFinalizer, reconcileDependents,
    MinecraftReconciler.Get, MinecraftReconciler.GetDependent, hget, hlen, hf, hd, hdeps]

/-- C3. Idempotence at steady state: at a store state where the parent is fully
converged, a pass returns the empty result (directive Stop) with a nil error,
issues no write (no create, update or status update) and leaves the store state
as it is; hence a second pass right after it does the same and issues no write
either. -/
theorem steady_state_idempotent (r : MinecraftReconciler σ) (req : Request) (s : σ)
    (h : Converged r req s) :
    (Reconcile r req s).1 = Go.ret ({}, none) ∧
    Result.directive {} = Directive.Stop ∧
    (∀ x ∈ (Reconcile r req s).2.log, x.isWrite = false) ∧
    (Reconcile r req s).2.store = s ∧
    (Reconcile r req (Reconcile r req s).2.store).1 = Go.ret ({}, none) ∧
    (∀ x ∈ (Reconcile r req (Reconcile r req s).2.store).2.log, x.isWrite = false) := by
  obtain ⟨m, hget, hc, hf, hd, hdeps⟩ := h
  have key := Reconcile_converged r req s m hget hc hf hd hdeps
  have hw : ∀ x ∈ (Reconcile r req s).2.log, x.isWrite = false := by
    intro x hx
    rw [key] at hx
    simp only [List.mem_cons, List.mem_singleton, List.not_mem_nil, or_false] at hx
    rcases hx with hx | hx | hx | hx | hx <;> subst hx <;> rfl
  have hs : (Reconcile r req s).2.store = s := by rw [key]
  refine ⟨by rw [key], rfl, hw, hs, ?_, ?_⟩
  · rw [hs, key]
  · rw [hs]
    exact hw

/-- The in-memory store with the parent initialized and its four dependents. -/
theorem memStore_converged :
    Converged memReconciler mcRequest
      { parent := some mcReady, dependents := dependencyOrder } :=
  ⟨mcReady, rfl, by decide, by decide, rfl, by intro k; cases k <;> rfl⟩

theorem steady_state_idempotent_witness :
    Converged memReconciler mcRequest
        { parent := some mcReady, dependents := dependencyOrder } ∧
      (Reconcile memReconciler mcRequest
        { parent := some mcReady, dependents := dependencyOrder }).1 = Go.ret ({}, none) ∧
      (∀ x ∈ (Reconcile memReconciler mcRequest
          (Reconcile memReconciler mcRequest
            { parent := some mcReady, dependents := dependencyOrder }).2.store).2.log,
        x.isWrite = false) :=
  have h := steady_state_idempotent memReconciler mcRequest
    { parent := some mcReady, dependents := dependencyOrder } memStore_converged
  ⟨memStore_converged, h.1, h.2.2.2.2.2⟩

theorem mergeCondition_fields (now : Nat) (c new : Condition) :
    (mergeCondition now c new).type = c.type ∧
    (mergeCondition now c new).Status = new.Status ∧
    (mergeCondition now c new).Reason = new.Reason := by
  unfold mergeCondition
  by_cases h : c.Status = new.Status
  · simp [h]
  · simp [h]

theorem hasCondition_SetStatusCondition (now : Nat) (cs : List Condition) (c : Condition) :
    hasCondition (SetStatusCondition now cs c) c.type c.Status c.Reason = true := by
  induction cs with
  | nil =>
    by_cases h : c.LastTransitionTime = 0 <;> simp [SetStatusCondition, hasCondition, h]
  | cons c0 cs ih =>
    unfold SetStatusCondition
    by_cases h : c0.type = c.type
    · obtain ⟨h1, h2, h3⟩ := mergeCondition_fields now c0 c
      simp [h, hasCondition, h1, h2, h3]
    · simp only [h, if_false]
      unfold hasCondition at ih ⊢
      rw [List.any_cons, ih]
      simp

theorem hasCondition_setCondition (m : Minecraft) (now : Nat) (c : Condition) :
    hasCondition (m.setCondition now c).Conditions c.type c.Status c.Reason = true :=
  hasCondition_SetStatusCondition now m.Conditions c

theorem RemoveFinalizer_not_contains (m : Minecraft) (f : String) :
    ContainsFinalizer (RemoveFinalizer m f).1 f = false := by
  simp [RemoveFinalizer, ContainsFinalizer]

theorem synthesize_kind (r : MinecraftReconciler σ) (m : Minecraft) (k : Kind) (obj : Object)
    (h : synthesize r m k = Go.ret (Ret.ok obj)) : obj.kind = k := by
  cases k with
  | PersistentVolumeClaim =>
    simp only [synthesize] at h
    cases hs : pvcForMinecraft r.Scheme r.MINECRAFT_IMAGE m with
    | panic msg => simp [hs, asObject] at h
    | ret a =>
      cases a with
      | error err => simp [hs, asObject] at h
      | ok o => simp [hs, asObject] at h; subst h; rfl
  | ConfigMap =>
    simp only [synthesize] at h
    cases hs : configmapForMinecraft r.Scheme r.MINECRAFT_IMAGE m with
    | panic msg => simp [hs, asObject] at h
    | ret a =>
      cases a with
      | error err => simp [hs, asObject] at h
      | ok o => simp [hs, asObject] at h; subst h; rfl
  | StatefulSet =>
    simp only [synthesize] at h
    cases hs : statefulsetForMinecraft r.Scheme r.MINECRAFT_IMAGE m with
    | panic msg => simp [hs, asObject] at h
    | ret a =>
      cases a with
      | error err => simp [hs, asObject] at h
      | ok o => simp [hs, asObject] at h; subst h; rfl
  | Service =>
    simp only [synthesize] at h
    cases hs : serviceForMinecraft r.Scheme r.MINECRAFT_IMAGE m with
    | panic msg => simp [hs, asObject] at h
    | ret a =>
      cases a with
      | error err => simp [hs, asObject] at h
      | ok o => simp [hs, asObject] at h; subst h; rfl

/-- What a create operation does when its synthesizer fails with `e`: one status
write of the parent with the failure condition set, and the result follows the
reply of that write. -/
theorem createDependent_synthesis_error (r : MinecraftReconciler σ) (m : Minecraft)
    (w : World σ) (k : Kind) (e : Err) (h : synthesize r m k = Go.ret (Ret.error e)) :
    createDependent r m w k =
      reportSynthesisFailure r m w e (failureMessage m e k) := by
  cases k with
  | PersistentVolumeClaim =>
    simp only [synthesize] at h
    cases hs : pvcForMinecraft r.Scheme r.MINECRAFT_IMAGE m with
    | panic msg => simp [hs, asObject] at h
    | ret a =>
      cases a with
      | ok o => simp [hs, asObject] at h
      | error err =>
        simp [hs, asObject] at h; subst h
        simp [createDependent, createMinecraftPVC, hs, failureMessage]
  | ConfigMap =>
    simp only [synthesize] at h
    cases hs : configmapForMinecraft r.Scheme r.MINECRAFT_IMAGE m with
    | panic msg => simp [hs, asObject] at h
    | ret a =>
      cases a with
      | ok o => simp [hs, asObject] at h
      | error err =>
        simp [hs, asObject] at h; subst h
        simp [createDependent, createMinecraftConfigMap, hs, failureMessage]
  | StatefulSet =>
    simp only [synthesize] at h
    cases hs : statefulsetForMinecraft r.Scheme r.MINECRAFT_IMAGE m with
    | panic msg => simp [hs, asObject] at h
    | ret a =>
      cases a with
      | ok o => simp [hs, asObject] at h
      | error err =>
        simp [hs, asObject] at h; subst h
        simp [createDependent, createMinecraftStatefulSet, hs, failureMessage]
  | Service =>
    simp only [synthesize] at h
    cases hs : serviceForMinecraft r.Scheme r.MINECRAFT_IMAGE m with
    | panic msg => simp [hs, asObject] at h
    | ret a =>
      cases a with
      | ok o => simp [hs, asObject] at h
      | error err =>
        simp [hs, asObject] at h; subst h
        simp [createDependent, createMinecraftService, hs, failureMessage]

/-- C9. Synthesis failure is recorded before it is propagated: in each of the
four create operations, when the synthesizer returns an error `e`, the
operation issues exactly one store call, a status update of the parent with the
condition `Available=False`, reason "Reconciling", set on it; it issues no
create call, and when that status update succeeds it returns `e`. -/
theorem synthesis_failure_recorded (r : MinecraftReconciler σ) (m : Minecraft)
    (w : World σ) (k : Kind) (e : Err) (h : synthesize r m k = Go.ret (Ret.error e)) :
    ∃ (obj : Minecraft) (reply : Ret Minecraft),
      obj = m.setCondition (r.Now w.store) (failedCondition (failureMessage m e k)) ∧
      hasCondition obj.Conditions typeAvailableMinecraft ConditionStatus.ConditionFalse
        "Reconciling" = true ∧
      (createDependent r m w k).2.log = w.log ++ [Entry.StatusUpdate obj reply] ∧
      (∀ x ∈ (createDependent r m w k).2.log, x.isCreate = true → x ∈ w.log) ∧
      (∀ m1, reply = Ret.ok m1 → (createDependent r m w k).1 = Go.ret ({}, some e)) := by
  rw [createDependent_synthesis_error r m w k e h]
  unfold reportSynthesisFailure
  obtain ⟨a, w1, h1⟩ : ∃ a w1,
      r.StatusUpdate w
        (m.setCondition (r.Now w.store) (failedCondition (failureMessage m e k))) = (a, w1) :=
    ⟨_, _, rfl⟩
  simp only [h1]
  refine ⟨_, a, rfl, hasCondition_setCondition m _ (failedCondition _), ?_, ?_, ?_⟩
  · cases a <;> exact StatusUpdate_log h1
  · intro x hx hc
    have hlog : w1.log = w.log ++ [Entry.StatusUpdate _ a] := StatusUpdate_log h1
    have hx1 : x ∈ w1.log := by cases a <;> exact hx
    rw [hlog, List.mem_append, List.mem_singleton] at hx1
    rcases hx1 with hx1 | hx1
    · exact hx1
    · subst hx1
      cases hc
  · intro m1 hm1
    subst hm1
    rfl

theorem synthesis_failure_recorded_witness :
    synthesize memReconcilerNoScheme mcReady Kind.ConfigMap = Go.ret (Ret.error noKindErr) ∧
      ∃ (obj : Minecraft) (reply : Ret Minecraft),
        obj = mcReady.setCondition 1
          (failedCondition (failureMessage mcReady noKindErr Kind.ConfigMap)) ∧
        hasCondition obj.Conditions typeAvailableMinecraft ConditionStatus.ConditionFalse
          "Reconciling" = true ∧
        (createDependent memReconcilerNoScheme mcReady
            { store := { parent := some mcReady }, log := [] } Kind.ConfigMap).2.log
          = [] ++ [Entry.StatusUpdate obj reply] ∧
        (∀ x ∈ (createDependent memReconcilerNoScheme mcReady
            { store := { parent := some mcReady }, log := [] } Kind.ConfigMap).2.log,
          x.isCreate = true → x ∈ ([] : List Entry)) ∧
        (∀ m1, reply = Ret.ok m1 →
          (createDependent memReconcilerNoScheme mcReady
            { store := { parent := some mcReady }, log := [] } Kind.ConfigMap).1
            = Go.ret ({}, some noKindErr)) :=
  ⟨rfl, synthesis_failure_recorded memReconcilerNoScheme mcReady
    { store := { parent := some mcReady }, log := [] } Kind.ConfigMap noKindErr rfl⟩

/-- C8, as the code has it. In each of the four create operations, when the
synthesizer fails with `e` and the status update that reports it fails with
`e2`, the operation returns `e2`, the error of the status update, with the
empty result; `e` itself is not returned. -/
theorem report_failure_returns_status_error (r : MinecraftReconciler σ) (m : Minecraft)
    (w : World σ) (k : Kind) (e e2 : Err)
    (h : synthesize r m k = Go.ret (Ret.error e))
    (h2 : ∀ obj, (r.Client.StatusUpdate w.store obj).1 = Ret.error e2) :
    (createDependent r m w k).1 = Go.ret ({}, some e2) := by
  rw [createDependent_synthesis_error r m w k e h]
  simp [reportSynthesisFailure, MinecraftReconciler.StatusUpdate, h2]

theorem report_failure_returns_status_error_witness :
    synthesize memReconcilerNoScheme mcReady Kind.Service = Go.ret (Ret.error noKindErr) ∧
      (∀ obj, (memReconcilerNoScheme.Client.StatusUpdate
        { parent := some mcReady, statusError := some conflictErr } obj).1
          = Ret.error conflictErr) ∧
      (createDependent memReconcilerNoScheme mcReady
        { store := { parent := some mcReady, statusError := some conflictErr }, log := [] }
        Kind.Service).1 = Go.ret ({}, some conflictErr) :=
  ⟨rfl, fun _ => rfl,
    report_failure_returns_status_error memReconcilerNoScheme mcReady
      { store := { parent := some mcReady, statusError := some conflictErr }, log := [] }
      Kind.Service noKindErr conflictErr rfl (fun _ => rfl)⟩

/-- C8 fails as stated: with a scheme that does not know the parent type every
synthesizer fails with `noKindErr`; over a store whose status update fails with
`conflictErr`, each of the four create operations returns `conflictErr`, which
is not the synthesis error. -/
theorem report_failure_masks_original :
    pvcForMinecraft memReconcilerNoScheme.Scheme memReconcilerNoScheme.MINECRAFT_IMAGE mcReady
        = Go.ret (Ret.error noKindErr) ∧
      configmapForMinecraft memReconcilerNoScheme.Scheme memReconcilerNoScheme.MINECRAFT_IMAGE
        mcReady = Go.ret (Ret.error noKindErr) ∧
      statefulsetForMinecraft memReconcilerNoScheme.Scheme memReconcilerNoScheme.MINECRAFT_IMAGE
        mcReady = Go.ret (Ret.error noKindErr) ∧
      serviceForMinecraft memReconcilerNoScheme.Scheme memReconcilerNoScheme.MINECRAFT_IMAGE
        mcReady = Go.ret (Ret.error noKindErr) ∧
      (createMinecraftPVC memReconcilerNoScheme mcReady
        { store := { parent := some mcReady, statusError := some conflictErr }, log := [] }).1
          = Go.ret ({}, some conflictErr) ∧
      (createMinecraftConfigMap memReconcilerNoScheme mcReady
        { store := { parent := some mcReady, statusError := some conflictErr }, log := [] }).1
          = Go.ret ({}, some conflictErr) ∧
      (createMinecraftStatefulSet memReconcilerNoScheme mcReady
        { store := { parent := some mcReady, statusError := some conflictErr }, log := [] }).1
          = Go.ret ({}, some conflictErr) ∧
      (createMinecraftService memReconcilerNoScheme mcReady
        { store := { parent := some mcReady, statusError := some conflictErr }, log := [] }).1
          = Go.ret ({}, some conflictErr) ∧
      conflictErr ≠ noKindErr := by
  refine ⟨rfl, rfl, rfl, rfl, rfl, rfl, rfl, rfl, ?_⟩
  decide

/-! ### Writes of a pass -/

theorem InitRun_writes {req : Request} {m : Minecraft} {f : Flow} {ext : List Entry}
    (h : InitRun req m f ext) :
    (ext.filter Entry.isWrite).length ≤ 1 ∧ ext.filter Entry.isCreate = [] := by
  cases h <;> simp [Entry.isWrite, Entry.isCreate]

theorem FinalizerRun_writes {m : Minecraft} {f : Flow} {ext : List Entry}
    (h : FinalizerRun m f ext) :
    (ext.filter Entry.isWrite).length ≤ 1 ∧ ext.filter Entry.isCreate = [] := by
  cases h <;> simp [Entry.isWrite, Entry.isCreate]

theorem DeleteRun_writes {req : Request} {m : Minecraft} {res : Go (Result × Option Err)}
    {ext : List Entry} (h : DeleteRun req m res ext) :
    (ext.filter Entry.isWrite).length ≤ 3 ∧ ext.filter Entry.isCreate = [] := by
  cases h <;> simp [Entry.isWrite, Entry.isCreate, deletingEvent]

theorem CreateRun_writes {r : MinecraftReconciler σ} {m : Minecraft} {k : Kind}
    {res : Go (Result × Option Err)} {ext : List Entry} (h : CreateRun r m k res ext) :
    (ext.filter Entry.isWrite).length ≤ 1 ∧ (ext.filter Entry.isCreate).length ≤ 1 := by
  cases h <;> simp [Entry.isWrite, Entry.isCreate]

theorem DependentsRun_writes {r : MinecraftReconciler σ} {m : Minecraft} {ks : List Kind}
    {res : Go (Result × Option Err)} {ext : List Entry} (h : DependentsRun r m ks res ext) :
    (ext.filter Entry.isWrite).length ≤ 1 ∧ (ext.filter Entry.isCreate).length ≤ 1 := by
  induction h with
  | allFound => simp
  | found k ks res ext _ ih => simpa [Entry.isWrite, Entry.isCreate] using ih
  | fetchError k ks err h => simp [Entry.isWrite, Entry.isCreate]
  | absent k ks err h res ext run => simpa [Entry.isWrite, Entry.isCreate] using CreateRun_writes run

/-- C6, as the code has it. A pass issues at most one create call; counting the
status updates and the updates of the parent as well it issues at most five
writes, and at most three when it creates a dependent. -/
theorem writes_per_pass (r : MinecraftReconciler σ) (req : Request) (s : σ) :
    ((Reconcile r req s).2.log.filter Entry.isCreate).length ≤ 1 ∧
    ((Reconcile r req s).2.log.filter Entry.isWrite).length ≤ 5 ∧
    (((Reconcile r req s).2.log.filter Entry.isCreate).length = 1 →
      ((Reconcile r req s).2.log.filter Entry.isWrite).length ≤ 3) := by
  have hrun := Reconcile_run r req s
  generalize (Reconcile r req s).1 = res at hrun
  generalize (Reconcile r req s).2.log = log at hrun
  cases hrun with
  | notFound err h => simp [Entry.isWrite, Entry.isCreate]
  | getError err h => simp [Entry.isWrite, Entry.isCreate]
  | initReturned m0 res ext1 init =>
    have h1 := InitRun_writes init
    simp only [List.filter_cons, Entry.isWrite, Entry.isCreate, h1.2]
    simp
    omega
  | finalizerReturned m0 m1 res ext1 ext2 init fin =>
    have h1 := InitRun_writes init
    have h2 := FinalizerRun_writes fin
    simp only [List.filter_cons, Entry.isWrite, Entry.isCreate, List.filter_append, h1.2, h2.2,
      List.length_append]
    simp
    omega
  | deleting m0 m1 m2 res ext1 ext2 ext3 init fin h del =>
    have h1 := InitRun_writes init
    have h2 := FinalizerRun_writes fin
    have h3 := DeleteRun_writes del
    simp only [List.filter_cons, Entry.isWrite, Entry.isCreate, List.filter_append, h1.2, h2.2,
      h3.2, List.length_append]
    simp
    omega
  | converging m0 m1 m2 res ext1 ext2 ext3 init fin h deps =>
    have h1 := InitRun_writes init
    have h2 := FinalizerRun_writes fin
    have h3 := DependentsRun_writes deps
    simp only [List.filter_cons, Entry.isWrite, Entry.isCreate, List.filter_append, h1.2, h2.2,
      List.length_append]
    simp
    omega

/-- C6 fails as stated: the first pass on a freshly declared parent issues three
writes (the status update, the update that adds the finalizer, the create of
the volume claim), not at most one. -/
theorem fresh_parent_three_writes :
    ((Reconcile memReconciler mcRequest { parent := some mcFresh }).2.log.filter
        Entry.isWrite).length = 3 ∧
      ¬ ((Reconcile memReconciler mcRequest { parent := some mcFresh }).2.log.filter
        Entry.isWrite).length ≤ 1 := by
  decide

/-! ### Failed store calls -/

theorem FailStop_nil (res : Go (Result × Option Err)) : FailStop res [] := by
  intro pre x post e hl _
  simp at hl

theorem FailStop_cons {res : Go (Result × Option Err)} {x : Entry} {l : List Entry}
    (hx : x.failure = none) (hl : FailStop res l) : FailStop res (x :: l) := by
  intro pre y post e heq hy
  cases pre with
  | nil =>
    simp only [List.nil_append, List.cons.injEq] at heq
    rw [← heq.1, hx] at hy
    cases hy
  | cons a pre =>
    simp only [List.cons_append, List.cons.injEq] at heq
    exact hl pre y post e heq.2 hy

theorem FailStop_last {x : Entry} {e : Err}
    (hx : ∀ e', x.failure = some e' → e' = e) : FailStop (Go.ret ({}, some e)) [x] := by
  intro pre y post e' heq hy
  cases pre with
  | nil =>
    simp only [List.nil_append, List.cons.injEq] at heq
    obtain ⟨h1, h2⟩ := heq
    subst h1
    rw [hx e' hy]
    exact ⟨h2.symm, rfl⟩
  | cons a pre =>
    simp at heq

theorem FailStop_append {res : Go (Result × Option Err)} {l1 l2 : List Entry}
    (h1 : ∀ x ∈ l1, x.failure = none) (h2 : FailStop res l2) : FailStop res (l1 ++ l2) := by
  induction l1 with
  | nil => simpa using h2
  | cons a l1 ih =>
    rw [List.cons_append]
    exact FailStop_cons (h1 a (List.mem_cons_self a l1))
      (ih (fun x hx => h1 x (List.mem_cons_of_mem a hx)))

theorem failure_Get_error (key : NamespacedName) (err e' : Err)
    (h : (Entry.Get key (Ret.error err)).failure = some e') : e' = err := by
  unfold Entry.failure at h
  by_cases hnf : IsNotFound err = true
  · simp [hnf] at h
  · simp [hnf] at h
    exact h.symm

theorem failure_GetDependent_error (k : Kind) (key : NamespacedName) (err e' : Err)
    (h : (Entry.GetDependent k key (some err)).failure = some e') : e' = err := by
  unfold Entry.failure at h
  by_cases hnf : IsNotFound err = true
  · simp [hnf] at h
  · simp [hnf] at h
    exact h.symm

theorem FailStop_failed {x : Entry} {e : Err} (hx : x.failure = some e) :
    FailStop (Go.ret ({}, some e)) [x] :=
  FailStop_last (fun e' he => by rw [hx] at he; cases he; rfl)

theorem InitRun_next_failure {req : Request} {m m1 : Minecraft} {ext : List Entry}
    (h : InitRun req m (Flow.next m1) ext) : ∀ x ∈ ext, x.failure = none := by
  cases h <;> simp [Entry.failure]

theorem InitRun_done_failStop {req : Request} {m : Minecraft}
    {res : Go (Result × Option Err)} {ext : List Entry}
    (h : InitRun req m (Flow.done res) ext) : FailStop res ext := by
  cases h with
  | statusError h now err => exact FailStop_failed rfl
  | getError h now m1 err =>
    exact FailStop_cons rfl (FailStop_last (failure_Get_error _ err))

theorem FinalizerRun_next_failure {m m1 : Minecraft} {ext : List Entry}
    (h : FinalizerRun m (Flow.next m1) ext) : ∀ x ∈ ext, x.failure = none := by
  cases h <;> simp [Entry.failure]

theorem FinalizerRun_done_failStop {m : Minecraft} {res : Go (Result × Option Err)}
    {ext : List Entry} (h : FinalizerRun m (Flow.done res) ext) : FailStop res ext := by
  cases h with
  | updateError h err => exact FailStop_failed rfl

theorem DeleteRun_failStop {req : Request} {m : Minecraft} {res : Go (Result × Option Err)}
    {ext : List Entry} (h : DeleteRun req m res ext) : FailStop res ext := by
  cases h with
  | noFinalizer h => exact FailStop_nil _
  | statusError h now err =>
    exact FailStop_failed rfl
  | getError h now m1 err =>
    exact FailStop_cons rfl (FailStop_cons rfl (FailStop_last (failure_Get_error _ err)))
  | secondStatusError h now m1 m2 now2 err =>
    exact FailStop_cons rfl (FailStop_cons rfl (FailStop_cons rfl
      (FailStop_failed rfl)))
  | finalizerGone h now m1 m2 now2 m3 h3 =>
    exact FailStop_cons rfl (FailStop_cons rfl (FailStop_cons rfl
      (FailStop_cons rfl (FailStop_nil _))))
  | updateError h now m1 m2 now2 m3 h3 err =>
    exact FailStop_cons rfl (FailStop_cons rfl (FailStop_cons rfl (FailStop_cons rfl
      (FailStop_failed rfl))))
  | finished h now m1 m2 now2 m3 h3 m4 =>
    exact FailStop_cons rfl (FailStop_cons rfl (FailStop_cons rfl
      (FailStop_cons rfl (FailStop_cons rfl (FailStop_nil _)))))

theorem CreateRun_failStop {r : MinecraftReconciler σ} {m : Minecraft} {k : Kind}
    {res : Go (Result × Option Err)} {ext : List Entry} (h : CreateRun r m k res ext) :
    FailStop res ext := by
  cases h with
  | panicked msg h => exact FailStop_nil _
  | reportError err h now err2 =>
    exact FailStop_failed rfl
  | reported err h now m1 => exact FailStop_cons rfl (FailStop_nil _)
  | createError obj h err =>
    exact FailStop_failed rfl
  | created obj h => exact FailStop_cons rfl (FailStop_nil _)

theorem DependentsRun_failStop {r : MinecraftReconciler σ} {m : Minecraft} {ks : List Kind}
    {res : Go (Result × Option Err)} {ext : List Entry} (h : DependentsRun r m ks res ext) :
    FailStop res ext := by
  induction h with
  | allFound => exact FailStop_nil _
  | found k ks res ext _ ih => exact FailStop_cons rfl ih
  | fetchError k ks err h => exact FailStop_last (failure_GetDependent_error k _ err)
  | absent k ks err h res ext run =>
    refine FailStop_cons ?_ (CreateRun_failStop run)
    simp [Entry.failure, h]

theorem PassRun_failStop {r : MinecraftReconciler σ} {req : Request}
    {res : Go (Result × Option Err)} {log : List Entry} (h : PassRun r req res log) :
    FailStop res log := by
  cases h with
  | notFound err h =>
    refine FailStop_cons ?_ (FailStop_nil _)
    simp [Entry.failure, h]
  | getError err h => exact FailStop_last (failure_Get_error _ err)
  | initReturned m0 res ext1 init => exact FailStop_cons rfl (InitRun_done_failStop init)
  | finalizerReturned m0 m1 res ext1 ext2 init fin =>
    exact FailStop_cons rfl
      (FailStop_append (InitRun_next_failure init) (FinalizerRun_done_failStop fin))
  | deleting m0 m1 m2 res ext1 ext2 ext3 init fin h del =>
    refine FailStop_cons rfl ?_
    rw [List.append_assoc]
    exact FailStop_append (InitRun_next_failure init)
      (FailStop_append (FinalizerRun_next_failure fin) (DeleteRun_failStop del))
  | converging m0 m1 m2 res ext1 ext2 ext3 init fin h deps =>
    refine FailStop_cons rfl ?_
    rw [List.append_assoc]
    exact FailStop_append (InitRun_next_failure init)
      (FailStop_append (FinalizerRun_next_failure fin) (DependentsRun_failStop deps))

/-- C7. Store-error propagation: when a store call of a pass returns an error
`e` (a fetch of the parent or of a dependent failing with anything other than
NotFound, a status update, an update of the parent, a create), that call is the
last entry of the log of the pass, so no further store call is made, and the
pass returns `e` as its error, with the empty result. -/
theorem store_error_propagates (r : MinecraftReconciler σ) (req : Request) (s : σ)
    (pre : List Entry) (x : Entry) (post : List Entry) (e : Err)
    (hlog : (Reconcile r req s).2.log = pre ++ x :: post)
    (hx : x.failure = some e) :
    post = [] ∧ (Reconcile r req s).1 = Go.ret ({}, some e) :=
  PassRun_failStop (Reconcile_run r req s) pre x post e hlog hx

theorem store_error_propagates_witness :
    (Reconcile memReconciler mcRequest
        { parent := some mcFresh, statusError := some conflictErr }).2.log
      = [Entry.Get mcRequest.NamespacedName (Ret.ok mcFresh)] ++
          Entry.StatusUpdate (mcFresh.setCondition 1 startingCondition) (Ret.error conflictErr)
            :: [] ∧
      (Entry.StatusUpdate (mcFresh.setCondition 1 startingCondition)
        (Ret.error conflictErr)).failure = some conflictErr ∧
      ([] : List Entry) = [] ∧
      (Reconcile memReconciler mcRequest
        { parent := some mcFresh, statusError := some conflictErr }).1
        = Go.ret ({}, some conflictErr) :=
  ⟨rfl, rfl,
    store_error_propagates memReconciler mcRequest
      { parent := some mcFresh, statusError := some conflictErr }
      [Entry.Get mcRequest.NamespacedName (Ret.ok mcFresh)]
      (Entry.StatusUpdate (mcFresh.setCondition 1 startingCondition) (Ret.error conflictErr))
      [] conflictErr rfl rfl⟩

/-! ### The requeue directive after a create -/

theorem not_create_of_filter {ext : List Entry} (h : ext.filter Entry.isCreate = [])
    (obj : Object) (reply : Option Err) : Entry.Create obj reply ∉ ext := by
  intro hmem
  have : Entry.Create obj reply ∈ ext.filter Entry.isCreate :=
    List.mem_filter.mpr ⟨hmem, rfl⟩
  rw [h] at this
  cases this

theorem CreateRun_created {r : MinecraftReconciler σ} {m : Minecraft} {k : Kind}
    {res : Go (Result × Option Err)} {ext : List Entry} (h : CreateRun r m k res ext)
    (obj : Object) (hmem : Entry.Create obj none ∈ ext) :
    res = Go.ret (createdResult obj.kind, none) := by
  cases h with
  | panicked msg h => cases hmem
  | reportError err h now err2 => simp at hmem
  | reported err h now m1 => simp at hmem
  | createError obj1 h err => simp at hmem
  | created obj1 h =>
    simp only [List.mem_singleton, Entry.Create.injEq, and_true] at hmem
    subst hmem
    rw [synthesize_kind r m k obj h]

theorem DependentsRun_created {r : MinecraftReconciler σ} {m : Minecraft} {ks : List Kind}
    {res : Go (Result × Option Err)} {ext : List Entry} (h : DependentsRun r m ks res ext)
    (obj : Object) (hmem : Entry.Create obj none ∈ ext) :
    res = Go.ret (createdResult obj.kind, none) := by
  induction h with
  | allFound => cases hmem
  | found k ks res ext _ ih =>
    simp only [List.mem_cons, reduceCtorEq, false_or] at hmem
    exact ih hmem
  | fetchError k ks err h => simp at hmem
  | absent k ks err h res ext run =>
    simp only [List.mem_cons, reduceCtorEq, false_or] at hmem
    exact CreateRun_created run obj hmem

theorem PassRun_created {r : MinecraftReconciler σ} {req : Request}
    {res : Go (Result × Option Err)} {log : List Entry} (h : PassRun r req res log)
    (obj : Object) (hmem : Entry.Create obj none ∈ log) :
    res = Go.ret (createdResult obj.kind, none) := by
  cases h with
  | notFound err h => simp at hmem
  | getError err h => simp at hmem
  | initReturned m0 res ext1 init =>
    simp only [List.mem_cons, reduceCtorEq, false_or] at hmem
    exact absurd hmem (not_create_of_filter (InitRun_writes init).2 obj none)
  | finalizerReturned m0 m1 res ext1 ext2 init fin =>
    simp only [List.mem_cons, reduceCtorEq, false_or, List.mem_append] at hmem
    rcases hmem with hmem | hmem
    · exact absurd hmem (not_create_of_filter (InitRun_writes init).2 obj none)
    · exact absurd hmem (not_create_of_filter (FinalizerRun_writes fin).2 obj none)
  | deleting m0 m1 m2 res ext1 ext2 ext3 init fin h del =>
    simp only [List.mem_cons, reduceCtorEq, false_or, List.mem_append] at hmem
    rcases hmem with (hmem | hmem) | hmem
    · exact absurd hmem (not_create_of_filter (InitRun_writes init).2 obj none)
    · exact absurd hmem (not_create_of_filter (FinalizerRun_writes fin).2 obj none)
    · exact absurd hmem (not_create_of_filter (DeleteRun_writes del).2 obj none)
  | converging m0 m1 m2 res ext1 ext2 ext3 init fin h deps =>
    simp only [List.mem_cons, reduceCtorEq, false_or, List.mem_append] at hmem
    rcases hmem with (hmem | hmem) | hmem
    · exact absurd hmem (not_create_of_filter (InitRun_writes init).2 obj none)
    · exact absurd hmem (not_create_of_filter (FinalizerRun_writes fin).2 obj none)
    · exact DependentsRun_created deps obj hmem

theorem createdResult_directive (k : Kind) :
    (createdResult k).directive = requeueAfterCreate k := by
  cases k <;> decide

/-- C10, as the code has it. When a pass creates a dependent and the store
accepts the create, the pass returns a nil error with the result of that kind
of dependent: requeue after one minute for the volume claim and the stateful
set, and an immediate requeue, with no delay, for the config map and for the
service. -/
theorem requeue_after_create (r : MinecraftReconciler σ) (req : Request) (s : σ)
    (obj : Object) (h : Entry.Create obj none ∈ (Reconcile r req s).2.log) :
    (Reconcile r req s).1 = Go.ret (createdResult obj.kind, none) ∧
    (createdResult obj.kind).directive = requeueAfterCreate obj.kind ∧
    (obj.kind = Kind.Service →
      (Reconcile r req s).1 = Go.ret ({ Requeue := true }, none) ∧
      (createdResult obj.kind).directive = Directive.RequeueImmediate) := by
  have hres := PassRun_created (Reconcile_run r req s) obj h
  refine ⟨hres, createdResult_directive _, ?_⟩
  intro hk
  rw [hres, hk]
  exact ⟨rfl, rfl⟩

/-- C10 fails as stated: with the volume claim, the config map and the stateful
set present and the service absent, the pass creates the service, every store
call succeeds, and it returns `Requeue: true` with no delay, which is the
directive RequeueImmediate and not RequeueAfter one minute. -/
theorem service_requeues_immediately :
    ((Reconcile memReconciler mcRequest
        { parent := some mcReady,
          dependents := [Kind.PersistentVolumeClaim, Kind.ConfigMap, Kind.StatefulSet] }).2.log.filterMap
        Entry.created).map Object.kind = [Kind.Service] ∧
      ((Reconcile memReconciler mcRequest
        { parent := some mcReady,
          dependents := [Kind.PersistentVolumeClaim, Kind.ConfigMap, Kind.StatefulSet] }).2.log.all
        fun x => !x.failed) = true ∧
      (Reconcile memReconciler mcRequest
        { parent := some mcReady,
          dependents := [Kind.PersistentVolumeClaim, Kind.ConfigMap, Kind.StatefulSet] }).1
        = Go.ret ({ Requeue := true, RequeueAfter := 0 }, none) ∧
      Result.directive { Requeue := true, RequeueAfter := 0 } = Directive.RequeueImmediate ∧
      Result.directive { Requeue := true, RequeueAfter := 0 } ≠ Directive.RequeueAfter Minute := by
  refine ⟨by rfl, by rfl, by rfl, by rfl, by decide⟩

theorem requeue_after_create_witness :
    Entry.Create (Object.service mcService) none ∈
        (Reconcile memReconciler mcRequest
          { parent := some mcReady,
            dependents := [Kind.PersistentVolumeClaim, Kind.ConfigMap, Kind.StatefulSet] }).2.log ∧
      (Reconcile memReconciler mcRequest
          { parent := some mcReady,
            dependents := [Kind.PersistentVolumeClaim, Kind.ConfigMap, Kind.StatefulSet] }).1
        = Go.ret ({ Requeue := true }, none) :=
  ⟨by decide,
    (requeue_after_create memReconciler mcRequest
      { parent := some mcReady,
        dependents := [Kind.PersistentVolumeClaim, Kind.ConfigMap, Kind.StatefulSet] }
      (Object.service mcService) (by decide)).1⟩

end MinecraftOperator

/-! ### Order of creation -/

namespace MinecraftOperator
variable {σ : Type}

theorem InitRun_reads {req : Request} {m : Minecraft} {f : Flow} {ext : List Entry}
    (h : InitRun req m f ext) :
    ext.filterMap Entry.absentKind = [] ∧ ext.filterMap Entry.fetchedKind = [] ∧
      ext.filterMap Entry.created = [] := by
  cases h <;> simp [Entry.absentKind, Entry.fetchedKind, Entry.created]

theorem FinalizerRun_reads {m : Minecraft} {f : Flow} {ext : List Entry}
    (h : FinalizerRun m f ext) :
    ext.filterMap Entry.absentKind = [] ∧ ext.filterMap Entry.fetchedKind = [] ∧
      ext.filterMap Entry.created = [] := by
  cases h <;> simp [Entry.absentKind, Entry.fetchedKind, Entry.created]

theorem InitRun_next_parent {req : Request} {m m1 : Minecraft} {ext : List Entry}
    (h : InitRun req m (Flow.next m1) ext) :
    m1 = m ∨ ∃ x ∈ ext, x.observed = some m1 := by
  cases h with
  | skip h => exact Or.inl rfl
  | refreshed h now m' =>
    exact Or.inr ⟨Entry.Get req.NamespacedName (Ret.ok m1), by simp, rfl⟩

theorem FinalizerRun_next_parent {m m1 : Minecraft} {ext : List Entry}
    (h : FinalizerRun m (Flow.next m1) ext) :
    m1 = m ∨ ∃ x ∈ ext, x.parent = some m1 := by
  cases h with
  | present h => exact Or.inl rfl
  | updated h =>
    exact Or.inr ⟨Entry.Update (AddFinalizer m minecraftFinalizer).1 (Ret.ok m1), by simp, rfl⟩

theorem parent_of_observed {x : Entry} {m : Minecraft} (h : x.observed = some m) :
    x.parent = some m := by
  cases x with
  | Get key reply => cases reply <;> simp_all [Entry.observed, Entry.parent]
  | StatusUpdate obj reply => cases reply <;> simp_all [Entry.observed, Entry.parent]
  | GetDependent k key reply => simp [Entry.observed] at h
  | Update obj reply => simp [Entry.observed] at h
  | Create obj reply => simp [Entry.observed] at h
  | Event obj a b c => simp [Entry.observed] at h

/-- The parent in hand after the first two blocks was handed back by a call of
the log. -/
theorem inhand_parent {req : Request} {m0 m1 m2 : Minecraft} {ext1 ext2 : List Entry}
    (ext3 : List Entry) (init : InitRun req m0 (Flow.next m1) ext1) (fin : FinalizerRun m1 (Flow.next m2) ext2) :
    ∃ x ∈ Entry.Get req.NamespacedName (Ret.ok m0) :: (ext1 ++ ext2 ++ ext3),
      x.parent = some m2 := by
  rcases FinalizerRun_next_parent fin with h2 | ⟨x, hx, hp⟩
  · subst h2
    rcases InitRun_next_parent init with h1 | ⟨x, hx, hp⟩
    · subst h1
      exact ⟨_, List.mem_cons_self _ _, rfl⟩
    · exact ⟨x, by simp [hx], parent_of_observed hp⟩
  · exact ⟨x, by simp [hx], hp⟩

theorem order_initial_segment (found rest : List Kind) (k : Kind)
    (h : dependencyOrder = found ++ k :: rest) :
    found ++ [k] = dependencyOrder.take (k.rank + 1) := by
  unfold dependencyOrder at h
  rcases found with _ | ⟨a, _ | ⟨b, _ | ⟨c, _ | ⟨d, _ | ⟨e, t⟩⟩⟩⟩⟩ <;>
    simp only [List.nil_append, List.cons_append, List.cons.injEq, reduceCtorEq, false_and,
      and_false, List.nil_eq, List.append_eq_nil] at h
  · obtain ⟨h1, _⟩ := h
    subst h1
    rfl
  · obtain ⟨h1, h2, _⟩ := h
    subst h1 h2
    rfl
  · obtain ⟨h1, h2, h3, _⟩ := h
    subst h1 h2 h3
    rfl
  · obtain ⟨h1, h2, h3, h4, _⟩ := h
    subst h1 h2 h3 h4
    rfl

theorem createdResult_not_stop (k : Kind) : (createdResult k).directive ≠ Directive.Stop := by
  cases k <;> decide

theorem DependentsRun_creates {r : MinecraftReconciler σ} {m : Minecraft} {ks : List Kind}
    {res : Go (Result × Option Err)} {ext : List Entry} (run : DependentsRun r m ks res ext)
    (k : Kind)
    (hok : ∀ x ∈ ext, x.failed = false)
    (habs : k ∈ ext.filterMap Entry.absentKind)
    (hsynth : ∃ obj, synthesize r m k = Go.ret (Ret.ok obj)) :
    ∃ found rest obj, ks = found ++ k :: rest ∧
      ext.filterMap Entry.fetchedKind = found ++ [k] ∧
      ext.filterMap Entry.absentKind = [k] ∧
      ext.filterMap Entry.created = [obj] ∧
      obj.kind = k ∧
      res = Go.ret (createdResult k, none) := by
  induction run with
  | allFound => simp at habs
  | found k0 ks res ext _ ih =>
    have hok' : ∀ x ∈ ext, x.failed = false := fun x hx => hok x (List.mem_cons_of_mem _ hx)
    have habs' : k ∈ ext.filterMap Entry.absentKind := by
      simpa [Entry.absentKind] using habs
    obtain ⟨found, rest, obj, h1, h2, h3, h4, h5, h6⟩ := ih hok' habs'
    refine ⟨k0 :: found, rest, obj, by simp [h1], ?_, ?_, ?_, h5, h6⟩
    · simp [Entry.fetchedKind, h2]
    · simp [Entry.absentKind, h3]
    · simp [Entry.created, h4]
  | fetchError k0 ks err h =>
    have := hok _ (List.mem_singleton_self _)
    simp [Entry.failed, h] at this
  | absent k0 ks err h res ext run =>
    obtain ⟨obj, hobj⟩ := hsynth
    cases run with
    | panicked msg hs =>
      have hk : k = k0 := by simpa [Entry.absentKind, h] using habs
      subst hk
      rw [hobj] at hs
      cases hs
    | reportError e hs now e2 =>
      have hk : k = k0 := by simpa [Entry.absentKind, h] using habs
      subst hk
      rw [hobj] at hs
      cases hs
    | reported e hs now m1 =>
      have hk : k = k0 := by simpa [Entry.absentKind, h] using habs
      subst hk
      rw [hobj] at hs
      cases hs
    | createError obj1 hs e =>
      have := hok (Entry.Create obj1 (some e)) (by simp)
      simp [Entry.failed] at this
    | created obj1 hs =>
      have hk : k = k0 := by simpa [Entry.absentKind, h] using habs
      subst hk
      refine ⟨[], ks, obj1, rfl, ?_, ?_, ?_, synthesize_kind r m k obj1 hs, rfl⟩
      · simp [Entry.fetchedKind]
      · simp [Entry.absentKind, h]
      · simp [Entry.created]

theorem PassRun_creates {r : MinecraftReconciler σ} {req : Request}
    {res : Go (Result × Option Err)} {log : List Entry} (run : PassRun r req res log)
    (k : Kind)
    (hok : ∀ x ∈ log, x.failed = false)
    (hlive : ∀ x ∈ log, x.live = true)
    (habs : k ∈ log.filterMap Entry.absentKind)
    (hsynth : ∀ m, ∃ obj, synthesize r m k = Go.ret (Ret.ok obj)) :
    ∃ found rest obj, dependencyOrder = found ++ k :: rest ∧
      log.filterMap Entry.fetchedKind = found ++ [k] ∧
      log.filterMap Entry.absentKind = [k] ∧
      log.filterMap Entry.created = [obj] ∧
      obj.kind = k ∧
      res = Go.ret (createdResult k, none) := by
  cases run with
  | notFound err h => simp [Entry.absentKind] at habs
  | getError err h => simp [Entry.absentKind] at habs
  | initReturned m0 res ext1 init =>
    simp [Entry.absentKind, (InitRun_reads init).1] at habs
  | finalizerReturned m0 m1 res ext1 ext2 init fin =>
    simp [Entry.absentKind, (InitRun_reads init).1, (FinalizerRun_reads fin).1] at habs
  | deleting m0 m1 m2 res ext1 ext2 ext3 init fin h del =>
    obtain ⟨x, hx, hp⟩ := inhand_parent ext3 init fin
    have := hlive x hx
    simp only [Entry.live, hp] at this
    cases hd : m2.DeletionTimestamp with
    | none => exact absurd hd h
    | some t => simp [hd] at this
  | converging m0 m1 m2 res ext1 ext2 ext3 init fin h deps =>
    obtain ⟨a1, f1, c1⟩ := InitRun_reads init
    obtain ⟨a2, f2, c2⟩ := FinalizerRun_reads fin
    have hok' : ∀ x ∈ ext3, x.failed = false := fun x hx => hok x (by simp [hx])
    have habs' : k ∈ ext3.filterMap Entry.absentKind := by
      simpa [Entry.absentKind, List.filterMap_append, a1, a2] using habs
    obtain ⟨found, rest, obj, h1, h2, h3, h4, h5, h6⟩ :=
      DependentsRun_creates deps k hok' habs' (hsynth m2)
    refine ⟨found, rest, obj, h1, ?_, ?_, ?_, h5, h6⟩
    · simp [Entry.fetchedKind, List.filterMap_append, f1, f2, h2]
    · simp [Entry.absentKind, List.filterMap_append, a1, a2, h3]
    · simp [Entry.created, List.filterMap_append, c1, c2, h4]

/-- C1, as the code has it. Take a pass in which every store call succeeds, no
call hands back a parent marked for deletion, some dependent `k` is found
absent, and the synthesizer of `k` builds its manifest. Then the pass issues
exactly one create call, for an object of kind `k`; `k` is the only dependent
found absent; the dependents fetched are those of the fixed order (volume
claim, config map, stateful set, service) up to `k` and none after it; and the
pass returns a nil error with a requeue result, never the directive Stop. With
the volume claim absent, `k` is the volume claim. -/
theorem creation_order (r : MinecraftReconciler σ) (req : Request) (s : σ) (k : Kind)
    (hok : ((Reconcile r req s).2.log.all fun x => !x.failed) = true)
    (hlive : (Reconcile r req s).2.log.all Entry.live = true)
    (habs : k ∈ (Reconcile r req s).2.log.filterMap Entry.absentKind)
    (hsynth : ∀ m, ∃ obj, synthesize r m k = Go.ret (Ret.ok obj)) :
    ∃ (obj : Object) (res : Result),
      (Reconcile r req s).2.log.filterMap Entry.created = [obj] ∧
      obj.kind = k ∧
      (Reconcile r req s).2.log.filterMap Entry.absentKind = [k] ∧
      (Reconcile r req s).2.log.filterMap Entry.fetchedKind
        = dependencyOrder.take (k.rank + 1) ∧
      (Reconcile r req s).1 = Go.ret (res, none) ∧
      res.directive ≠ Directive.Stop := by
  have hok' : ∀ x ∈ (Reconcile r req s).2.log, x.failed = false := by
    intro x hx
    have := List.all_eq_true.mp hok x hx
    simpa using this
  have hlive' : ∀ x ∈ (Reconcile r req s).2.log, x.live = true :=
    fun x hx => List.all_eq_true.mp hlive x hx
  obtain ⟨found, rest, obj, h1, h2, h3, h4, h5, h6⟩ :=
    PassRun_creates (Reconcile_run r req s) k hok' hlive' habs hsynth
  refine ⟨obj, createdResult k, h4, h5, h3, ?_, h6, createdResult_not_stop k⟩
  rw [h2]
  exact order_initial_segment found rest k h1

theorem creation_order_witness :
    ((Reconcile memReconciler mcRequest { parent := some mcReady }).2.log.all
        fun x => !x.failed) = true ∧
      (Reconcile memReconciler mcRequest { parent := some mcReady }).2.log.all Entry.live
        = true ∧
      Kind.PersistentVolumeClaim ∈
        (Reconcile memReconciler mcRequest { parent := some mcReady }).2.log.filterMap
          Entry.absentKind ∧
      ∃ (obj : Object) (res : Result),
        (Reconcile memReconciler mcRequest { parent := some mcReady }).2.log.filterMap
          Entry.created = [obj] ∧
        obj.kind = Kind.PersistentVolumeClaim ∧
        (Reconcile memReconciler mcRequest { parent := some mcReady }).2.log.filterMap
          Entry.absentKind = [Kind.PersistentVolumeClaim] ∧
        (Reconcile memReconciler mcRequest { parent := some mcReady }).2.log.filterMap
          Entry.fetchedKind = dependencyOrder.take (Kind.PersistentVolumeClaim.rank + 1) ∧
        (Reconcile memReconciler mcRequest { parent := some mcReady }).1 = Go.ret (res, none) ∧
        res.directive ≠ Directive.Stop :=
  ⟨by rfl, by rfl, by decide,
    creation_order memReconciler mcRequest { parent := some mcReady }
      Kind.PersistentVolumeClaim (by rfl) (by rfl) (by decide)
      (fun m => by simp [synthesize, asObject, pvcForMinecraft, labelsForMinecraft,
        imageForMinecraft, SetControllerReference, memReconciler, stringsSplitColon,
        splitChars])⟩

/-- C1 fails as stated: over a scheme that does not know the parent type, the
parent exists and is not marked for deletion, every store call of the pass
succeeds and the volume claim is found absent, yet the pass issues no create
call and returns the empty result (directive Stop) with the synthesis error.
With an image without a tag in the environment the same pass issues no create
call either: it panics in `labelsForMinecraft`. -/
theorem no_create_when_synthesis_fails :
    ((Reconcile memReconcilerNoScheme mcRequest { parent := some mcReady }).2.log.all
        fun x => !x.failed) = true ∧
      (Reconcile memReconcilerNoScheme mcRequest { parent := some mcReady }).2.log.all
        Entry.live = true ∧
      (Reconcile memReconcilerNoScheme mcRequest { parent := some mcReady }).2.log.filterMap
        Entry.absentKind = [Kind.PersistentVolumeClaim] ∧
      (Reconcile memReconcilerNoScheme mcRequest { parent := some mcReady }).2.log.filterMap
        Entry.created = [] ∧
      (Reconcile memReconcilerNoScheme mcRequest { parent := some mcReady }).1
        = Go.ret ({}, some noKindErr) ∧
      Result.directive {} = Directive.Stop ∧
      ((Reconcile memReconcilerUntagged mcRequest { parent := some mcReady }).2.log.all
        fun x => !x.failed) = true ∧
      (Reconcile memReconcilerUntagged mcRequest { parent := some mcReady }).2.log.filterMap
        Entry.absentKind = [Kind.PersistentVolumeClaim] ∧
      (Reconcile memReconcilerUntagged mcRequest { parent := some mcReady }).2.log.filterMap
        Entry.created = [] ∧
      (Reconcile memReconcilerUntagged mcRequest { parent := some mcReady }).1
        = Go.panic "index out of range [1]" := by
  refine ⟨by rfl, by rfl, by rfl, by rfl, by rfl, by rfl, by rfl, by rfl, by rfl, by rfl⟩

end MinecraftOperator

/-! ### The deletion branch -/

namespace MinecraftOperator
variable {σ : Type}

theorem observed_with_token {x : Entry} {m : Minecraft} (hx : x.deletingWithToken = true)
    (hm : x.observed = some m) :
    m.DeletionTimestamp.isSome = true ∧ ContainsFinalizer m minecraftFinalizer = true := by
  simpa [Entry.deletingWithToken, hm] using hx

theorem init_observed {req : Request} {m0 m1 : Minecraft} {ext1 : List Entry}
    (init : InitRun req m0 (Flow.next m1) ext1)
    (h0 : (Entry.Get req.NamespacedName (Ret.ok m0)).deletingWithToken = true)
    (h1 : ∀ x ∈ ext1, x.deletingWithToken = true) :
    m1.DeletionTimestamp.isSome = true ∧ ContainsFinalizer m1 minecraftFinalizer = true := by
  rcases InitRun_next_parent init with h | ⟨x, hx, hp⟩
  · subst h
    exact observed_with_token h0 rfl
  · exact observed_with_token (h1 x hx) hp

theorem finalizer_kept {m1 m2 : Minecraft} {ext2 : List Entry}
    (fin : FinalizerRun m1 (Flow.next m2) ext2)
    (h : ContainsFinalizer m1 minecraftFinalizer = true) : m2 = m1 ∧ ext2 = [] := by
  cases fin with
  | present _ => exact ⟨rfl, rfl⟩
  | updated h' => rw [h] at h'; cases h'

theorem DeleteRun_complete {req : Request} {m : Minecraft} {res : Go (Result × Option Err)}
    {ext : List Entry} (del : DeleteRun req m res ext)
    (hm : ContainsFinalizer m minecraftFinalizer = true)
    (hok : ∀ x ∈ ext, x.failed = false)
    (hobs : ∀ x ∈ ext, x.deletingWithToken = true) :
    res = Go.ret ({}, none) ∧ ext.filter Entry.isCreate = [] ∧
      IsFinalizerSequence (ext.filter Entry.isEffect) := by
  cases del with
  | noFinalizer h => rw [hm] at h; cases h
  | statusError h now err =>
    have := hok _ (List.mem_singleton_self _)
    simp [Entry.failed] at this
  | getError h now m1 err =>
    have := hok (Entry.Get req.NamespacedName (Ret.error err)) (by simp)
    simp [Entry.failed] at this
  | secondStatusError h now m1 m2 now2 err =>
    have := hok (Entry.StatusUpdate (m2.setCondition now2 (finalizedCondition m2))
      (Ret.error err)) (by simp)
    simp [Entry.failed] at this
  | finalizerGone h now m1 m2 now2 m3 h3 =>
    have := hobs (Entry.StatusUpdate (m2.setCondition now2 (finalizedCondition m2))
      (Ret.ok m3)) (by simp)
    have := (observed_with_token this rfl).2
    rw [h3] at this
    cases this
  | updateError h now m1 m2 now2 m3 h3 err =>
    have := hok (Entry.Update (RemoveFinalizer m3 minecraftFinalizer).1 (Ret.error err))
      (by simp)
    simp [Entry.failed] at this
  | finished h now m1 m2 now2 m3 h3 m4 =>
    refine ⟨rfl, by simp [Entry.isCreate, deletingEvent], ?_⟩
    simp only [List.filter, Entry.isEffect, deletingEvent, IsFinalizerSequence]
    exact ⟨hasCondition_setCondition m now (finalizingCondition m), trivial, trivial,
      hasCondition_setCondition m2 now2 (finalizedCondition m2),
      RemoveFinalizer_not_contains m3 minecraftFinalizer⟩

theorem InitRun_effects {req : Request} {m0 m1 : Minecraft} {ext1 : List Entry}
    (init : InitRun req m0 (Flow.next m1) ext1) :
    ext1.filter Entry.isCreate = [] ∧
    (m0.Conditions ≠ [] → ext1.filter Entry.isEffect = []) ∧
    (m0.Conditions = [] → ∃ x, IsInitialWrite x ∧ ext1.filter Entry.isEffect = [x]) := by
  cases init with
  | skip h =>
    refine ⟨rfl, fun _ => rfl, fun h0 => ?_⟩
    rw [h0] at h
    exact absurd rfl h
  | refreshed h now m' =>
    refine ⟨by simp [Entry.isCreate], fun h0 => ?_, fun _ => ?_⟩
    · exact absurd (List.length_eq_zero.mp h) h0
    · exact ⟨Entry.StatusUpdate (m0.setCondition now startingCondition) (Ret.ok m'),
        hasCondition_setCondition m0 now startingCondition, by simp [Entry.isEffect]⟩

theorem PassRun_finalizes {r : MinecraftReconciler σ} {req : Request}
    {res : Go (Result × Option Err)} {log : List Entry} (run : PassRun r req res log)
    (m0 : Minecraft)
    (hhead : log.head? = some (Entry.Get req.NamespacedName (Ret.ok m0)))
    (hok : ∀ x ∈ log, x.failed = false)
    (hobs : ∀ x ∈ log, x.deletingWithToken = true) :
    res = Go.ret ({}, none) ∧ log.filter Entry.isCreate = [] ∧
      ∃ seq, IsFinalizerSequence seq ∧
        (m0.Conditions ≠ [] → log.filter Entry.isEffect = seq) ∧
        (m0.Conditions = [] →
          ∃ x, IsInitialWrite x ∧ log.filter Entry.isEffect = x :: seq) := by
  cases run with
  | notFound err h => simp at hhead
  | getError err h => simp at hhead
  | initReturned m res ext1 init =>
    exfalso
    cases init with
    | statusError h now err =>
      have := hok (Entry.StatusUpdate (m.setCondition now startingCondition) (Ret.error err))
        (by simp)
      simp [Entry.failed] at this
    | getError h now m1 err =>
      have := hok (Entry.Get req.NamespacedName (Ret.error err)) (by simp)
      simp [Entry.failed] at this
  | finalizerReturned m m1 res ext1 ext2 init fin =>
    exfalso
    cases fin with
    | updateError h err =>
      have := hok (Entry.Update (AddFinalizer m1 minecraftFinalizer).1 (Ret.error err))
        (by simp)
      simp [Entry.failed] at this
  | deleting m m1 m2 res ext1 ext2 ext3 init fin h del =>
    have hm : m = m0 := by simpa using hhead
    subst hm
    have h1 := init_observed init (hobs _ (List.mem_cons_self _ _))
      (fun x hx => hobs x (by simp [hx]))
    obtain ⟨e2, x2⟩ := finalizer_kept fin h1.2
    subst e2 x2
    obtain ⟨r1, r2, r3⟩ := DeleteRun_complete del h1.2
      (fun x hx => hok x (by simp [hx])) (fun x hx => hobs x (by simp [hx]))
    obtain ⟨c1, e1, e1'⟩ := InitRun_effects init
    refine ⟨r1, by simp [Entry.isCreate, c1, r2], ext3.filter Entry.isEffect, r3, ?_, ?_⟩
    · intro hc
      simp [Entry.isEffect, e1 hc]
    · intro hc
      obtain ⟨x, hx, hxe⟩ := e1' hc
      exact ⟨x, hx, by simp [Entry.isEffect, hxe]⟩
  | converging m m1 m2 res ext1 ext2 ext3 init fin h deps =>
    exfalso
    have hm : m = m0 := by simpa using hhead
    subst hm
    have h1 := init_observed init (hobs _ (List.mem_cons_self _ _))
      (fun x hx => hobs x (by simp [hx]))
    obtain ⟨e2, x2⟩ := finalizer_kept fin h1.2
    subst e2
    rw [h] at h1
    simp at h1

/-- C4, as the code has it. Take a pass that fetched the parent `m0`, in which
every store call succeeds and every fetch and status write hands the parent back
marked for deletion and carrying the finalizer token. The pass returns the
empty result (directive Stop) with a nil error and creates no dependent. When
`m0` has at least one condition its effects are exactly, in this order: a
status write with `Degraded=Unknown` (reason Finalizing), the recorded cleanup
event, a status write with `Degraded=True` (reason Finalizing), and the update
of the parent without the finalizer token. When `m0` has no condition, the
status write of the initialization step (`Available=Unknown`) comes first,
followed by the same four. -/
theorem finalizer_completion (r : MinecraftReconciler σ) (req : Request) (s : σ)
    (m0 : Minecraft)
    (hhead : (Reconcile r req s).2.log.head?
      = some (Entry.Get req.NamespacedName (Ret.ok m0)))
    (hok : ((Reconcile r req s).2.log.all fun x => !x.failed) = true)
    (hobs : (Reconcile r req s).2.log.all Entry.deletingWithToken = true) :
    (Reconcile r req s).1 = Go.ret ({}, none) ∧
    Result.directive {} = Directive.Stop ∧
    (Reconcile r req s).2.log.filter Entry.isCreate = [] ∧
    ∃ seq, IsFinalizerSequence seq ∧
      (m0.Conditions ≠ [] → (Reconcile r req s).2.log.filter Entry.isEffect = seq) ∧
      (m0.Conditions = [] →
        ∃ x, IsInitialWrite x ∧ (Reconcile r req s).2.log.filter Entry.isEffect = x :: seq) := by
  have hok' : ∀ x ∈ (Reconcile r req s).2.log, x.failed = false := by
    intro x hx
    have := List.all_eq_true.mp hok x hx
    simpa using this
  have hobs' : ∀ x ∈ (Reconcile r req s).2.log, x.deletingWithToken = true :=
    fun x hx => List.all_eq_true.mp hobs x hx
  obtain ⟨h1, h2, h3⟩ := PassRun_finalizes (Reconcile_run r req s) m0 hhead hok' hobs'
  exact ⟨h1, rfl, h2, h3⟩

theorem finalizer_completion_witness :
    (Reconcile memReconciler mcRequest { parent := some mcDeleting }).2.log.head?
        = some (Entry.Get mcRequest.NamespacedName (Ret.ok mcDeleting)) ∧
      ((Reconcile memReconciler mcRequest { parent := some mcDeleting }).2.log.all
        fun x => !x.failed) = true ∧
      (Reconcile memReconciler mcRequest { parent := some mcDeleting }).2.log.all
        Entry.deletingWithToken = true ∧
      mcDeleting.Conditions ≠ [] ∧
      (Reconcile memReconciler mcRequest { parent := some mcDeleting }).1
        = Go.ret ({}, none) ∧
      ∃ seq, IsFinalizerSequence seq ∧
        (mcDeleting.Conditions ≠ [] →
          (Reconcile memReconciler mcRequest { parent := some mcDeleting }).2.log.filter
            Entry.isEffect = seq) ∧
        (mcDeleting.Conditions = [] →
          ∃ x, IsInitialWrite x ∧
            (Reconcile memReconciler mcRequest { parent := some mcDeleting }).2.log.filter
              Entry.isEffect = x :: seq) :=
  have h := finalizer_completion memReconciler mcRequest { parent := some mcDeleting }
    mcDeleting (by rfl) (by rfl) (by rfl)
  ⟨by rfl, by rfl, by rfl, by decide, h.1, h.2.2.2⟩

/-- C4 fails as stated: for a parent marked for deletion that carries the
finalizer token but has no condition yet, with every store call succeeding, the
pass produces five effects, not four, and the first one is the status write of
the initialization step, which sets no `Degraded` condition. -/
theorem finalizer_sequence_after_initial_write :
    mcDeletingNoStatus.DeletionTimestamp ≠ none ∧
      ContainsFinalizer mcDeletingNoStatus minecraftFinalizer = true ∧
      ((Reconcile memReconciler mcRequest { parent := some mcDeletingNoStatus }).2.log.all
        fun x => !x.failed) = true ∧
      ((Reconcile memReconciler mcRequest { parent := some mcDeletingNoStatus }).2.log.filter
        Entry.isEffect).length = 5 ∧
      ((Reconcile memReconciler mcRequest { parent := some mcDeletingNoStatus }).2.log.filter
        Entry.isEffect).head?.map Entry.writesDegraded = some false ∧
      ¬ IsFinalizerSequence
        ((Reconcile memReconciler mcRequest { parent := some mcDeletingNoStatus }).2.log.filter
          Entry.isEffect) := by
  refine ⟨by decide, by rfl, by rfl, by rfl, by rfl, ?_⟩
  intro h
  exact h

/-- C5, the code at a parent marked for deletion that does not carry the
finalizer token. With every store call succeeding, the pass adds the token and
persists it with an update of the parent, then runs the cleanup: it records the
event, writes the `Degraded` condition to the status, and issues four writes in
all before it returns the empty result. Over a store that refuses the update
that adds the token, the pass still issues that update and returns its error
instead of stopping. -/
theorem deleted_parent_without_token_is_finalized :
    mcDeletingNoToken.DeletionTimestamp ≠ none ∧
      ContainsFinalizer mcDeletingNoToken minecraftFinalizer = false ∧
      ((Reconcile memReconciler mcRequest { parent := some mcDeletingNoToken }).2.log.all
        fun x => !x.failed) = true ∧
      (Reconcile memReconciler mcRequest { parent := some mcDeletingNoToken }).2.log.any
        Entry.persistsFinalizer = true ∧
      (Reconcile memReconciler mcRequest { parent := some mcDeletingNoToken }).2.log.any
        Entry.isEvent = true ∧
      (Reconcile memReconciler mcRequest { parent := some mcDeletingNoToken }).2.log.any
        Entry.writesDegraded = true ∧
      ((Reconcile memReconciler mcRequest { parent := some mcDeletingNoToken }).2.log.filter
        Entry.isWrite).length = 4 ∧
      (Reconcile memReconciler mcRequest { parent := some mcDeletingNoToken }).1
        = Go.ret ({}, none) ∧
      (Reconcile memReconciler mcRequest
        { parent := some mcDeletingNoToken, updateError := some forbiddenErr }).2.log.any
        Entry.persistsFinalizer = true ∧
      (Reconcile memReconciler mcRequest
        { parent := some mcDeletingNoToken, updateError := some forbiddenErr }).1
        = Go.ret ({}, some forbiddenErr) := by
  refine ⟨by decide, by rfl, by rfl, by rfl, by rfl, by rfl, by rfl, by rfl, by rfl, by rfl⟩

end MinecraftOperator

/-! ## The synthesizers -/

namespace MinecraftOperator
variable {σ : Type}

/-- The owner reference `SetControllerReference` stamps. -/
theorem SetControllerReference_ok (owner : Minecraft) (controlled om : ObjectMeta)
    (scheme : Scheme) (h : SetControllerReference owner controlled scheme = Ret.ok om) :
    om.Name = controlled.Name ∧ om.Namespace = controlled.Namespace ∧
      om.Labels = controlled.Labels ∧ om.Annotations = controlled.Annotations := by
  unfold SetControllerReference at h
  cases hg : scheme.gvkForMinecraft with
  | error err => simp [hg] at h
  | ok gvk =>
    simp only [hg, Ret.ok.injEq] at h
    subst h
    exact ⟨rfl, rfl, rfl, rfl⟩

theorem pvcForMinecraft_ok (scheme : Scheme) (env : Option String) (m : Minecraft)
    (o : PersistentVolumeClaim) (h : pvcForMinecraft scheme env m = Go.ret (Ret.ok o)) :
    ∃ ls, labelsForMinecraft env m = Go.ret ls ∧
      o.ObjectMeta.Name = m.Name ∧ o.ObjectMeta.Namespace = m.Namespace ∧
      o.ObjectMeta.Labels = ls := by
  unfold pvcForMinecraft at h
  cases hl : labelsForMinecraft env m with
  | panic msg => simp [hl] at h
  | ret ls =>
    simp only [hl] at h
    split at h
    · simp at h
    · rename_i om hs
      simp only [Go.ret.injEq, Ret.ok.injEq] at h
      subst h
      obtain ⟨h1, h2, h3, _⟩ := SetControllerReference_ok _ _ _ _ hs
      exact ⟨ls, rfl, h1, h2, h3⟩

theorem configmapForMinecraft_ok (scheme : Scheme) (env : Option String) (m : Minecraft)
    (o : ConfigMap) (h : configmapForMinecraft scheme env m = Go.ret (Ret.ok o)) :
    ∃ ls, labelsForMinecraft env m = Go.ret ls ∧
      o.ObjectMeta.Name = m.Name ∧ o.ObjectMeta.Namespace = m.Namespace ∧
      o.ObjectMeta.Labels = ls := by
  unfold configmapForMinecraft at h
  cases hl : labelsForMinecraft env m with
  | panic msg => simp [hl] at h
  | ret ls =>
    simp only [hl] at h
    split at h
    · simp at h
    · rename_i om hs
      simp only [Go.ret.injEq, Ret.ok.injEq] at h
      subst h
      obtain ⟨h1, h2, h3, _⟩ := SetControllerReference_ok _ _ _ _ hs
      exact ⟨ls, rfl, h1, h2, h3⟩

theorem serviceForMinecraft_ok (scheme : Scheme) (env : Option String) (m : Minecraft)
    (o : Service) (h : serviceForMinecraft scheme env m = Go.ret (Ret.ok o)) :
    ∃ ls, labelsForMinecraft env m = Go.ret ls ∧
      o.ObjectMeta.Name = m.Name ∧ o.ObjectMeta.Namespace = m.Namespace ∧
      o.Selector = ls := by
  unfold serviceForMinecraft at h
  cases hl : labelsForMinecraft env m with
  | panic msg => simp [hl] at h
  | ret ls =>
    simp only [hl] at h
    split at h
    · simp at h
    · rename_i om hs
      simp only [Go.ret.injEq, Ret.ok.injEq] at h
      subst h
      obtain ⟨h1, h2, _, _⟩ := SetControllerReference_ok _ _ _ _ hs
      exact ⟨ls, rfl, h1, h2, rfl⟩

theorem statefulsetForMinecraft_ok (scheme : Scheme) (env : Option String) (m : Minecraft)
    (o : StatefulSet) (h : statefulsetForMinecraft scheme env m = Go.ret (Ret.ok o)) :
    ∃ ls, labelsForMinecraft env m = Go.ret ls ∧
      o.ObjectMeta.Name = m.Name ∧ o.ObjectMeta.Namespace = m.Namespace ∧
      o.MatchLabels = ls ∧ o.TemplateLabels = ls ∧ o.ServiceName = m.Name ∧
      o.Volumes = [{ Name := m.Name, ClaimName := m.Name, ReadOnly := false }] ∧
      o.Containers.map Container.EnvFrom = [[m.Name]] ∧
      o.Containers.map Container.VolumeMounts
        = [[{ Name := m.Name, MountPath := "/data" }]] := by
  unfold statefulsetForMinecraft at h
  cases hl : labelsForMinecraft env m with
  | panic msg => simp [hl] at h
  | ret ls =>
    simp only [hl] at h
    cases hi : imageForMinecraft env with
    | error err => simp [hi] at h
    | ok image =>
      simp only [hi] at h
      split at h
      · simp at h
      · rename_i om hs
        simp only [Go.ret.injEq, Ret.ok.injEq] at h
        subst h
        obtain ⟨h1, h2, _, _⟩ := SetControllerReference_ok _ _ _ _ hs
        exact ⟨ls, rfl, h1, h2, rfl, rfl, rfl, rfl, rfl, rfl⟩

theorem synthesizers_identity_fields (scheme : Scheme) (env : Option String)
    (m2 m : Minecraft) (h1 : m2.Name = m.Name) (h2 : m2.Namespace = m.Namespace)
    (h3 : m2.UID = m.UID) :
    pvcForMinecraft scheme env m2 = pvcForMinecraft scheme env m ∧
      configmapForMinecraft scheme env m2 = configmapForMinecraft scheme env m ∧
      statefulsetForMinecraft scheme env m2 = statefulsetForMinecraft scheme env m ∧
      serviceForMinecraft scheme env m2 = serviceForMinecraft scheme env m := by
  have hl : labelsForMinecraft env m2 = labelsForMinecraft env m := by
    simp only [labelsForMinecraft, h1]
  refine ⟨?_, ?_, ?_, ?_⟩
  · simp only [pvcForMinecraft, SetControllerReference, hl, h1, h2, h3]
  · simp only [configmapForMinecraft, SetControllerReference, hl, h1, h2, h3]
  · simp only [statefulsetForMinecraft, SetControllerReference, hl, h1, h2, h3]
  · simp only [serviceForMinecraft, SetControllerReference, hl, h1, h2, h3]

/-- C12. Synthesizer identity and determinism: for a fixed scheme and image
configuration, each of the four synthesizers, when it succeeds, returns a
manifest named after the parent, in the parent's namespace; two calls on the
same parent return the same manifest, and so do calls on two readings of the
parent that agree on its name, namespace and UID. -/
theorem synthesizer_identity (scheme : Scheme) (env : Option String) (m : Minecraft) :
    (∀ o, pvcForMinecraft scheme env m = Go.ret (Ret.ok o) →
      o.ObjectMeta.Name = m.Name ∧ o.ObjectMeta.Namespace = m.Namespace ∧
      ∀ o2, pvcForMinecraft scheme env m = Go.ret (Ret.ok o2) → o2 = o) ∧
    (∀ o, configmapForMinecraft scheme env m = Go.ret (Ret.ok o) →
      o.ObjectMeta.Name = m.Name ∧ o.ObjectMeta.Namespace = m.Namespace ∧
      ∀ o2, configmapForMinecraft scheme env m = Go.ret (Ret.ok o2) → o2 = o) ∧
    (∀ o, statefulsetForMinecraft scheme env m = Go.ret (Ret.ok o) →
      o.ObjectMeta.Name = m.Name ∧ o.ObjectMeta.Namespace = m.Namespace ∧
      ∀ o2, statefulsetForMinecraft scheme env m = Go.ret (Ret.ok o2) → o2 = o) ∧
    (∀ o, serviceForMinecraft scheme env m = Go.ret (Ret.ok o) →
      o.ObjectMeta.Name = m.Name ∧ o.ObjectMeta.Namespace = m.Namespace ∧
      ∀ o2, serviceForMinecraft scheme env m = Go.ret (Ret.ok o2) → o2 = o) ∧
    (∀ m2 : Minecraft, m2.Name = m.Name → m2.Namespace = m.Namespace → m2.UID = m.UID →
      pvcForMinecraft scheme env m2 = pvcForMinecraft scheme env m ∧
      configmapForMinecraft scheme env m2 = configmapForMinecraft scheme env m ∧
      statefulsetForMinecraft scheme env m2 = statefulsetForMinecraft scheme env m ∧
      serviceForMinecraft scheme env m2 = serviceForMinecraft scheme env m) := by
  refine ⟨fun o h => ?_, fun o h => ?_, fun o h => ?_, fun o h => ?_,
    fun m2 h1 h2 h3 => synthesizers_identity_fields scheme env m2 m h1 h2 h3⟩
  · obtain ⟨_, _, h1, h2, _⟩ := pvcForMinecraft_ok scheme env m o h
    refine ⟨h1, h2, fun o2 h' => ?_⟩
    rw [h] at h'
    simpa using h'.symm
  · obtain ⟨_, _, h1, h2, _⟩ := configmapForMinecraft_ok scheme env m o h
    refine ⟨h1, h2, fun o2 h' => ?_⟩
    rw [h] at h'
    simpa using h'.symm
  · obtain ⟨_, _, h1, h2, _⟩ := statefulsetForMinecraft_ok scheme env m o h
    refine ⟨h1, h2, fun o2 h' => ?_⟩
    rw [h] at h'
    simpa using h'.symm
  · obtain ⟨_, _, h1, h2, _⟩ := serviceForMinecraft_ok scheme env m o h
    refine ⟨h1, h2, fun o2 h' => ?_⟩
    rw [h] at h'
    simpa using h'.symm

theorem synthesizer_identity_witness :
    pvcForMinecraft memReconciler.Scheme none mcFresh = Go.ret (Ret.ok mcClaim) ∧
      configmapForMinecraft memReconciler.Scheme none mcFresh = Go.ret (Ret.ok mcConfigMap) ∧
      statefulsetForMinecraft memReconciler.Scheme none mcFresh
        = Go.ret (Ret.ok mcStatefulSet) ∧
      serviceForMinecraft memReconciler.Scheme none mcFresh = Go.ret (Ret.ok mcService) ∧
      (mcClaim.ObjectMeta.Name = mcFresh.Name ∧
        mcClaim.ObjectMeta.Namespace = mcFresh.Namespace) ∧
      (mcConfigMap.ObjectMeta.Name = mcFresh.Name ∧
        mcConfigMap.ObjectMeta.Namespace = mcFresh.Namespace) ∧
      (mcStatefulSet.ObjectMeta.Name = mcFresh.Name ∧
        mcStatefulSet.ObjectMeta.Namespace = mcFresh.Namespace) ∧
      (mcService.ObjectMeta.Name = mcFresh.Name ∧
        mcService.ObjectMeta.Namespace = mcFresh.Namespace) :=
  have h := synthesizer_identity memReconciler.Scheme none mcFresh
  ⟨rfl, rfl, rfl, rfl,
    ⟨(h.1 mcClaim rfl).1, (h.1 mcClaim rfl).2.1⟩,
    ⟨(h.2.1 mcConfigMap rfl).1, (h.2.1 mcConfigMap rfl).2.1⟩,
    ⟨(h.2.2.1 mcStatefulSet rfl).1, (h.2.2.1 mcStatefulSet rfl).2.1⟩,
    ⟨(h.2.2.2.1 mcService rfl).1, (h.2.2.2.1 mcService rfl).2.1⟩⟩

/-! ### Labels and references -/

theorem labelsForMinecraft_ok (env : Option String) (m : Minecraft) (ls : StringMap)
    (h : labelsForMinecraft env m = Go.ret ls) :
    ∃ tag, (stringsSplitColon (configuredImage env)).get? 1 = some tag ∧
      ls = [("app.kubernetes.io/name", "minecraft-operator"),
            ("app.kubernetes.io/version", tag),
            ("app.kubernetes.io/managed-by", "MinecraftController"),
            ("cache.example.com/name", m.Name),
            ("containertype", "minecraft-server")] := by
  have himg : imageForMinecraft env = Ret.ok (configuredImage env) := by
    cases env <;> rfl
  unfold labelsForMinecraft at h
  simp only [himg] at h
  cases ht : (stringsSplitColon (configuredImage env)).get? 1 with
  | none =>
    simp only [ht] at h
    cases h
  | some tag =>
    simp only [ht, Go.ret.injEq] at h
    refine ⟨tag, rfl, ?_⟩
    rw [← h]
    simp [StringMap.set]

/-- C15. Selector consistency: for a fixed scheme and image configuration, the
selector of the synthesized service, the match-labels of the selector of the
synthesized stateful set and the labels of its pod template are all the labels
`labelsForMinecraft` gives for the parent, so the service selects the pods of
the stateful set; and the labels of a parent with a different name differ, at
the key `cache.example.com/name`, which holds the name of the parent. -/
theorem selector_consistency (scheme : Scheme) (env : Option String) (m : Minecraft)
    (svc : Service) (sts : StatefulSet)
    (hsvc : serviceForMinecraft scheme env m = Go.ret (Ret.ok svc))
    (hsts : statefulsetForMinecraft scheme env m = Go.ret (Ret.ok sts)) :
    labelsForMinecraft env m = Go.ret svc.Selector ∧
    sts.MatchLabels = svc.Selector ∧
    sts.TemplateLabels = svc.Selector ∧
    svc.Selector.get? "cache.example.com/name" = some m.Name ∧
    (∀ (m2 : Minecraft) (ls2 : StringMap), m2.Name ≠ m.Name →
      labelsForMinecraft env m2 = Go.ret ls2 →
        ls2.get? "cache.example.com/name" = some m2.Name ∧ ls2 ≠ svc.Selector) := by
  obtain ⟨ls, hl, _, _, h3⟩ := serviceForMinecraft_ok scheme env m svc hsvc
  obtain ⟨ls', hl', _, _, h4, h5, _⟩ := statefulsetForMinecraft_ok scheme env m sts hsts
  rw [hl] at hl'
  simp only [Go.ret.injEq] at hl'
  subst hl'
  obtain ⟨tag, _, hls⟩ := labelsForMinecraft_ok env m ls hl
  have hname : ls.get? "cache.example.com/name" = some m.Name := by
    rw [hls]
    simp [StringMap.get?, List.find?]
  refine ⟨by rw [hl, h3], by rw [h4, h3], by rw [h5, h3], by rw [h3]; exact hname, ?_⟩
  intro m2 ls2 hne hl2
  obtain ⟨tag2, _, hls2⟩ := labelsForMinecraft_ok env m2 ls2 hl2
  have hname2 : ls2.get? "cache.example.com/name" = some m2.Name := by
    rw [hls2]
    simp [StringMap.get?, List.find?]
  refine ⟨hname2, ?_⟩
  intro heq
  rw [heq, h3, hname] at hname2
  exact hne (Option.some.inj hname2).symm

theorem selector_consistency_witness :
    serviceForMinecraft memReconciler.Scheme none mcFresh = Go.ret (Ret.ok mcService) ∧
      statefulsetForMinecraft memReconciler.Scheme none mcFresh
        = Go.ret (Ret.ok mcStatefulSet) ∧
      labelsForMinecraft none mcFresh = Go.ret mcService.Selector ∧
      mcStatefulSet.MatchLabels = mcService.Selector ∧
      mcStatefulSet.TemplateLabels = mcService.Selector ∧
      mcService.Selector.get? "cache.example.com/name" = some mcFresh.Name :=
  have h := selector_consistency memReconciler.Scheme none mcFresh mcService mcStatefulSet
    rfl rfl
  ⟨rfl, rfl, h.1, h.2.1, h.2.2.1, h.2.2.2.1⟩

/-- C16. The references of the workload resolve to the sibling dependents: when
the four synthesizers succeed on a parent, the stateful set has a single volume
whose claim name is the name of the synthesized volume claim, a single
container whose env-from reference is the name of the synthesized config map
and whose single volume mount is named as the volume, and its service name is
the name of the synthesized service. -/
theorem workload_references (scheme : Scheme) (env : Option String) (m : Minecraft)
    (pvc : PersistentVolumeClaim) (cm : ConfigMap) (sts : StatefulSet) (svc : Service)
    (hpvc : pvcForMinecraft scheme env m = Go.ret (Ret.ok pvc))
    (hcm : configmapForMinecraft scheme env m = Go.ret (Ret.ok cm))
    (hsts : statefulsetForMinecraft scheme env m = Go.ret (Ret.ok sts))
    (hsvc : serviceForMinecraft scheme env m = Go.ret (Ret.ok svc)) :
    sts.Volumes.map Volume.ClaimName = [pvc.ObjectMeta.Name] ∧
    sts.Containers.map Container.EnvFrom = [[cm.ObjectMeta.Name]] ∧
    sts.ServiceName = svc.ObjectMeta.Name ∧
    sts.Containers.map (fun c => c.VolumeMounts.map VolumeMount.Name)
      = [sts.Volumes.map Volume.Name] ∧
    sts.Volumes.length = 1 ∧
    (pvc.ObjectMeta.Namespace = sts.ObjectMeta.Namespace ∧
      cm.ObjectMeta.Namespace = sts.ObjectMeta.Namespace ∧
      svc.ObjectMeta.Namespace = sts.ObjectMeta.Namespace) := by
  obtain ⟨_, _, p1, p2, _⟩ := pvcForMinecraft_ok scheme env m pvc hpvc
  obtain ⟨_, _, c1, c2, _⟩ := configmapForMinecraft_ok scheme env m cm hcm
  obtain ⟨_, _, v1, v2, _⟩ := serviceForMinecraft_ok scheme env m svc hsvc
  obtain ⟨_, _, s1, s2, _, _, s5, s6, s7, s8⟩ := statefulsetForMinecraft_ok scheme env m sts hsts
  have hc : ∃ c, sts.Containers = [c] ∧ c.EnvFrom = [m.Name] ∧
      c.VolumeMounts = [{ Name := m.Name, MountPath := "/data" }] := by
    rcases hcs : sts.Containers with _ | ⟨c, _ | ⟨c', t⟩⟩
    · simp [hcs] at s7
    · refine ⟨c, rfl, ?_, ?_⟩
      · simpa [hcs] using s7
      · simpa [hcs] using s8
    · simp [hcs] at s7
  obtain ⟨c, hc1, hc2, hc3⟩ := hc
  refine ⟨?_, ?_, ?_, ?_, ?_, ?_⟩
  · simp [s6, p1]
  · simp [hc1, hc2, c1]
  · rw [s5, v1]
  · simp [hc1, hc3, s6]
  · simp [s6]
  · exact ⟨by rw [p2, s2], by rw [c2, s2], by rw [v2, s2]⟩

theorem workload_references_witness :
    pvcForMinecraft memReconciler.Scheme none mcFresh = Go.ret (Ret.ok mcClaim) ∧
      configmapForMinecraft memReconciler.Scheme none mcFresh = Go.ret (Ret.ok mcConfigMap) ∧
      statefulsetForMinecraft memReconciler.Scheme none mcFresh
        = Go.ret (Ret.ok mcStatefulSet) ∧
      serviceForMinecraft memReconciler.Scheme none mcFresh = Go.ret (Ret.ok mcService) ∧
      mcStatefulSet.Volumes.map Volume.ClaimName = [mcClaim.ObjectMeta.Name] ∧
      mcStatefulSet.Containers.map Container.EnvFrom = [[mcConfigMap.ObjectMeta.Name]] ∧
      mcStatefulSet.ServiceName = mcService.ObjectMeta.Name ∧
      mcStatefulSet.Containers.map (fun c => c.VolumeMounts.map VolumeMount.Name)
        = [mcStatefulSet.Volumes.map Volume.Name] :=
  have h := workload_references memReconciler.Scheme none mcFresh mcClaim mcConfigMap
    mcStatefulSet mcService rfl rfl rfl rfl
  ⟨rfl, rfl, rfl, rfl, h.1, h.2.1, h.2.2.1, h.2.2.2.1⟩

/-! ### The image tag -/

theorem splitChars_ne_nil (sep : Char) (cs : List Char) : splitChars sep cs ≠ [] := by
  cases cs with
  | nil => simp [splitChars]
  | cons c cs =>
    unfold splitChars
    by_cases h : c = sep
    · simp [h]
    · simp only [h, if_false]
      split <;> simp

theorem splitChars_no_sep (sep : Char) (cs : List Char) (h : sep ∉ cs) :
    splitChars sep cs = [cs] := by
  induction cs with
  | nil => rfl
  | cons c cs ih =>
    have hc : c ≠ sep := fun e => h (by simp [e])
    have hcs : sep ∉ cs := fun e => h (by simp [e])
    unfold splitChars
    simp [hc, ih hcs]

theorem splitChars_head (cs : List Char) :
    (splitChars ':' cs).head? = some (cs.takeWhile (fun c => c != ':')) := by
  induction cs with
  | nil => rfl
  | cons c cs ih =>
    unfold splitChars
    by_cases h : c = ':'
    · simp [h]
    · simp only [h, if_false]
      rcases hs : splitChars ':' cs with _ | ⟨p, ps⟩
      · exact absurd hs (splitChars_ne_nil ':' cs)
      · rw [hs] at ih
        simp only [List.head?_cons, Option.some.injEq] at ih
        simp [List.takeWhile_cons, h, ih]

theorem splitChars_second (cs : List Char) (h : ':' ∈ cs) :
    (splitChars ':' cs).get? 1 = some (betweenColons cs) := by
  induction cs with
  | nil => simp at h
  | cons c cs ih =>
    unfold splitChars
    by_cases hc : c = ':'
    · subst hc
      have := splitChars_head cs
      rcases hs : splitChars ':' cs with _ | ⟨p, ps⟩
      · exact absurd hs (splitChars_ne_nil ':' cs)
      · rw [hs] at this
        simp only [List.head?_cons, Option.some.injEq] at this
        simp [betweenColons, List.dropWhile_cons, this]
    · have hmem : ':' ∈ cs := by
        rcases List.mem_cons.mp h with h1 | h1
        · exact absurd h1.symm hc
        · exact h1
      simp only [hc, if_false]
      rcases hs : splitChars ':' cs with _ | ⟨p, ps⟩
      · exact absurd hs (splitChars_ne_nil ':' cs)
      · have ih' := ih hmem
        rw [hs] at ih'
        have hb : betweenColons (c :: cs) = betweenColons cs := by
          simp [betweenColons, List.dropWhile_cons, hc]
        rw [hb]
        simpa using ih'

theorem stringsSplitColon_second (image : String) :
    (':' ∈ image.data →
      (stringsSplitColon image).get? 1 = some (String.mk (betweenColons image.data))) ∧
    (':' ∉ image.data → (stringsSplitColon image).get? 1 = none) := by
  constructor
  · intro h
    have := splitChars_second image.data h
    simp only [stringsSplitColon, List.get?_eq_getElem?, List.getElem?_map] at this ⊢
    rw [this]
    rfl
  · intro h
    simp [stringsSplitColon, splitChars_no_sep ':' image.data h]

theorem labelsForMinecraft_panics (env : Option String) (m : Minecraft)
    (h : (stringsSplitColon (configuredImage env)).get? 1 = none) :
    labelsForMinecraft env m = Go.panic "index out of range [1]" := by
  have himg : imageForMinecraft env = Ret.ok (configuredImage env) := by
    cases env <;> rfl
  unfold labelsForMinecraft
  simp only [himg, h]

theorem labelsForMinecraft_returns (env : Option String) (m : Minecraft) (tag : String)
    (h : (stringsSplitColon (configuredImage env)).get? 1 = some tag) :
    ∃ ls, labelsForMinecraft env m = Go.ret ls := by
  have himg : imageForMinecraft env = Ret.ok (configuredImage env) := by
    cases env <;> rfl
  unfold labelsForMinecraft
  simp only [himg, h]
  exact ⟨_, rfl⟩

/-- C17. Label synthesis is safe exactly when the image reference has a colon:
the index `[1]` into the image split on ":" is in bounds if and only if the
configured image contains a colon, and `labelsForMinecraft` returns if and only
if it does, panicking otherwise. When it returns, the map has exactly five
keys and `app.kubernetes.io/version` is the text between the first and the
second colon of the image; with `MINECRAFT_IMAGE` unset the image is
`itzg/minecraft-server:latest` and that value is "latest". -/
theorem label_synthesis_safe_iff_colon (env : Option String) (m : Minecraft) :
    (1 < (stringsSplitColon (configuredImage env)).length ↔
      ':' ∈ (configuredImage env).data) ∧
    ((∃ ls, labelsForMinecraft env m = Go.ret ls) ↔ ':' ∈ (configuredImage env).data) ∧
    (':' ∉ (configuredImage env).data →
      labelsForMinecraft env m = Go.panic "index out of range [1]") ∧
    (∀ ls, labelsForMinecraft env m = Go.ret ls →
      ls.keys = ["app.kubernetes.io/name", "app.kubernetes.io/version",
        "app.kubernetes.io/managed-by", "cache.example.com/name", "containertype"] ∧
      ls.keys.Nodup ∧ ls.length = 5 ∧
      ls.get? "app.kubernetes.io/version"
        = some (String.mk (betweenColons (configuredImage env).data))) ∧
    imageForMinecraft none = Ret.ok "itzg/minecraft-server:latest" ∧
    (∃ ls, labelsForMinecraft none m = Go.ret ls ∧
      ls.get? "app.kubernetes.io/version" = some "latest") := by
  obtain ⟨hin, hout⟩ := stringsSplitColon_second (configuredImage env)
  have hlen : 1 < (stringsSplitColon (configuredImage env)).length ↔
      ':' ∈ (configuredImage env).data := by
    constructor
    · intro h
      by_contra hc
      have := hout hc
      rw [List.get?_eq_none] at this
      omega
    · intro h
      have := hin h
      by_contra hc
      have hn : (stringsSplitColon (configuredImage env)).get? 1 = none :=
        List.get?_eq_none.mpr (by omega)
      rw [hn] at this
      cases this
  have hret : (∃ ls, labelsForMinecraft env m = Go.ret ls) ↔
      ':' ∈ (configuredImage env).data := by
    constructor
    · rintro ⟨ls, hls⟩
      by_contra hc
      rw [labelsForMinecraft_panics env m (hout hc)] at hls
      cases hls
    · intro h
      exact labelsForMinecraft_returns env m _ (hin h)
  refine ⟨hlen, hret, fun hc => labelsForMinecraft_panics env m (hout hc), ?_, rfl, ?_⟩
  · intro ls hls
    obtain ⟨tag, htag, heq⟩ := labelsForMinecraft_ok env m ls hls
    have hc : ':' ∈ (configuredImage env).data := hret.mp ⟨ls, hls⟩
    rw [hin hc] at htag
    simp only [Option.some.injEq] at htag
    subst heq
    refine ⟨rfl, ?_, rfl, ?_⟩
    · show (["app.kubernetes.io/name", "app.kubernetes.io/version",
        "app.kubernetes.io/managed-by", "cache.example.com/name", "containertype"] :
          List String).Nodup
      decide
    rw [htag]
    simp [StringMap.get?, List.find?]
  · exact ⟨_, rfl, rfl⟩

end MinecraftOperator

/-! ## Conditions -/

namespace MinecraftOperator
variable {σ : Type}

theorem mergeCondition_same_status (now : Nat) (e c : Condition) (h : e.Status = c.Status) :
    (mergeCondition now e c).type = e.type ∧
    (mergeCondition now e c).Status = e.Status ∧
    (mergeCondition now e c).LastTransitionTime = e.LastTransitionTime := by
  simp [mergeCondition, h]

theorem mergeCondition_idem (now now2 : Nat) (e c : Condition) :
    mergeCondition now2 (mergeCondition now e c) c = mergeCondition now e c := by
  have h := (mergeCondition_fields now e c).2.1
  unfold mergeCondition at h ⊢
  by_cases hs : e.Status = c.Status
  · simp [hs]
  · simp [hs]

theorem SetStatusCondition_stable (now : Nat) (cs : List Condition) (c e : Condition)
    (hfind : cs.find? (fun x => x.type == c.type) = some e) (hs : e.Status = c.Status) :
    (SetStatusCondition now cs c).length = cs.length ∧
    (SetStatusCondition now cs c).map Condition.type = cs.map Condition.type ∧
    (SetStatusCondition now cs c).map Condition.Status = cs.map Condition.Status ∧
    (SetStatusCondition now cs c).map Condition.LastTransitionTime
      = cs.map Condition.LastTransitionTime := by
  induction cs with
  | nil => simp at hfind
  | cons c0 cs ih =>
    unfold SetStatusCondition
    by_cases h : c0.type = c.type
    · have he : e = c0 := by
        simp [List.find?, h] at hfind
        exact hfind.symm
      subst he
      obtain ⟨h1, h2, h3⟩ := mergeCondition_same_status now e c hs
      simp [h, h1, h2, h3]
    · have hb : (c0.type == c.type) = false := by simpa using h
      have hfind' : cs.find? (fun x => x.type == c.type) = some e := by
        simpa [List.find?, hb] using hfind
      obtain ⟨h1, h2, h3, h4⟩ := ih hfind'
      simp [h, h1, h2, h3, h4]

theorem SetStatusCondition_idem (now now2 : Nat) (cs : List Condition) (c : Condition) :
    SetStatusCondition now2 (SetStatusCondition now cs c) c = SetStatusCondition now cs c := by
  induction cs with
  | nil =>
    obtain ⟨t, st, og, ltt, re, msg⟩ := c
    by_cases h : ltt = 0
    · simp [SetStatusCondition, mergeCondition, h]
    · simp [SetStatusCondition, mergeCondition, h]
  | cons c0 cs ih =>
    by_cases h : c0.type = c.type
    · have h1 := (mergeCondition_fields now c0 c).1
      have : SetStatusCondition now (c0 :: cs) c = mergeCondition now c0 c :: cs := by
        simp [SetStatusCondition, h]
      rw [this]
      simp [SetStatusCondition, h1, h, mergeCondition_idem]
    · have : SetStatusCondition now (c0 :: cs) c = c0 :: SetStatusCondition now cs c := by
        simp [SetStatusCondition, h]
      rw [this]
      simp [SetStatusCondition, h, ih]

/-- C13. Condition stability: when the condition of the type being set (the one
`SetStatusCondition` looks up) is present with the same status, setting it adds
and removes no entry and leaves the type, the status and the last-transition
time of every entry as they were; and setting the same condition a second time
leaves the whole list, the last-transition times included, as the first call
left it, whatever the clock reads. -/
theorem condition_stability (now : Nat) (cs : List Condition) (c : Condition) :
    (∀ e, cs.find? (fun x => x.type == c.type) = some e → e.Status = c.Status →
      (SetStatusCondition now cs c).length = cs.length ∧
      (SetStatusCondition now cs c).map Condition.type = cs.map Condition.type ∧
      (SetStatusCondition now cs c).map Condition.Status = cs.map Condition.Status ∧
      (SetStatusCondition now cs c).map Condition.LastTransitionTime
        = cs.map Condition.LastTransitionTime) ∧
    (∀ now2, SetStatusCondition now2 (SetStatusCondition now cs c) c
      = SetStatusCondition now cs c) :=
  ⟨fun e hfind hs => SetStatusCondition_stable now cs c e hfind hs,
    fun now2 => SetStatusCondition_idem now now2 cs c⟩

theorem condition_stability_witness :
    [mcStarted].find? (fun x => x.type == startingCondition.type) = some mcStarted ∧
      mcStarted.Status = startingCondition.Status ∧
      (SetStatusCondition 9 [mcStarted] startingCondition).map Condition.LastTransitionTime
        = [mcStarted].map Condition.LastTransitionTime ∧
      (SetStatusCondition 9 [mcStarted] startingCondition).length = 1 ∧
      SetStatusCondition 20 (SetStatusCondition 9 [mcStarted] mcAvailable) mcAvailable
        = SetStatusCondition 9 [mcStarted] mcAvailable ∧
      (SetStatusCondition 9 [mcStarted] mcAvailable).map Condition.LastTransitionTime = [9] :=
  have h := condition_stability 9 [mcStarted] startingCondition
  have h2 := condition_stability 9 [mcStarted] mcAvailable
  ⟨by decide, rfl, (h.1 mcStarted (by decide) rfl).2.2.2, (h.1 mcStarted (by decide) rfl).1,
    h2.2 20, by decide⟩

end MinecraftOperator

/-! ## Fetching the parent again after a status write -/

namespace MinecraftOperator
variable {σ : Type}

theorem InitRun_next_stale {req : Request} {m m1 : Minecraft} {ext : List Entry}
    (h : InitRun req m (Flow.next m1) ext) (l : List Entry) :
    staleWritesFrom none (ext ++ l) = staleWritesFrom none l := by
  cases h <;> simp [staleWritesFrom]

theorem FinalizerRun_next_stale {m m1 : Minecraft} {ext : List Entry}
    (h : FinalizerRun m (Flow.next m1) ext) (l : List Entry) :
    staleWritesFrom none (ext ++ l) = staleWritesFrom none l := by
  cases h <;> simp [staleWritesFrom]

theorem InitRun_done_stale {req : Request} {m : Minecraft} {res : Go (Result × Option Err)}
    {ext : List Entry} (h : InitRun req m (Flow.done res) ext) :
    staleWritesFrom none ext = [] := by
  cases h <;> simp [staleWritesFrom]

theorem FinalizerRun_done_stale {m : Minecraft} {res : Go (Result × Option Err)}
    {ext : List Entry} (h : FinalizerRun m (Flow.done res) ext) :
    staleWritesFrom none ext = [] := by
  cases h
  simp [staleWritesFrom]

theorem CreateRun_stale {r : MinecraftReconciler σ} {m : Minecraft} {k : Kind}
    {res : Go (Result × Option Err)} {ext : List Entry} (h : CreateRun r m k res ext) :
    staleWritesFrom none ext = [] := by
  cases h <;> simp [staleWritesFrom]

theorem DependentsRun_stale {r : MinecraftReconciler σ} {m : Minecraft} {ks : List Kind}
    {res : Go (Result × Option Err)} {ext : List Entry} (h : DependentsRun r m ks res ext) :
    staleWritesFrom none ext = [] := by
  induction h with
  | allFound => rfl
  | found k ks res ext _ ih => simpa [staleWritesFrom] using ih
  | fetchError k ks err h => simp [staleWritesFrom]
  | absent k ks err h res ext run => simpa [staleWritesFrom] using CreateRun_stale run

theorem DeleteRun_stale {req : Request} {m : Minecraft} {res : Go (Result × Option Err)}
    {ext : List Entry} (h : DeleteRun req m res ext) (pre : List Entry) :
    staleWritesFrom none ext = [] ∨
      ∃ p, staleWritesFrom none ext = [p] ∧ IsFinalizerRemoval (pre ++ ext) p := by
  cases h with
  | noFinalizer h => exact Or.inl rfl
  | statusError h now err => exact Or.inl (by simp [staleWritesFrom])
  | getError h now m1 err => exact Or.inl (by simp [staleWritesFrom, deletingEvent])
  | secondStatusError h now m1 m2 now2 err =>
    exact Or.inl (by simp [staleWritesFrom, deletingEvent])
  | finalizerGone h now m1 m2 now2 m3 h3 =>
    exact Or.inl (by simp [staleWritesFrom, deletingEvent])
  | updateError h now m1 m2 now2 m3 h3 err =>
    refine Or.inr ⟨(Entry.StatusUpdate (m2.setCondition now2 (finalizedCondition m2))
      (Ret.ok m3), Entry.Update (RemoveFinalizer m3 minecraftFinalizer).1 (Ret.error err)),
      by simp [staleWritesFrom, deletingEvent], ?_⟩
    exact ⟨m2.setCondition now2 (finalizedCondition m2), m3, Ret.error err,
      pre ++ [Entry.StatusUpdate (m.setCondition now (finalizingCondition m)) (Ret.ok m1),
        deletingEvent m1, Entry.Get req.NamespacedName (Ret.ok m2)],
      rfl, hasCondition_setCondition m2 now2 (finalizedCondition m2), by simp⟩
  | finished h now m1 m2 now2 m3 h3 m4 =>
    refine Or.inr ⟨(Entry.StatusUpdate (m2.setCondition now2 (finalizedCondition m2))
      (Ret.ok m3), Entry.Update (RemoveFinalizer m3 minecraftFinalizer).1 (Ret.ok m4)),
      by simp [staleWritesFrom, deletingEvent], ?_⟩
    exact ⟨m2.setCondition now2 (finalizedCondition m2), m3, Ret.ok m4,
      pre ++ [Entry.StatusUpdate (m.setCondition now (finalizingCondition m)) (Ret.ok m1),
        deletingEvent m1, Entry.Get req.NamespacedName (Ret.ok m2)],
      rfl, hasCondition_setCondition m2 now2 (finalizedCondition m2), by simp⟩

theorem PassRun_stale {r : MinecraftReconciler σ} {req : Request}
    {res : Go (Result × Option Err)} {log : List Entry} (h : PassRun r req res log) :
    staleWrites log = [] ∨ ∃ p, staleWrites log = [p] ∧ IsFinalizerRemoval log p := by
  unfold staleWrites
  cases h with
  | notFound err h => exact Or.inl rfl
  | getError err h => exact Or.inl rfl
  | initReturned m0 res ext1 init =>
    exact Or.inl (by simpa [staleWritesFrom] using InitRun_done_stale init)
  | finalizerReturned m0 m1 res ext1 ext2 init fin =>
    refine Or.inl ?_
    simp only [staleWritesFrom]
    rw [InitRun_next_stale init]
    exact FinalizerRun_done_stale fin
  | deleting m0 m1 m2 res ext1 ext2 ext3 init fin h del =>
    have hs : staleWritesFrom none
        (Entry.Get req.NamespacedName (Ret.ok m0) :: (ext1 ++ ext2 ++ ext3))
        = staleWritesFrom none ext3 := by
      simp only [staleWritesFrom]
      rw [List.append_assoc, InitRun_next_stale init, FinalizerRun_next_stale fin]
    rw [hs]
    rcases DeleteRun_stale del (Entry.Get req.NamespacedName (Ret.ok m0) :: (ext1 ++ ext2))
      with h0 | ⟨p, hp, hfin⟩
    · exact Or.inl h0
    · exact Or.inr ⟨p, hp, by simpa using hfin⟩
  | converging m0 m1 m2 res ext1 ext2 ext3 init fin h deps =>
    refine Or.inl ?_
    simp only [staleWritesFrom]
    rw [List.append_assoc, InitRun_next_stale init, FinalizerRun_next_stale fin]
    exact DependentsRun_stale deps

/-- C11, as the code has it. In every pass, a parent write that follows a
status write with no fetch of the parent in between occurs at most once, and
only in this form: it is the update that removes the finalizer, it comes right
after the status write with `Degraded=True` at the end of the log, and it is
issued on the object that status write returned. Every other status write (the
one of the initialization step, the first one of the deletion branch) is
followed by a fetch of the parent before the next write to the parent. -/
theorem refetch_after_status_write (r : MinecraftReconciler σ) (req : Request) (s : σ) :
    staleWrites (Reconcile r req s).2.log = [] ∨
      ∃ p, staleWrites (Reconcile r req s).2.log = [p] ∧
        IsFinalizerRemoval (Reconcile r req s).2.log p :=
  PassRun_stale (Reconcile_run r req s)

/-- C11 fails as stated: in the pass that finalizes a parent marked for deletion,
every store call succeeding, the update that removes the finalizer is issued
right after the second status write, with no fetch of the parent in between. -/
theorem finalizer_update_without_refetch :
    ((Reconcile memReconciler mcRequest { parent := some mcDeleting }).2.log.all
        fun x => !x.failed) = true ∧
      (staleWrites (Reconcile memReconciler mcRequest { parent := some mcDeleting }).2.log).length
        = 1 ∧
      staleWrites (Reconcile memReconciler mcRequest { parent := some mcDeleting }).2.log ≠ [] ∧
      ((Reconcile memReconciler mcRequest { parent := some mcDeleting }).2.log.map
          fun x => (x.isWrite, x.isEvent)).drop 1
        = [(true, false), (false, true), (false, false), (true, false), (true, false)] := by
  refine ⟨by rfl, by rfl, by decide, by rfl⟩

end MinecraftOperator

/-! ## The finalizer step -/

namespace MinecraftOperator
variable {σ : Type}

theorem AddFinalizer_contains (m : Minecraft) (f : String) :
    ContainsFinalizer (AddFinalizer m f).1 f = true := by
  unfold AddFinalizer ContainsFinalizer
  by_cases h : m.Finalizers.any (fun e => e == f) = true
  · simp only [h, if_true]
  · simp [h]

theorem getLast?_append_of_some (l1 : List Entry) {l2 : List Entry} {x : Entry}
    (h : l2.getLast? = some x) : (l1 ++ l2).getLast? = some x := by
  rw [List.getLast?_append, h]
  rfl

theorem CreateRun_requeue {r : MinecraftReconciler σ} {m : Minecraft} {k : Kind}
    {res : Go (Result × Option Err)} {ext : List Entry} (h : CreateRun r m k res ext)
    (hres : res = Go.ret ({ Requeue := true }, none)) :
    ∃ x, ext.getLast? = some x ∧ x.isWrite = true := by
  cases h with
  | panicked msg h => cases hres
  | reportError err h now err2 => simp at hres
  | reported err h now m1 => simp at hres
  | createError obj h err => simp at hres
  | created obj h => exact ⟨_, rfl, rfl⟩

theorem DependentsRun_requeue {r : MinecraftReconciler σ} {m : Minecraft} {ks : List Kind}
    {res : Go (Result × Option Err)} {ext : List Entry} (h : DependentsRun r m ks res ext)
    (hres : res = Go.ret ({ Requeue := true }, none)) :
    ∃ x, ext.getLast? = some x ∧ x.isWrite = true := by
  induction h with
  | allFound => simp at hres
  | found k ks res ext _ ih =>
    obtain ⟨x, hx, hw⟩ := ih hres
    exact ⟨x, getLast?_append_of_some [_] hx, hw⟩
  | fetchError k ks err h => simp at hres
  | absent k ks err h res ext run =>
    obtain ⟨x, hx, hw⟩ := CreateRun_requeue run hres
    exact ⟨x, getLast?_append_of_some [_] hx, hw⟩

theorem PassRun_requeue {r : MinecraftReconciler σ} {req : Request}
    {res : Go (Result × Option Err)} {log : List Entry} (h : PassRun r req res log)
    (hres : res = Go.ret ({ Requeue := true }, none)) :
    ∃ x, log.getLast? = some x ∧ x.isWrite = true := by
  cases h with
  | notFound err h => simp at hres
  | getError err h => simp at hres
  | initReturned m0 res ext1 init => cases init <;> simp at hres
  | finalizerReturned m0 m1 res ext1 ext2 init fin =>
    cases fin
    simp at hres
  | deleting m0 m1 m2 res ext1 ext2 ext3 init fin h del =>
    have : ∃ x, ext3.getLast? = some x ∧ x.isWrite = true := by
      cases del with
      | noFinalizer h => simp at hres
      | statusError h now err => simp at hres
      | getError h now m1 err => simp at hres
      | secondStatusError h now m1 m2 now2 err => simp at hres
      | finalizerGone h now m1 m2 now2 m3 h3 => exact ⟨_, rfl, rfl⟩
      | updateError h now m1 m2 now2 m3 h3 err => simp at hres
      | finished h now m1 m2 now2 m3 h3 m4 => simp at hres
    obtain ⟨x, hx, hw⟩ := this
    exact ⟨x, getLast?_append_of_some (Entry.Get req.NamespacedName (Ret.ok m0)
      :: (ext1 ++ ext2)) hx, hw⟩
  | converging m0 m1 m2 res ext1 ext2 ext3 init fin h deps =>
    obtain ⟨x, hx, hw⟩ := DependentsRun_requeue deps hres
    exact ⟨x, getLast?_append_of_some (Entry.Get req.NamespacedName (Ret.ok m0)
      :: (ext1 ++ ext2)) hx, hw⟩

theorem ensureFinalizer_cases (r : MinecraftReconciler σ) (m : Minecraft) (w : World σ) :
    (ContainsFinalizer m minecraftFinalizer = true ∧
        ensureFinalizer r m w = (Flow.next m, w)) ∨
      (ContainsFinalizer m minecraftFinalizer = false ∧
        ∃ (err : Err) (w2 : World σ),
          (r.Client.Update w.store (AddFinalizer m minecraftFinalizer).1).1 = Ret.error err ∧
          ensureFinalizer r m w = (Flow.done (Go.ret ({}, some err)), w2)) ∨
      (ContainsFinalizer m minecraftFinalizer = false ∧
        ∃ (m1 : Minecraft) (w2 : World σ),
          (r.Client.Update w.store (AddFinalizer m minecraftFinalizer).1).1 = Ret.ok m1 ∧
          ensureFinalizer r m w = (Flow.next m1, w2)) := by
  by_cases hc : ContainsFinalizer m minecraftFinalizer = true
  · exact Or.inl ⟨hc, by simp [ensureFinalizer, hc]⟩
  · have h : ContainsFinalizer m minecraftFinalizer = false := by simpa using hc
    obtain ⟨m', b, hadd⟩ : ∃ m' b, AddFinalizer m minecraftFinalizer = (m', b) := ⟨_, _, rfl⟩
    have hb : b = true := by
      have := AddFinalizer_changed m minecraftFinalizer h
      rw [hadd] at this
      exact this
    subst hb
    have hm : (AddFinalizer m minecraftFinalizer).1 = m' := by rw [hadd]
    rw [hm]
    cases hu : (r.Client.Update w.store m').1 with
    | error err =>
      refine Or.inr (Or.inl ⟨h, err, (r.Update w m').2, rfl, ?_⟩)
      simp only [ensureFinalizer, h, Bool.not_false, if_true, hadd, MinecraftReconciler.Update,
        hu]
    | ok m1 =>
      refine Or.inr (Or.inr ⟨h, m1, (r.Update w m').2, rfl, ?_⟩)
      simp only [ensureFinalizer, h, Bool.not_false, if_true, hadd, MinecraftReconciler.Update,
        hu]

/-- C18, as the code has it. The "failed to add finalizer" branch is
unreachable. `AddFinalizer` is called only on a parent for which
`ContainsFinalizer` has just returned false, so it reports a change and the
object sent to the store carries the token. The finalizer step therefore never
returns `(Requeue: true, nil)`, and a pass of `Reconcile` that returns
`(Requeue: true, nil)` ends with a write (a create, or the second status write
of the deletion branch), never with the fetch that precedes the finalizer step.
When the step falls through, the parent in hand is either the parent the step
was given, which carries the token, or the reply of the store to the update of
the parent with the token added; it carries the token whenever that reply
keeps the finalizers it was sent. -/
theorem add_finalizer_branch_unreachable (r : MinecraftReconciler σ) (m : Minecraft)
    (w : World σ) (req : Request) (s : σ) :
    (ContainsFinalizer m minecraftFinalizer = false →
      (AddFinalizer m minecraftFinalizer).2 = true ∧
      ContainsFinalizer (AddFinalizer m minecraftFinalizer).1 minecraftFinalizer = true) ∧
    (ensureFinalizer r m w).1 ≠ Flow.done (Go.ret ({ Requeue := true }, none)) ∧
    ((Reconcile r req s).1 = Go.ret ({ Requeue := true }, none) →
      ∃ x, (Reconcile r req s).2.log.getLast? = some x ∧ x.isWrite = true) ∧
    (∀ m2, (ensureFinalizer r m w).1 = Flow.next m2 →
      (ContainsFinalizer m minecraftFinalizer = true ∧ m2 = m) ∨
      (ContainsFinalizer m minecraftFinalizer = false ∧
        (r.Client.Update w.store (AddFinalizer m minecraftFinalizer).1).1 = Ret.ok m2 ∧
        ContainsFinalizer (AddFinalizer m minecraftFinalizer).1 minecraftFinalizer = true)) ∧
    (∀ m2, (ensureFinalizer r m w).1 = Flow.next m2 →
      (∀ reply, (r.Client.Update w.store (AddFinalizer m minecraftFinalizer).1).1
          = Ret.ok reply →
        reply.Finalizers = (AddFinalizer m minecraftFinalizer).1.Finalizers) →
      ContainsFinalizer m2 minecraftFinalizer = true) := by
  refine ⟨fun h => ⟨AddFinalizer_changed m _ h, AddFinalizer_contains m _⟩, ?_,
    fun hres => PassRun_requeue (Reconcile_run r req s) hres, ?_, ?_⟩
  · rcases ensureFinalizer_cases r m w with ⟨_, h⟩ | ⟨_, err, w2, _, h⟩ | ⟨_, m1, w2, _, h⟩ <;>
      simp [h]
  · intro m2 hnext
    rcases ensureFinalizer_cases r m w with ⟨hc, h⟩ | ⟨_, err, w2, _, h⟩ | ⟨hc, m1, w2, hu, h⟩
    · rw [h] at hnext
      simp only [Flow.next.injEq] at hnext
      exact Or.inl ⟨hc, hnext.symm⟩
    · rw [h] at hnext
      cases hnext
    · rw [h] at hnext
      simp only [Flow.next.injEq] at hnext
      subst hnext
      exact Or.inr ⟨hc, hu, AddFinalizer_contains m _⟩
  · intro m2 hnext hecho
    rcases ensureFinalizer_cases r m w with ⟨hc, h⟩ | ⟨_, err, w2, _, h⟩ | ⟨_, m1, w2, hu, h⟩
    · rw [h] at hnext
      simp only [Flow.next.injEq] at hnext
      rw [← hnext]
      exact hc
    · rw [h] at hnext
      cases hnext
    · rw [h] at hnext
      simp only [Flow.next.injEq] at hnext
      subst hnext
      have := hecho m1 hu
      have hadd := AddFinalizer_contains m minecraftFinalizer
      unfold ContainsFinalizer at hadd ⊢
      rw [this]
      exact hadd

theorem add_finalizer_branch_unreachable_witness :
    ContainsFinalizer { mcFresh with Conditions := [mcStarted] } minecraftFinalizer = false ∧
      (AddFinalizer { mcFresh with Conditions := [mcStarted] } minecraftFinalizer).2 = true ∧
      (ensureFinalizer memReconciler { mcFresh with Conditions := [mcStarted] }
        { store := { parent := some { mcFresh with Conditions := [mcStarted] } }, log := [] }).1
        = Flow.next { mcReady with ResourceVersion := 1 } ∧
      (memClient.Update { parent := some { mcFresh with Conditions := [mcStarted] } }
        (AddFinalizer { mcFresh with Conditions := [mcStarted] } minecraftFinalizer).1).1
        = Ret.ok { mcReady with ResourceVersion := 1 } ∧
      ContainsFinalizer { mcReady with ResourceVersion := 1 } minecraftFinalizer = true :=
  have h := add_finalizer_branch_unreachable memReconciler
    { mcFresh with Conditions := [mcStarted] }
    { store := { parent := some { mcFresh with Conditions := [mcStarted] } }, log := [] }
    mcRequest { parent := some mcFresh }
  ⟨by rfl, (h.1 (by rfl)).1, by rfl,
    ((h.2.2.2.1 { mcReady with ResourceVersion := 1 } (by rfl)).resolve_left
      (fun hl => absurd hl.1 (by decide))).2.1,
    h.2.2.2.2 { mcReady with ResourceVersion := 1 } (by rfl) (fun reply hr => by
      have : reply = { mcReady with ResourceVersion := 1 } := by
        have h2 : (memReconciler.Client.Update
            { parent := some { mcFresh with Conditions := [mcStarted] } }
            (AddFinalizer { mcFresh with Conditions := [mcStarted] } minecraftFinalizer).1).1
            = Ret.ok { mcReady with ResourceVersion := 1 } := by rfl
        rw [h2] at hr
        exact (Ret.ok.inj hr).symm
      rw [this]
      rfl)⟩

/-- C18 fails as stated: over a store that accepts every update but sends the
parent back without its finalizers, the parent `default/mc` has a condition, no
finalizer token and no deletion marker. The finalizer step sends the parent
with the token added, the store accepts, and the step falls through with a
parent in hand that does not carry the token. The pass goes on to create the
volume claim and returns a nil error, every store call having succeeded. -/
theorem finalizer_dropped_by_store :
    ContainsFinalizer { mcFresh with Conditions := [mcStarted] } minecraftFinalizer = false ∧
      (ensureFinalizer memReconcilerDropping { mcFresh with Conditions := [mcStarted] }
        { store := { parent := some { mcFresh with Conditions := [mcStarted] } }, log := [] })
        = (Flow.next { mcFresh with Conditions := [mcStarted], ResourceVersion := 1 },
            { store :=
                { parent := some { mcFresh with Conditions := [mcStarted], ResourceVersion := 1 },
                  clock := 2 }
              log := [Entry.Update
                { mcFresh with Conditions := [mcStarted], Finalizers := [minecraftFinalizer] }
                (Ret.ok { mcFresh with Conditions := [mcStarted], ResourceVersion := 1 })] }) ∧
      ContainsFinalizer { mcFresh with Conditions := [mcStarted], ResourceVersion := 1 }
        minecraftFinalizer = false ∧
      (Reconcile memReconcilerDropping mcRequest
        { parent := some { mcFresh with Conditions := [mcStarted] } }).2.log
        = [Entry.Get mcRequest.NamespacedName (Ret.ok { mcFresh with Conditions := [mcStarted] }),
           Entry.Update
             { mcFresh with Conditions := [mcStarted], Finalizers := [minecraftFinalizer] }
             (Ret.ok { mcFresh with Conditions := [mcStarted], ResourceVersion := 1 }),
           Entry.GetDependent Kind.PersistentVolumeClaim mcRequest.NamespacedName
             (some notFoundErr),
           Entry.Create (Object.pvc mcClaim) none] ∧
      ((Reconcile memReconcilerDropping mcRequest
        { parent := some { mcFresh with Conditions := [mcStarted] } }).2.log.all
          fun x => !x.failed) = true ∧
      (Reconcile memReconcilerDropping mcRequest
        { parent := some { mcFresh with Conditions := [mcStarted] } }).1
        = Go.ret ({ RequeueAfter := Minute }, none) := by
  refine ⟨by rfl, by rfl, by rfl, by rfl, by rfl, by rfl⟩

end MinecraftOperator

/-! ## Convergence over the in-memory store -/

namespace MinecraftOperator
variable {σ : Type}

/-- With an image without a tag in the environment, over the same store and
from the same fresh parent, every store call succeeds but no pass creates a
dependent: each of the first five passes panics in `labelsForMinecraft` once
the volume claim is found absent. -/
theorem no_convergence_without_tag :
    ((Reconcile memReconcilerUntagged mcRequest { parent := some mcFresh }).2.log.all
        fun x => !x.failed) = true ∧
      (List.range 5).map (fun i =>
        createdKinds (Reconcile memReconcilerUntagged mcRequest
          (storeAfterPasses memReconcilerUntagged mcRequest i
            { parent := some mcFresh })).2.log) = [[], [], [], [], []] ∧
      (List.range 5).map (fun i =>
        (Reconcile memReconcilerUntagged mcRequest
          (storeAfterPasses memReconcilerUntagged mcRequest i { parent := some mcFresh })).1)
        = List.replicate 5 (Go.panic "index out of range [1]") ∧
      (storeAfterPasses memReconcilerUntagged mcRequest 5
        { parent := some mcFresh }).dependents = [] := by
  refine ⟨by rfl, by rfl, by rfl, by rfl⟩

end MinecraftOperator
